import Mathlib

/-!
# sbdd: simple block device driver (src/sbdd.c)

A shallow embedding of the storage engine of `src/sbdd.c`: the per-segment
transfer (`sbdd_xfer`), the submit path (`sbdd_make_request`), the device
table (`find_device_by_name`, `add_new_sbdd`, `sbdd_setup`, `sbdd_destroy`)
and the command console (`execute_command`, `create_com`, `change_mode_com`).

Conventions of the embedding.

* `sector_t`, `size_t` and `unsigned long` are 64-bit words: natural numbers
  with an explicit `% 2 ^ 64` after every arithmetic operation. `atomic_t`
  and `unsigned int` are 32-bit words, reduced `% 2 ^ 32`.
* A pointer is an `Option`: `none` is `NULL`, `some x` is a pointer to `x`.
  A pointer into the device table is the index of the slot.
* A `char *` string is the list of its characters before the terminating NUL.
* A function returns `Option`: `none` means that the call does not return
  normally (a memory access outside the object it was given, a `NULL`
  dereference, or a wait that is never woken).
* Spinlocks are taken and released inside one call, so they are not part of
  the sequential state. The section on interleaved execution runs
  `sbdd_make_request` and the head of `sbdd_destroy` statement by statement
  and carries the lock `transferring` explicitly.
-/

namespace Sbdd

/-! ## Machine words -/

/-- Addition of 64-bit words. -/
def u64_add (a b : Nat) : Nat := (a + b) % 2 ^ 64

/-- Subtraction of 64-bit words (wraps around below zero). -/
def u64_sub (a b : Nat) : Nat := (a % 2 ^ 64 + (2 ^ 64 - b % 2 ^ 64)) % 2 ^ 64

/-- Multiplication of 64-bit words. -/
def u64_mul (a b : Nat) : Nat := (a * b) % 2 ^ 64

/-- Left shift of a 64-bit word. -/
def u64_shl (a k : Nat) : Nat := (a <<< k) % 2 ^ 64

/-- Increment of an `atomic_t`. -/
def atomic_inc (v : Nat) : Nat := (v + 1) % 2 ^ 32

/-- Decrement of an `atomic_t`. -/
def atomic_dec (v : Nat) : Nat := (v % 2 ^ 32 + (2 ^ 32 - 1)) % 2 ^ 32

/-! ## Constants -/

def MAX_DEV_NAME_SIZE : Nat := 8
def SBDD_SECTOR_SHIFT : Nat := 9
def SBDD_SECTOR_SIZE : Nat := 1 <<< SBDD_SECTOR_SHIFT
def SBDD_MIB_SECTORS : Nat := 1 <<< (20 - SBDD_SECTOR_SHIFT)
def MAX_DEVICES : Nat := 16

/-- Size of `disk_name` in `struct gendisk` (include/linux/genhd.h). -/
def DISK_NAME_LEN : Nat := 32

/-- Kernel error number `EINVAL` (include/uapi/asm-generic/errno-base.h). -/
def EINVAL : Int := 22
/-- Kernel error number `ENOMEM` (include/uapi/asm-generic/errno-base.h). -/
def ENOMEM : Int := 12
/-- Block status `BLK_STS_OK` (include/linux/blk_types.h). -/
def BLK_STS_OK : Nat := 0
/-- Block status `BLK_STS_IOERR` (include/linux/blk_types.h). -/
def BLK_STS_IOERR : Nat := 10

/-! ## Data model -/

abbrev u8 := UInt8

/-- The part of `struct request_queue` the driver sets. -/
structure request_queue where
  logical_block_size : Nat
deriving DecidableEq

/-- The part of `struct gendisk` the driver sets; `policy` is the read-only
flag written by `set_disk_ro`. -/
structure gendisk where
  major : Int
  first_minor : Nat
  disk_name : List Char
  capacity : Nat
  policy : Int
deriving DecidableEq

/-- The part of `struct device` the driver sets (`dev_set_name`). -/
structure device where
  kobj_name : List Char
deriving DecidableEq

/-- The record `struct sbdd`. `exitwait` records whether
`init_waitqueue_head` has run (an initialised list head is not all-zero). -/
structure sbdd where
  name : Option (List Char)
  exitwait : Bool
  deleting : Nat
  refs_cnt : Nat
  capacity : Nat
  data : Option (List u8)
  gd : Option gendisk
  q : Option request_queue
  dev : Option device
deriving DecidableEq

/-- The all-zero record `__zero_sbdd = {0}`. -/
def __zero_sbdd : sbdd :=
  { name := none, exitwait := false, deleting := 0, refs_cnt := 0, capacity := 0,
    data := none, gd := none, q := none, dev := none }

/-- One segment `struct bio_vec`: `buff` is the memory at
`page_address(bv_page) + bv_offset`, `bv_len` its length in bytes. -/
structure bio_vec where
  buff : List u8
  bv_len : Nat
deriving DecidableEq

/-- The part of `struct bio` the driver reads: the start sector
`bi_iter.bi_sector`, the direction `bio_data_dir` and the segments that
`bio_for_each_segment` walks through. -/
structure bio where
  bi_sector : Nat
  dir : Nat
  segs : List bio_vec
deriving DecidableEq

/-! ## Transfer engine -/

/-- The call `memcpy(dst + doff, src + soff, n)`: the new content of `dst`.
A copy of zero bytes touches nothing; a copy that leaves either buffer does
not return. -/
def memcpy (dst : List u8) (doff : Nat) (src : List u8) (soff n : Nat) : Option (List u8) :=
  if n = 0 then some dst
  else if doff + n ≤ dst.length ∧ soff + n ≤ src.length then
    some (dst.take doff ++ (src.drop soff).take n ++ dst.drop (doff + n))
  else none

/-- The local `len` of `sbdd_xfer` after the clamp at the capacity. -/
def sbdd_xfer_len (bvec : bio_vec) (pos : Nat) (dev : sbdd) : Nat :=
  let len := (bvec.bv_len % 2 ^ 32) >>> SBDD_SECTOR_SHIFT
  if u64_add pos len > dev.capacity then u64_sub dev.capacity pos else len

/-- The function `sbdd_xfer`: returns `len`, the segment and the device after the copy. -/
def sbdd_xfer (bvec : bio_vec) (pos : Nat) (dir : Nat) (dev : sbdd) :
    Option (Nat × bio_vec × sbdd) :=
  let len := sbdd_xfer_len bvec pos dev
  let offset := u64_shl pos SBDD_SECTOR_SHIFT
  let nbytes := u64_shl len SBDD_SECTOR_SHIFT
  match dev.data with
  | none => if nbytes = 0 then some (len, bvec, dev) else none
  | some data =>
    if dir ≠ 0 then
      (memcpy data offset bvec.buff 0 nbytes).map
        fun d => (len, bvec, { dev with data := some d })
    else
      (memcpy bvec.buff 0 data offset nbytes).map
        fun b => (len, { bvec with buff := b }, dev)

/-- The loop `bio_for_each_segment(bvec, bio, iter) pos += sbdd_xfer(...)`:
returns the final `pos`, the segments and the device. -/
def xfer_segments : List bio_vec → Nat → Nat → sbdd → Option (Nat × List bio_vec × sbdd)
  | [], pos, _, dev => some (pos, [], dev)
  | bvec :: rest, pos, dir, dev =>
    match sbdd_xfer bvec pos dir dev with
    | none => none
    | some (n, bvec1, dev1) =>
      match xfer_segments rest (u64_add pos n) dir dev1 with
      | none => none
      | some (p, rest1, dev2) => some (p, bvec1 :: rest1, dev2)

/-- The function `sbdd_xfer_bio`. -/
def sbdd_xfer_bio (b : bio) (dev : sbdd) : Option (Nat × List bio_vec × sbdd) :=
  xfer_segments b.segs b.bi_sector b.dir dev

/-- The function `sbdd_make_request`: the returned status, the bio and the device. -/
def sbdd_make_request (b : bio) (dev : sbdd) : Option (Nat × bio × sbdd) :=
  if dev.deleting ≠ 0 then some (BLK_STS_IOERR, b, dev)
  else
    match sbdd_xfer_bio b { dev with refs_cnt := atomic_inc dev.refs_cnt } with
    | none => none
    | some (_, segs1, dev1) =>
      some (BLK_STS_OK, { b with segs := segs1 },
        { dev1 with refs_cnt := atomic_dec dev1.refs_cnt })

/-- A sequence of submits against one device: the statuses in order and the
final device. -/
def submit_all : List bio → sbdd → Option (List Nat × sbdd)
  | [], dev => some ([], dev)
  | b :: rest, dev =>
    match sbdd_make_request b dev with
    | none => none
    | some (st, _, dev1) =>
      match submit_all rest dev1 with
      | none => none
      | some (sts, dev2) => some (st :: sts, dev2)

/-! ## Device table -/

/-- Results of the kernel services `sbdd_setup` and the console call: whether
each allocation succeeds, what the fresh (uninitialised) storage holds, and
the return code of `device_register`. -/
structure kenv where
  vmalloc_ok : Nat → Bool
  vmalloc_fill : Nat → u8
  blk_alloc_queue_ok : Bool
  alloc_disk_ok : Bool
  kzalloc_device_ok : Bool
  device_register_ret : Int
  kzalloc_name_ok : Bool
  kzalloc_arg_ok : Bool

/-- The operating mode `enum mode`. -/
inductive mode where
  | AUTO
  | USER
deriving DecidableEq

/-- The globals of the module: `__mode`, `__devices` (the table that
`sbdd_create` allocates with `kcalloc(MAX_DEVICES, ...)`) and `__sbdd_major`. -/
structure globals where
  __mode : mode
  __devices : List sbdd
  __sbdd_major : Int
deriving DecidableEq

/-- The call `vmalloc(size)`: `none` is `NULL`. -/
def vmalloc (env : kenv) (size : Nat) : Option (List u8) :=
  if env.vmalloc_ok size then some ((List.range size).map env.vmalloc_fill) else none

/-- The call `scnprintf(buf, size, "%s", s)`: the string left in `buf`. -/
def scnprintf_s (size : Nat) (s : List Char) : List Char := s.take (size - 1)

/-- The body of the loop of `find_device_by_name` from slot `i` on: the
index of the slot found, `some none` for `NULL`. The comparison
`strcmp(name, __devices[i].name)` with a `NULL` name does not return. -/
def find_device_from (name : List Char) : List sbdd → Nat → Option (Option Nat)
  | [], _ => some none
  | d :: rest, i =>
    if d = __zero_sbdd then some none
    else
      match d.name with
      | none => none
      | some n => if name = n then some (some i) else find_device_from name rest (i + 1)

/-- The function `find_device_by_name`. -/
def find_device_by_name (devices : List sbdd) (name : List Char) : Option (Option Nat) :=
  find_device_from name (devices.take MAX_DEVICES) 0

/-- The second loop of `add_new_sbdd`: the first slot equal to `__zero_sbdd`. -/
def find_zero_from : List sbdd → Nat → Option Nat
  | [], _ => none
  | d :: rest, i => if d = __zero_sbdd then some i else find_zero_from rest (i + 1)

/-- The function `sbdd_device_register`: return code and device record. -/
def sbdd_device_register (env : kenv) (dev : sbdd) (name : List Char) : Int × sbdd :=
  if env.kzalloc_device_ok then
    (env.device_register_ret, { dev with dev := some { kobj_name := name } })
  else (-ENOMEM, { dev with dev := none })

/-- The function `sbdd_setup` (built without `BLK_MQ_MODE`): the return code
and the content of the slot `dev` points to. `alloc_disk` returning `NULL`
is dereferenced at `dev->gd->queue`; the name must fit the `DISK_NAME_LEN`
bytes of `disk_name`; a failed `kzalloc` of `dev->name` is written through by
`scnprintf`; with `name_len = 0` nothing is written and `dev->name` is left
as a pointer that cannot be dereferenced, which the record shows as `none`. -/
def sbdd_setup (env : kenv) (major : Int) (idx : Nat) (capacity_mib : Nat)
    (name : List Char) (name_len : Nat) : Option (Int × sbdd) :=
  let capacity := u64_mul (capacity_mib % 2 ^ 64) SBDD_MIB_SECTORS
  let dev0 : sbdd := { __zero_sbdd with capacity := capacity }
  match vmalloc env (u64_shl capacity SBDD_SECTOR_SHIFT) with
  | none => some (-ENOMEM, dev0)
  | some data =>
    let dev1 : sbdd := { dev0 with data := some data, exitwait := true }
    if !env.blk_alloc_queue_ok then some (-EINVAL, dev1)
    else
      let dev2 : sbdd := { dev1 with q := some { logical_block_size := SBDD_SECTOR_SIZE } }
      if !env.alloc_disk_ok then none
      else if (scnprintf_s name_len name).length + 1 > DISK_NAME_LEN then none
      else
        let gd : gendisk :=
          { major := major, first_minor := idx, disk_name := scnprintf_s name_len name,
            capacity := capacity, policy := 0 }
        let dev3 : sbdd := { dev2 with gd := some gd }
        let r := sbdd_device_register env dev3 name
        if name_len = 0 then some (r.1, r.2)
        else if !env.kzalloc_name_ok then none
        else some (r.1, { r.2 with name := some (scnprintf_s name_len name) })

/-- The function `add_new_sbdd`: the return code and the globals afterwards. -/
def add_new_sbdd (env : kenv) (g : globals) (capacity_mib : Nat) (name : List Char)
    (name_len : Nat) : Option (Int × globals) :=
  match find_device_by_name g.__devices name with
  | none => none
  | some (some _) => some (-EINVAL, g)
  | some none =>
    match find_zero_from (g.__devices.take MAX_DEVICES) 0 with
    | some i =>
      match sbdd_setup env g.__sbdd_major i capacity_mib name name_len with
      | none => none
      | some (ret, d) => some (ret, { g with __devices := g.__devices.set i d })
    | none => some (1, g)

/-- The function `sbdd_destroy`: the content of the slot afterwards.
`wait_event` returns only when `refs_cnt` is zero; `device_unregister` of a
`NULL` device does not return. -/
def sbdd_destroy (dev : sbdd) : Option sbdd :=
  let dev1 : sbdd := { dev with deleting := 1 }
  if dev1.refs_cnt ≠ 0 then none
  else
    match dev1.dev with
    | none => none
    | some _ => some __zero_sbdd

/-- The call `sbdd_destroy(&__devices[i])`. -/
def destroy_slot (g : globals) (i : Nat) : Option globals :=
  match g.__devices[i]? with
  | none => none
  | some d =>
    match sbdd_destroy d with
    | none => none
    | some z => some { g with __devices := g.__devices.set i z }

/-! ## Command console -/

/-- The terminating character of a C string. -/
def NUL : Char := Char.ofNat 0

/-- Kernel `isspace` (lib/ctype.c): the space, the controls 9 to 13 and 0xa0. -/
def isspace (c : Char) : Bool :=
  c.toNat = 32 || (9 ≤ c.toNat && c.toNat ≤ 13) || c.toNat = 160

/-- Kernel `isdigit`. -/
def isdigit (c : Char) : Bool := 48 ≤ c.toNat && c.toNat ≤ 57

/-- The C string that starts at the beginning of the memory `m`. -/
def cstr (m : List Char) : List Char := m.takeWhile (fun c => c ≠ NUL)

/-- Search of `needle` in the list `hay` from index `i` on. -/
def strstr_from (needle : List Char) : List Char → Nat → Option Nat
  | [], i => if needle = [] then some i else none
  | c :: cs, i =>
    if needle.isPrefixOf (c :: cs) then some i else strstr_from needle cs (i + 1)

/-- The call `strstr(hay, needle)`: the offset of the first occurrence in
the C string at `hay`, `none` for `NULL`. -/
def strstr (hay needle : List Char) : Option Nat := strstr_from needle (cstr hay) 0

/-- The character `*(m + i)` of a buffer `m` that is followed by its
terminating NUL. -/
def char_at (m : List Char) (i : Nat) : Char := (m ++ [NUL]).getD i NUL

/-- Kernel `skip_spaces`. -/
def skip_spaces (s : List Char) : List Char := s.dropWhile isspace

/-- The value of a run of decimal digits, most significant first. -/
def digits_value : List Char → Nat → Nat
  | [], acc => acc
  | c :: cs, acc => digits_value cs (acc * 10 + (c.toNat - 48))

/-- The `%s` conversion of kernel `vsscanf` on the string `str`: the token
stored and the rest of the input (field width `SHRT_MAX`). -/
def scan_token (str : List Char) : List Char × List Char :=
  let s := skip_spaces str
  let tok := (s.takeWhile (fun c => !isspace c)).take 32767
  (tok, s.drop tok.length)

/-- The call `sscanf(args, "%s %lu", name, &capacity_mib)` of kernel
`vsscanf`: the number of conversions, the token and the value. The digits
are accumulated by `simple_strtoul` in a 64-bit word. -/
def sscanf_s_lu (args : List Char) : Nat × List Char × Nat :=
  let str := cstr args
  if str = [] then (0, [], 0)
  else
    let t := scan_token str
    let rest := skip_spaces t.2
    match rest with
    | [] => (1, t.1, 0)
    | d :: _ =>
      if isdigit d then (2, t.1, digits_value (rest.takeWhile isdigit) 0 % 2 ^ 64)
      else (1, t.1, 0)

/-- Conversion of an integer to `int` (the low 32 bits, two's complement). -/
def to_int (v : Int) : Int := (v + 2 ^ 31) % 2 ^ 32 - 2 ^ 31

/-- The call `sscanf(args, "%s %d", name, &mode)` of kernel `vsscanf`: the
number of conversions, the token and the value. `simple_strtol` accepts a
leading minus sign; the value is stored through an `int *`. -/
def sscanf_s_d (args : List Char) : Nat × List Char × Int :=
  let str := cstr args
  if str = [] then (0, [], 0)
  else
    let t := scan_token str
    let rest := skip_spaces t.2
    match rest with
    | [] => (1, t.1, 0)
    | d :: ds =>
      if d = '-' then
        match ds with
        | [] => (1, t.1, 0)
        | e :: _ =>
          if isdigit e then (2, t.1, to_int (-(digits_value (ds.takeWhile isdigit) 0 : Int)))
          else (1, t.1, 0)
      else if isdigit d then (2, t.1, to_int (digits_value (rest.takeWhile isdigit) 0 : Int))
      else (1, t.1, 0)

/-- The table `command_names`. -/
def command_names : List (List Char) := ["create".toList, "change_mode".toList]

/-- The pointer `args = strstr(buf, comm) + strlen(comm) + 1` of both
executors: the memory from `args` on. It does not exist when `comm` is
absent or when the pointer lies past the terminating NUL of `buf`. -/
def command_args (buf comm : List Char) : Option (List Char) :=
  match strstr buf comm with
  | none => none
  | some b => if b + comm.length + 1 ≤ buf.length then some (buf.drop (b + comm.length + 1)) else none

/-- The function `create_com`. The token that `sscanf` stores must fit the
`name_len` bytes allocated for it. -/
def create_com (env : kenv) (g : globals) (buf : List Char) (_count : Nat) :
    Option (Int × globals) :=
  match command_args buf "create".toList with
  | none => none
  | some args =>
    let space := strstr args [' ']
    if g.__mode = mode.AUTO then some (0, g)
    else
      match space with
      | none => some (-EINVAL, g)
      | some sp =>
        let name_len := u64_add sp 1
        if name_len = 0 then some (-EINVAL, g)
        else if name_len - 1 > MAX_DEV_NAME_SIZE then some (-EINVAL, g)
        else if !env.kzalloc_arg_ok then none
        else
          let r := sscanf_s_lu args
          if r.2.1.length + 1 > name_len then none
          else if r.1 < 2 then some (-EINVAL, g)
          else add_new_sbdd env g r.2.2 r.2.1 name_len

/-- The call `set_disk_ro(dev->gd, mode)` on slot `i`. -/
def set_disk_ro (g : globals) (i : Nat) (flag : Int) : Option globals :=
  match g.__devices[i]? with
  | none => none
  | some d =>
    match d.gd with
    | none => none
    | some gd =>
      some { g with __devices := g.__devices.set i { d with gd := some { gd with policy := flag } } }

/-- The function `change_mode_com`. -/
def change_mode_com (env : kenv) (g : globals) (buf : List Char) (_count : Nat) :
    Option (Int × globals) :=
  match command_args buf "change_mode".toList with
  | none => none
  | some args =>
    match strstr args [' '] with
    | none => some (-EINVAL, g)
    | some sp =>
      let name_len := u64_add sp 1
      if name_len = 0 then some (-EINVAL, g)
      else if !env.kzalloc_arg_ok then none
      else
        let r := sscanf_s_d args
        if r.2.1.length + 1 > name_len then none
        else if r.1 < 2 then some (-EINVAL, g)
        else if r.2.2 ≠ 0 ∧ r.2.2 ≠ 1 then some ((r.1 : Int), g)
        else
          match find_device_by_name g.__devices r.2.1 with
          | none => none
          | some none => some (0, g)
          | some (some i) =>
            match g.__devices[i]? with
            | none => none
            | some d =>
              if d.deleting ≠ 0 then some (1, g)
              else
                match set_disk_ro g i r.2.2 with
                | none => none
                | some g1 => some (0, g1)

/-- The test of the loop of `execute_command` for the command `name`. -/
def command_matches (buf : List Char) (count : Nat) (name : List Char) : Bool :=
  match strstr buf name with
  | none => false
  | some b =>
    b + name.length ≤ count &&
      (char_at buf (b + name.length) = ' ' || char_at buf (b + name.length) = '\n' ||
        char_at buf (b + name.length) = NUL)

/-- The result `ret ? ret : count` of a parsed command. -/
def command_result (count : Nat) (r : Option (Int × globals)) : Option (Int × globals) :=
  r.map fun p => (if p.1 ≠ 0 then p.1 else (count : Int), p.2)

/-- The table `command_execs`. -/
def command_execs : List (kenv → globals → List Char → Nat → Option (Int × globals)) :=
  [create_com, change_mode_com]

/-- The loop of `execute_command` over the commands that are left. -/
def execute_loop (env : kenv) (g : globals) (buf : List Char) (count : Nat) :
    List (List Char × (kenv → globals → List Char → Nat → Option (Int × globals))) →
      Option (Int × globals)
  | [] => some ((count : Int), g)
  | (name, exec) :: rest =>
    if command_matches buf count name then command_result count (exec env g buf count)
    else execute_loop env g buf count rest

/-- The function `execute_command`: the value returned to the writer and
the globals afterwards. -/
def execute_command (env : kenv) (g : globals) (buf : List Char) (count : Nat) :
    Option (Int × globals) :=
  execute_loop env g buf count (command_names.zip command_execs)

/-! ## Predicates used in the statements -/

/-- A volume of the data model: its storage is a buffer of
`capacity * SBDD_SECTOR_SIZE` bytes, a size that fits a 64-bit `size_t`. -/
def volume_ok (dev : sbdd) : Prop :=
  ∃ data, dev.data = some data ∧ data.length = dev.capacity * SBDD_SECTOR_SIZE ∧
    dev.capacity * SBDD_SECTOR_SIZE < 2 ^ 64

/-- A segment: `bv_len` is an `unsigned int` and the memory of the segment
holds `bv_len` bytes. -/
def segment_ok (bvec : bio_vec) : Prop :=
  bvec.bv_len < 2 ^ 32 ∧ bvec.bv_len ≤ bvec.buff.length

/-- The number of sectors a list of segments asks for. -/
def requested_sectors (segs : List bio_vec) : Nat :=
  (segs.map fun bvec => bvec.bv_len / SBDD_SECTOR_SIZE).sum

/-- The sector count the specification gives for one segment: the requested
count, cut at the capacity. -/
def clamped_sectors (bvec : bio_vec) (pos cap : Nat) : Nat :=
  min (bvec.bv_len / SBDD_SECTOR_SIZE) (cap - pos)

/-- Storage `data` after `n` sectors of `src` were written at sector `pos`. -/
def written_storage (data : List u8) (pos n : Nat) (src : List u8) : List u8 :=
  data.take (pos * SBDD_SECTOR_SIZE) ++ src.take (n * SBDD_SECTOR_SIZE)
    ++ data.drop (pos * SBDD_SECTOR_SIZE + n * SBDD_SECTOR_SIZE)

/-- Buffer `dst` after `n` sectors of the storage `data` at sector `pos` were read into it. -/
def read_buffer (data : List u8) (pos n : Nat) (dst : List u8) : List u8 :=
  (data.drop (pos * SBDD_SECTOR_SIZE)).take (n * SBDD_SECTOR_SIZE)
    ++ dst.drop (n * SBDD_SECTOR_SIZE)

/-- The bytes a list of segments offers to a write, in order: of every
segment the whole sectors among its first `bv_len` bytes. -/
def bio_payload (segs : List bio_vec) : List u8 :=
  (segs.map fun bvec =>
    bvec.buff.take (bvec.bv_len / SBDD_SECTOR_SIZE * SBDD_SECTOR_SIZE)).flatten

/-- The sector at which segment number `i` of a transfer starts: the start
sector plus the sectors the segments before it ask for, cut at the capacity. -/
def segment_start (segs : List bio_vec) (start cap i : Nat) : Nat :=
  start + min (requested_sectors (segs.take i)) (cap - start)

/-- Segment number `i` of a read transfer afterwards: its clamped sector
count of storage bytes, taken at its start sector, in front of the rest of
its memory. -/
def read_segment (data : List u8) (segs : List bio_vec) (start cap : Nat)
    (p : Nat × bio_vec) : bio_vec :=
  { p.2 with buff := (read_buffer data (segment_start segs start cap p.1)
      (clamped_sectors p.2 (segment_start segs start cap p.1) cap) p.2.buff) }

/-- The segments of a read transfer afterwards. -/
def read_segments (data : List u8) (segs : List bio_vec) (start cap : Nat) : List bio_vec :=
  segs.enum.map (read_segment data segs start cap)

/-! ## Example values -/

/-- A volume of two sectors. -/
def example_volume : sbdd :=
  { __zero_sbdd with capacity := 2, data := some (List.replicate 1024 0), exitwait := true }

/-- A segment of three sectors. -/
def example_segment : bio_vec := { buff := List.replicate 1536 7, bv_len := 1536 }

/-- A segment of one sector. -/
def example_sector : bio_vec := { buff := List.replicate 512 9, bv_len := 512 }

/-- A write of three sectors at sector 1. -/
def example_bio : bio := { bi_sector := 1, dir := 1, segs := [example_segment] }

/-- A read of three sectors at sector 1. -/
def example_read_bio : bio := { bi_sector := 1, dir := 0, segs := [example_segment] }

/-! ## Device table: predicates and example values -/

/-- Every kernel service that `sbdd_setup` calls for a volume of
`capacity_mib` succeeds. -/
def setup_succeeds (env : kenv) (capacity_mib : Nat) : Prop :=
  env.vmalloc_ok (u64_shl (u64_mul (capacity_mib % 2 ^ 64) SBDD_MIB_SECTORS) SBDD_SECTOR_SHIFT)
      = true ∧
    env.blk_alloc_queue_ok = true ∧ env.alloc_disk_ok = true ∧ env.kzalloc_device_ok = true ∧
    env.device_register_ret = 0 ∧ env.kzalloc_name_ok = true

/-- The record a slot holds after a set-up in which every kernel service
succeeded. -/
def setup_record (env : kenv) (major : Int) (idx capacity_mib : Nat) (name : List Char)
    (name_len : Nat) : sbdd :=
  { name := some (scnprintf_s name_len name), exitwait := true, deleting := 0, refs_cnt := 0,
    capacity := u64_mul (capacity_mib % 2 ^ 64) SBDD_MIB_SECTORS,
    data := some ((List.range (u64_shl (u64_mul (capacity_mib % 2 ^ 64) SBDD_MIB_SECTORS)
      SBDD_SECTOR_SHIFT)).map env.vmalloc_fill),
    gd := some { major := major, first_minor := idx, disk_name := scnprintf_s name_len name,
                 capacity := u64_mul (capacity_mib % 2 ^ 64) SBDD_MIB_SECTORS, policy := 0 },
    q := some { logical_block_size := SBDD_SECTOR_SIZE }, dev := some { kobj_name := name } }

/-- A kernel in which every allocation succeeds, except `vmalloc(0)`. -/
def env_good : kenv :=
  { vmalloc_ok := fun n => decide (n ≠ 0), vmalloc_fill := fun _ => 0, blk_alloc_queue_ok := true,
    alloc_disk_ok := true, kzalloc_device_ok := true, device_register_ret := 0,
    kzalloc_name_ok := true, kzalloc_arg_ok := true }

/-- A kernel in which `vmalloc` fails. -/
def env_no_memory : kenv := { env_good with vmalloc_ok := fun _ => false }

/-- The globals once `sbdd_create` has allocated the table with `kcalloc`:
every slot is all-zero. -/
def initial_globals (m : mode) (major : Int) : globals :=
  { __mode := m, __devices := List.replicate MAX_DEVICES __zero_sbdd, __sbdd_major := major }

/-- The empty table, in `USER` mode. -/
def empty_globals : globals := initial_globals mode.USER 252

/-- One operation on the device table: `add_new_sbdd(capacity_mib, name,
name_len)` under the kernel `env`, or `sbdd_destroy(&__devices[i])`. -/
inductive table_op where
  | create (env : kenv) (capacity_mib : Nat) (name : List Char) (name_len : Nat)
  | destroy (i : Nat)

/-- The globals after one operation that returned. -/
def apply_op (g : globals) : table_op → Option globals
  | table_op.create env capacity_mib name name_len =>
    (add_new_sbdd env g capacity_mib name name_len).map fun r => r.2
  | table_op.destroy i => destroy_slot g i

/-- The globals after a sequence of operations that all returned. -/
def run_ops : globals → List table_op → Option globals
  | g, [] => some g
  | g, op :: rest =>
    match apply_op g op with
    | none => none
    | some g1 => run_ops g1 rest

/-- Slot `i` is the last occupied slot of the table. -/
def last_occupied (devices : List sbdd) (i : Nat) : Prop :=
  (∃ d, devices[i]? = some d ∧ d ≠ __zero_sbdd) ∧
    ∀ j d, i < j → devices[j]? = some d → d = __zero_sbdd

/-- An operation as the driver issues it: `add_new_sbdd` is called with
`name_len` larger than the length of `name` (room for the NUL), and the slot
destroyed is the last occupied one, so that the occupied slots stay in front. -/
def op_in_order (g : globals) : table_op → Prop
  | table_op.create _ _ name name_len => name.length < name_len
  | table_op.destroy i => last_occupied g.__devices i

/-- Every operation of the sequence is issued in order, in the state it meets. -/
def ops_in_order : globals → List table_op → Prop
  | _, [] => True
  | g, op :: rest => op_in_order g op ∧ ∀ g1, apply_op g op = some g1 → ops_in_order g1 rest

/-- No two occupied slots hold the same name. -/
def names_unique (devices : List sbdd) : Prop :=
  ∀ (i j : Nat) (a b : sbdd), i ≠ j → devices[i]? = some a → devices[j]? = some b →
    a ≠ __zero_sbdd → b ≠ __zero_sbdd → a.name ≠ b.name

/-- The number of occupied slots. -/
def occupied_count (devices : List sbdd) : Nat :=
  (devices.filter fun d => decide (d ≠ __zero_sbdd)).length

/-- The occupied slots are in front, each but possibly the last has a name,
and the names differ. -/
def table_inv (devices : List sbdd) : Prop :=
  ∃ (occ : List sbdd) (m : Nat), devices = occ ++ List.replicate m __zero_sbdd ∧
    occ.length + m = MAX_DEVICES ∧ (∀ d ∈ occ, d ≠ __zero_sbdd) ∧
    occ.Pairwise fun a b => a.name ≠ none ∧ a.name ≠ b.name

/-- A volume of one sector under the given name, as `sbdd_setup` leaves it. -/
def example_named (name : List Char) (idx : Nat) : sbdd :=
  { name := some name, exitwait := true, deleting := 0, refs_cnt := 0, capacity := 1,
    data := some (List.replicate 512 0),
    gd := some { major := 252, first_minor := idx, disk_name := name, capacity := 1, policy := 0 },
    q := some { logical_block_size := 512 }, dev := some { kobj_name := name } }

/-- A table whose slot 0 is empty while slot 1 holds the volume `a`. -/
def hole_globals : globals :=
  { __mode := mode.USER,
    __devices := __zero_sbdd :: example_named ['a'] 1 :: List.replicate 14 __zero_sbdd,
    __sbdd_major := 252 }

/-- A table whose first two slots hold the volumes `b` and `a`. -/
def two_volume_globals : globals :=
  { __mode := mode.USER,
    __devices := example_named ['b'] 0 :: example_named ['a'] 1 ::
      List.replicate 14 __zero_sbdd,
    __sbdd_major := 252 }

/-- A table whose sixteen slots hold the volumes `sbd0` to `sbdf`. -/
def full_globals : globals :=
  { __mode := mode.USER,
    __devices := (List.range 16).map fun i => example_named ['s', 'b', 'd', Nat.digitChar i] i,
    __sbdd_major := 252 }

/-- Create `a`, create `b`, destroy slot 0, create `b` again. -/
def clash_ops : List table_op :=
  [table_op.create env_good 1 ['a'] 2, table_op.create env_good 1 ['b'] 2,
    table_op.destroy 0, table_op.create env_good 1 ['b'] 2]

/-- The table after `clash_ops`: both slot 0 and slot 1 hold a volume `b`. -/
def clash_globals : globals :=
  { empty_globals with __devices :=
      (setup_record env_good 252 0 1 ['b'] 2 :: setup_record env_good 252 1 1 ['b'] 2 ::
        List.replicate 14 __zero_sbdd) }

/-- Create `a`, create `b`, destroy slot 1, create `b` again. -/
def ordered_ops : List table_op :=
  [table_op.create env_good 1 ['a'] 2, table_op.create env_good 1 ['b'] 2,
    table_op.destroy 1, table_op.create env_good 1 ['b'] 2]

/-- The table after `ordered_ops`. -/
def ordered_globals : globals :=
  { empty_globals with __devices :=
      (setup_record env_good 252 0 1 ['a'] 2 :: setup_record env_good 252 1 1 ['b'] 2 ::
        List.replicate 14 __zero_sbdd) }

/-! ## Command console: predicates and example values -/

/-- A device name as a console token: not empty, no white space, no NUL. -/
def name_token (name : List Char) : Prop :=
  name ≠ [] ∧ ∀ c ∈ name, isspace c = false ∧ c ≠ NUL

/-- A decimal numeral: a non-empty run of digits. -/
def numeral (ds : List Char) : Prop := ds ≠ [] ∧ ∀ c ∈ ds, isdigit c = true

/-- The end of a console line: nothing, or one newline. -/
def line_end (tail : List Char) : Prop := tail = [] ∨ tail = ['\n']

/-- The text `create <name> <capacity_mib>`. -/
def create_text (name ds tail : List Char) : List Char :=
  "create ".toList ++ (name ++ ' ' :: (ds ++ tail))

/-- The text `change_mode <name> <value>`. -/
def change_mode_text (name val tail : List Char) : List Char :=
  "change_mode ".toList ++ (name ++ ' ' :: (val ++ tail))

/-- The text `create x 9007199254740993`: a capacity of `2 ^ 53 + 1` MiB. -/
def huge_create_text : List Char := create_text ['x'] "9007199254740993".toList []

/-- The text `create vol0 10`. -/
def vol0_create_text : List Char := create_text ['v', 'o', 'l', '0'] ['1', '0'] []

/-- The decimal text of an integer: an optional minus sign and a numeral. -/
def int_text (neg : Bool) (ds : List Char) : List Char := if neg then '-' :: ds else ds

/-- The integer that the text `int_text neg ds` denotes. -/
def int_value (neg : Bool) (ds : List Char) : Int :=
  if neg then -(digits_value ds 0 : Int) else (digits_value ds 0 : Int)

/-- A table whose slot 0 holds a volume named `create`. -/
def create_named_globals : globals :=
  { __mode := mode.USER,
    __devices := example_named "create".toList 0 :: List.replicate 15 __zero_sbdd,
    __sbdd_major := 252 }

/-- A kernel in which `blk_alloc_queue` fails. -/
def env_no_queue : kenv := { env_good with blk_alloc_queue_ok := false }

/-- A table whose slot 0 holds the read-only volume `a`. -/
def read_only_globals : globals :=
  { __mode := mode.USER,
    __devices := { example_named ['a'] 0 with gd := (some
        { major := 252, first_minor := 0, disk_name := ['a'], capacity := 1, policy := 1 }) } ::
      List.replicate 15 __zero_sbdd,
    __sbdd_major := 252 }

/-- The arguments of `create` are malformed: no space behind the name, a
name of more than `MAX_DEV_NAME_SIZE` characters, or no numeral behind it. -/
def create_args_malformed (args : List Char) : Prop :=
  strstr args [' '] = none ∨ (∃ sp, strstr args [' '] = some sp ∧ sp > MAX_DEV_NAME_SIZE) ∨
    (sscanf_s_lu args).1 < 2

/-- The arguments of `change_mode` are malformed: no space behind the name,
or no integer behind it. -/
def change_mode_args_malformed (args : List Char) : Prop :=
  strstr args [' '] = none ∨ (sscanf_s_d args).1 < 2

/-- The buffer goes on behind the keyword `comm`, and what follows the
character behind the keyword is not white space: the first argument starts
right there. -/
def args_in_place (buf comm : List Char) : Prop :=
  ∀ b, strstr buf comm = some b →
    b + comm.length < buf.length ∧ isspace (char_at buf (b + comm.length + 1)) = false

/-- The kernel services whose failure the driver does not check succeed:
`kzalloc` of the argument buffer, `alloc_disk`, `kzalloc` of `dev->name`. -/
def unchecked_services_ok (env : kenv) : Prop :=
  env.kzalloc_arg_ok = true ∧ env.alloc_disk_ok = true ∧ env.kzalloc_name_ok = true

/-- Every occupied slot of the table has a name and a disk. -/
def table_named (devices : List sbdd) : Prop :=
  ∀ d ∈ devices, d ≠ __zero_sbdd → d.name ≠ none ∧ d.gd ≠ none

/-- A table whose slot 0 holds the volume `a`, which is being deleted. -/
def deleting_globals : globals :=
  { __mode := mode.USER,
    __devices := { example_named ['a'] 0 with deleting := 1 } :: List.replicate 15 __zero_sbdd,
    __sbdd_major := 252 }

/-! ## Interleaved execution of submit and destroy -/

/-- The statement a thread inside `sbdd_make_request` executes next. -/
inductive submit_at where
  | lock
  | check
  | reject
  | inc
  | xfer
  | dec
  | unlock
  | returned (status : Nat)
deriving DecidableEq

/-- The statement the thread inside `sbdd_destroy` executes next: the
`atomic_set` of `deleting`, the `wait_event` on `refs_cnt`, or, once
`wait_event` has returned, the statements that release the volume. -/
inductive destroy_at where
  | set
  | wait
  | drained
deriving DecidableEq

/-- The volume, the spinlock `transferring` (held or not) and the threads. -/
structure race_state where
  dev : sbdd
  transferring : Bool
  submits : List (submit_at × bio)
  destroy : destroy_at
deriving DecidableEq

/-- A thread: the `i`-th caller of `sbdd_make_request`, or the caller of
`sbdd_destroy`. -/
inductive thread where
  | submitter (i : Nat)
  | destroyer
deriving DecidableEq

/-- One statement of `sbdd_make_request` in thread `i`; `none` when the
thread cannot move (it spins on the lock, has returned, or the copy leaves
the storage). -/
def submit_step (s : race_state) (i : Nat) : Option race_state :=
  match s.submits[i]? with
  | none => none
  | some (submit_at.lock, b) =>
    if s.transferring then none
    else some { s with transferring := true, submits := s.submits.set i (submit_at.check, b) }
  | some (submit_at.check, b) =>
    if s.dev.deleting ≠ 0 then some { s with submits := s.submits.set i (submit_at.reject, b) }
    else some { s with submits := s.submits.set i (submit_at.inc, b) }
  | some (submit_at.reject, b) =>
    some { s with transferring := false,
                  submits := s.submits.set i (submit_at.returned BLK_STS_IOERR, b) }
  | some (submit_at.inc, b) =>
    some { s with dev := { s.dev with refs_cnt := atomic_inc s.dev.refs_cnt },
                  submits := s.submits.set i (submit_at.xfer, b) }
  | some (submit_at.xfer, b) =>
    match sbdd_xfer_bio b s.dev with
    | none => none
    | some (_, segs1, dev1) =>
      some { s with dev := dev1, submits := s.submits.set i (submit_at.dec, { b with segs := segs1 }) }
  | some (submit_at.dec, b) =>
    some { s with dev := { s.dev with refs_cnt := atomic_dec s.dev.refs_cnt },
                  submits := s.submits.set i (submit_at.unlock, b) }
  | some (submit_at.unlock, b) =>
    some { s with transferring := false,
                  submits := s.submits.set i (submit_at.returned BLK_STS_OK, b) }
  | some (submit_at.returned _, _) => none

/-- One statement of the head of `sbdd_destroy`; `wait_event` lets the thread
through only when `refs_cnt` is zero. The statements behind `wait_event` are
not interleaved here. -/
def destroy_step (s : race_state) : Option race_state :=
  match s.destroy with
  | destroy_at.set =>
    some { s with dev := { s.dev with deleting := 1 }, destroy := destroy_at.wait }
  | destroy_at.wait =>
    if s.dev.refs_cnt ≠ 0 then none else some { s with destroy := destroy_at.drained }
  | destroy_at.drained => none

/-- One statement of the thread `t`. -/
def race_step (s : race_state) : thread → Option race_state
  | thread.submitter i => submit_step s i
  | thread.destroyer => destroy_step s

/-- The state after the threads have moved in the order of the schedule. -/
def run_schedule : race_state → List thread → Option race_state
  | s, [] => some s
  | s, t :: rest =>
    match race_step s t with
    | none => none
    | some s1 => run_schedule s1 rest

/-- The threads at their first statements. -/
def race_start (dev : sbdd) (bios : List bio) : race_state :=
  { dev := dev, transferring := false, submits := bios.map fun b => (submit_at.lock, b),
    destroy := destroy_at.set }

/-- A schedule in which the submit checks `deleting`, then the destroy sets
it and passes `wait_event`, then the submit goes on. -/
def late_admission : List thread :=
  [thread.submitter 0, thread.submitter 0, thread.destroyer, thread.destroyer,
    thread.submitter 0, thread.submitter 0, thread.submitter 0, thread.submitter 0]

/-! # Theorems -/

/-! ## Transfer engine: lemmas -/

theorem sector_size_eq : SBDD_SECTOR_SIZE = 512 := by decide

theorem sbdd_xfer_len_eq (bvec : bio_vec) (pos : Nat) (dev : sbdd)
    (hcap : dev.capacity * SBDD_SECTOR_SIZE < 2 ^ 64) (hlen : bvec.bv_len < 2 ^ 32)
    (hpos : pos ≤ dev.capacity) :
    sbdd_xfer_len bvec pos dev = clamped_sectors bvec pos dev.capacity := by
  rw [sector_size_eq] at hcap
  unfold clamped_sectors
  rw [sector_size_eq]
  unfold sbdd_xfer_len u64_add u64_sub SBDD_SECTOR_SHIFT
  simp only [Nat.shiftRight_eq_div_pow]
  rw [Nat.mod_eq_of_lt hlen]
  have h1 : bvec.bv_len / 2 ^ 9 < 2 ^ 23 := by omega
  have h2 : (pos + bvec.bv_len / 2 ^ 9) % 2 ^ 64 = pos + bvec.bv_len / 2 ^ 9 := by omega
  rw [h2]
  split
  · omega
  · omega

theorem memcpy_eq (dst : List u8) (doff : Nat) (src : List u8) (soff n : Nat)
    (hd : doff + n ≤ dst.length) (hs : soff + n ≤ src.length) :
    memcpy dst doff src soff n
      = some (dst.take doff ++ (src.drop soff).take n ++ dst.drop (doff + n)) := by
  unfold memcpy
  by_cases hn : n = 0
  · subst hn
    simp
  · simp [hn, hd, hs]

/-- The values of the locals `offset` and `nbytes` of `sbdd_xfer` on a
volume of the data model. -/
theorem xfer_offsets (pos n cap : Nat) (hcap : cap * SBDD_SECTOR_SIZE < 2 ^ 64)
    (hpos : pos ≤ cap) (hn : n ≤ cap - pos) :
    u64_shl pos SBDD_SECTOR_SHIFT = pos * SBDD_SECTOR_SIZE ∧
      u64_shl n SBDD_SECTOR_SHIFT = n * SBDD_SECTOR_SIZE ∧
      pos * SBDD_SECTOR_SIZE + n * SBDD_SECTOR_SIZE ≤ cap * SBDD_SECTOR_SIZE := by
  rw [sector_size_eq] at hcap ⊢
  unfold u64_shl SBDD_SECTOR_SHIFT
  simp only [Nat.shiftLeft_eq]
  refine ⟨?_, ?_, ?_⟩ <;> omega

theorem clamped_bytes_le (bvec : bio_vec) (pos cap : Nat) (hb : bvec.bv_len ≤ bvec.buff.length) :
    clamped_sectors bvec pos cap * SBDD_SECTOR_SIZE ≤ bvec.buff.length := by
  unfold clamped_sectors
  have := Nat.div_mul_le_self bvec.bv_len SBDD_SECTOR_SIZE
  have := Nat.mul_le_mul_right SBDD_SECTOR_SIZE
    (Nat.min_le_left (bvec.bv_len / SBDD_SECTOR_SIZE) (cap - pos))
  omega

theorem sbdd_xfer_write (bvec : bio_vec) (pos dir : Nat) (dev : sbdd) (data : List u8)
    (hdata : dev.data = some data) (hsize : data.length = dev.capacity * SBDD_SECTOR_SIZE)
    (hcap : dev.capacity * SBDD_SECTOR_SIZE < 2 ^ 64) (hseg : segment_ok bvec)
    (hpos : pos ≤ dev.capacity) (hdir : dir ≠ 0) :
    sbdd_xfer bvec pos dir dev
      = some (clamped_sectors bvec pos dev.capacity, bvec,
          { dev with data := some (written_storage data pos
              (clamped_sectors bvec pos dev.capacity) bvec.buff) }) := by
  obtain ⟨hl, hb⟩ := hseg
  have hlen := sbdd_xfer_len_eq bvec pos dev hcap hl hpos
  obtain ⟨h1, h2, h3⟩ := xfer_offsets pos (clamped_sectors bvec pos dev.capacity)
    dev.capacity hcap hpos (Nat.min_le_right _ _)
  have h4 := clamped_bytes_le bvec pos dev.capacity hb
  unfold sbdd_xfer
  simp only [hdata, hlen, h1, h2, hdir, ne_eq, not_false_eq_true, if_true]
  rw [memcpy_eq _ _ _ _ _ (by omega) (by omega)]
  simp [written_storage]

theorem sbdd_xfer_read (bvec : bio_vec) (pos : Nat) (dev : sbdd) (data : List u8)
    (hdata : dev.data = some data) (hsize : data.length = dev.capacity * SBDD_SECTOR_SIZE)
    (hcap : dev.capacity * SBDD_SECTOR_SIZE < 2 ^ 64) (hseg : segment_ok bvec)
    (hpos : pos ≤ dev.capacity) :
    sbdd_xfer bvec pos 0 dev
      = some (clamped_sectors bvec pos dev.capacity,
          { bvec with buff := (read_buffer data pos
              (clamped_sectors bvec pos dev.capacity) bvec.buff) }, dev) := by
  obtain ⟨hl, hb⟩ := hseg
  have hlen := sbdd_xfer_len_eq bvec pos dev hcap hl hpos
  obtain ⟨h1, h2, h3⟩ := xfer_offsets pos (clamped_sectors bvec pos dev.capacity)
    dev.capacity hcap hpos (Nat.min_le_right _ _)
  have h4 := clamped_bytes_le bvec pos dev.capacity hb
  unfold sbdd_xfer
  simp only [hdata, hlen, h1, h2, ne_eq, not_true_eq_false, if_false]
  rw [memcpy_eq _ _ _ _ _ (by omega) (by omega)]
  simp [read_buffer]

/-- One call of `sbdd_xfer` on a volume of the data model returns the clamped
count and leaves a volume of the same capacity, flags and counter. -/
theorem sbdd_xfer_ok (bvec : bio_vec) (pos dir : Nat) (dev : sbdd)
    (hdev : volume_ok dev) (hseg : segment_ok bvec) (hpos : pos ≤ dev.capacity) :
    ∃ bvec1 dev1, sbdd_xfer bvec pos dir dev
        = some (clamped_sectors bvec pos dev.capacity, bvec1, dev1) ∧
      volume_ok dev1 ∧ dev1.capacity = dev.capacity ∧ dev1.refs_cnt = dev.refs_cnt ∧
      dev1.deleting = dev.deleting := by
  obtain ⟨data, hdata, hsize, hcap⟩ := hdev
  by_cases hdir : dir = 0
  · subst hdir
    refine ⟨_, _, sbdd_xfer_read bvec pos dev data hdata hsize hcap hseg hpos,
      ⟨data, hdata, hsize, hcap⟩, rfl, rfl, rfl⟩
  · refine ⟨_, _, sbdd_xfer_write bvec pos dir dev data hdata hsize hcap hseg hpos hdir,
      ⟨_, rfl, ?_, hcap⟩, rfl, rfl, rfl⟩
    obtain ⟨_, h3⟩ := xfer_offsets pos (clamped_sectors bvec pos dev.capacity)
      dev.capacity hcap hpos (Nat.min_le_right _ _)
    have h4 := clamped_bytes_le bvec pos dev.capacity hseg.2
    simp only [written_storage, List.length_append, List.length_take, List.length_drop]
    omega

/-- The loop over the segments of one bio on a volume of the data model. -/
theorem xfer_segments_ok (dir : Nat) (segs : List bio_vec) :
    ∀ (pos : Nat) (dev : sbdd), volume_ok dev → (∀ bvec ∈ segs, segment_ok bvec) →
      pos ≤ dev.capacity →
      ∃ segs1 dev1, xfer_segments segs pos dir dev
          = some (pos + min (requested_sectors segs) (dev.capacity - pos), segs1, dev1) ∧
        volume_ok dev1 ∧ dev1.capacity = dev.capacity ∧ dev1.refs_cnt = dev.refs_cnt ∧
        dev1.deleting = dev.deleting := by
  induction segs with
  | nil =>
    intro pos dev hdev _ _
    exact ⟨[], dev, by simp [xfer_segments, requested_sectors], hdev, rfl, rfl, rfl⟩
  | cons bvec rest ih =>
    intro pos dev hdev hsegs hpos
    obtain ⟨bvec1, dev1, hx, hdev1, hc1, hr1, hd1⟩ :=
      sbdd_xfer_ok bvec pos dir dev hdev (hsegs bvec (List.mem_cons_self _ _)) hpos
    have hcap : dev.capacity < 2 ^ 64 := by
      obtain ⟨_, _, _, h⟩ := hdev
      rw [sector_size_eq] at h
      omega
    have hn : clamped_sectors bvec pos dev.capacity ≤ dev.capacity - pos := Nat.min_le_right _ _
    have hadd : u64_add pos (clamped_sectors bvec pos dev.capacity)
        = pos + clamped_sectors bvec pos dev.capacity := by
      unfold u64_add
      omega
    obtain ⟨rest1, dev2, hr, hdev2, hc2, hr2, hd2⟩ :=
      ih (pos + clamped_sectors bvec pos dev.capacity) dev1 hdev1
        (fun b hb => hsegs b (List.mem_cons_of_mem _ hb)) (by omega)
    refine ⟨bvec1 :: rest1, dev2, ?_, hdev2, by omega, by omega, by omega⟩
    simp only [xfer_segments, hx, hadd, hr, hc1]
    have : pos + clamped_sectors bvec pos dev.capacity
        + min (requested_sectors rest) (dev.capacity - (pos + clamped_sectors bvec pos dev.capacity))
        = pos + min (requested_sectors (bvec :: rest)) (dev.capacity - pos) := by
      simp only [requested_sectors, List.map_cons, List.sum_cons]
      unfold clamped_sectors at hn ⊢
      omega
    rw [this]

/-- Two writes one after the other are one write of the joined bytes. -/
theorem written_twice (data buff rest : List u8) (a b c r : Nat)
    (hl : a + b + c ≤ data.length) (hr : r ≤ buff.length)
    (h : b = r ∨ (c = 0 ∧ b ≤ r)) :
    (data.take a ++ buff.take b ++ data.drop (a + b)).take (a + b) ++ rest.take c
        ++ (data.take a ++ buff.take b ++ data.drop (a + b)).drop (a + b + c)
      = data.take a ++ (buff.take r ++ rest).take (b + c) ++ data.drop (a + (b + c)) := by
  have hx : (data.take a ++ buff.take b).length = a + b := by
    simp only [List.length_append, List.length_take]
    omega
  have h1 : (data.take a ++ buff.take b ++ data.drop (a + b)).take (a + b)
      = data.take a ++ buff.take b := List.take_left' hx
  have h2 : (data.take a ++ buff.take b ++ data.drop (a + b)).drop (a + b + c)
      = data.drop (a + (b + c)) := by
    rw [List.drop_append_eq_append_drop, hx, List.drop_drop,
      List.drop_eq_nil_of_le (by omega)]
    simp only [List.nil_append]
    congr 1
    omega
  have h3 : (buff.take r ++ rest).take (b + c) = buff.take b ++ rest.take c := by
    rw [List.take_append_eq_append_take, List.take_take, List.length_take]
    rcases h with h | ⟨h, h4⟩
    · subst h
      congr 1
      · congr 1
        omega
      · congr 1
        omega
    · subst h
      congr 1
      · congr 1
        omega
      · simp only [List.take_zero]
        rw [List.take_eq_nil_iff]
        left
        omega
  rw [h1, h2, h3]
  simp only [List.append_assoc]

/-- Writing no sector leaves the storage as it is. -/
theorem written_storage_zero (data : List u8) (pos : Nat) :
    written_storage data pos 0 [] = data := by
  simp [written_storage]

theorem volume_data_eq (dev : sbdd) (data : List u8) (h : dev.data = some data) :
    { dev with data := some data } = dev := by
  cases dev
  simp only at h
  subst h
  rfl

/-- The loop over the segments of a write: the storage afterwards holds the
offered bytes at the start sector, up to the capacity, and the segments are
as before. -/
theorem xfer_segments_write (dir : Nat) (hdir : dir ≠ 0) (segs : List bio_vec) :
    ∀ (pos : Nat) (dev : sbdd) (data : List u8), dev.data = some data →
      data.length = dev.capacity * SBDD_SECTOR_SIZE →
      dev.capacity * SBDD_SECTOR_SIZE < 2 ^ 64 → (∀ bvec ∈ segs, segment_ok bvec) →
      pos ≤ dev.capacity →
      xfer_segments segs pos dir dev
        = some (pos + min (requested_sectors segs) (dev.capacity - pos), segs,
            { dev with data := some (written_storage data pos
                (min (requested_sectors segs) (dev.capacity - pos)) (bio_payload segs)) }) := by
  induction segs with
  | nil =>
    intro pos dev data hdata _ _ _ _
    simp only [xfer_segments, requested_sectors, bio_payload, List.map_nil, List.sum_nil,
      List.flatten_nil, Nat.zero_min, Nat.add_zero, written_storage_zero]
    rw [volume_data_eq dev data hdata]
  | cons bvec rest ih =>
    intro pos dev data hdata hsize hcap hsegs hpos
    have hseg := hsegs bvec (List.mem_cons_self _ _)
    have hx := sbdd_xfer_write bvec pos dir dev data hdata hsize hcap hseg hpos hdir
    have hn : clamped_sectors bvec pos dev.capacity ≤ dev.capacity - pos := Nat.min_le_right _ _
    have hc : dev.capacity < 2 ^ 64 := by
      rw [sector_size_eq] at hcap
      omega
    have hadd : u64_add pos (clamped_sectors bvec pos dev.capacity)
        = pos + clamped_sectors bvec pos dev.capacity := by
      unfold u64_add
      omega
    obtain ⟨_, _, h3⟩ := xfer_offsets pos (clamped_sectors bvec pos dev.capacity)
      dev.capacity hcap hpos hn
    have h4 := clamped_bytes_le bvec pos dev.capacity hseg.2
    have hlen : (written_storage data pos (clamped_sectors bvec pos dev.capacity)
        bvec.buff).length = dev.capacity * SBDD_SECTOR_SIZE := by
      simp only [written_storage, List.length_append, List.length_take, List.length_drop]
      omega
    have hr := ih (pos + clamped_sectors bvec pos dev.capacity)
      { dev with data := some (written_storage data pos
          (clamped_sectors bvec pos dev.capacity) bvec.buff) }
      _ rfl hlen hcap (fun b hb => hsegs b (List.mem_cons_of_mem _ hb))
      (show pos + clamped_sectors bvec pos dev.capacity ≤ dev.capacity by omega)
    simp only [xfer_segments, hx, hadd, hr]
    have hsum : requested_sectors (bvec :: rest)
        = bvec.bv_len / SBDD_SECTOR_SIZE + requested_sectors rest := by
      simp only [requested_sectors, List.map_cons, List.sum_cons]
    have hpay : bio_payload (bvec :: rest)
        = bvec.buff.take (bvec.bv_len / SBDD_SECTOR_SIZE * SBDD_SECTOR_SIZE)
          ++ bio_payload rest := by
      simp only [bio_payload, List.map_cons, List.flatten_cons]
    have hk : clamped_sectors bvec pos dev.capacity
        + min (requested_sectors rest)
            (dev.capacity - (pos + clamped_sectors bvec pos dev.capacity))
        = min (requested_sectors (bvec :: rest)) (dev.capacity - pos) := by
      rw [hsum]
      unfold clamped_sectors at hn ⊢
      omega
    have hw : written_storage (written_storage data pos
          (clamped_sectors bvec pos dev.capacity) bvec.buff)
          (pos + clamped_sectors bvec pos dev.capacity)
          (min (requested_sectors rest)
            (dev.capacity - (pos + clamped_sectors bvec pos dev.capacity)))
          (bio_payload rest)
        = written_storage data pos (clamped_sectors bvec pos dev.capacity
            + min (requested_sectors rest)
              (dev.capacity - (pos + clamped_sectors bvec pos dev.capacity)))
          (bvec.buff.take (bvec.bv_len / SBDD_SECTOR_SIZE * SBDD_SECTOR_SIZE)
            ++ bio_payload rest) := by
      have hb := hseg.2
      have hdiv := Nat.div_mul_le_self bvec.bv_len SBDD_SECTOR_SIZE
      have hcase : clamped_sectors bvec pos dev.capacity = bvec.bv_len / SBDD_SECTOR_SIZE ∨
          (min (requested_sectors rest)
            (dev.capacity - (pos + clamped_sectors bvec pos dev.capacity)) = 0 ∧
            clamped_sectors bvec pos dev.capacity ≤ bvec.bv_len / SBDD_SECTOR_SIZE) := by
        unfold clamped_sectors
        omega
      have hfit : clamped_sectors bvec pos dev.capacity
          + min (requested_sectors rest)
            (dev.capacity - (pos + clamped_sectors bvec pos dev.capacity))
          ≤ dev.capacity - pos := by omega
      generalize clamped_sectors bvec pos dev.capacity = k at hcase hfit ⊢
      generalize min (requested_sectors rest) (dev.capacity - (pos + k)) = n at hcase hfit ⊢
      unfold written_storage
      rw [Nat.add_mul pos k, Nat.add_mul k n]
      refine written_twice data bvec.buff (bio_payload rest) _ _ _ _ ?_ (by omega) ?_
      · rw [hsize]
        rw [sector_size_eq]
        omega
      · rcases hcase with h | ⟨h, h5⟩
        · left
          rw [h]
        · right
          refine ⟨by rw [h, Nat.zero_mul], Nat.mul_le_mul_right _ h5⟩
    rw [← hk, hpay, ← hw, Nat.add_assoc]

theorem requested_sectors_append (pre : List bio_vec) (bvec : bio_vec) :
    requested_sectors (pre ++ [bvec])
      = requested_sectors pre + bvec.bv_len / SBDD_SECTOR_SIZE := by
  simp [requested_sectors]

/-- The loop over the segments of a read, from segment number `pre.length`
of the transfer on: every segment receives its clamped count of storage
bytes from its start sector, and the volume is as before. -/
theorem xfer_segments_read (dev : sbdd) (data : List u8) (start : Nat)
    (hdata : dev.data = some data) (hsize : data.length = dev.capacity * SBDD_SECTOR_SIZE)
    (hcap : dev.capacity * SBDD_SECTOR_SIZE < 2 ^ 64) (hstart : start ≤ dev.capacity)
    (segs : List bio_vec) :
    ∀ (pre : List bio_vec), (∀ bvec ∈ segs, segment_ok bvec) →
      xfer_segments segs (segment_start (pre ++ segs) start dev.capacity pre.length) 0 dev
        = some (start + min (requested_sectors (pre ++ segs)) (dev.capacity - start),
            (segs.enumFrom pre.length).map
              (read_segment data (pre ++ segs) start dev.capacity), dev) := by
  have hc : dev.capacity < 2 ^ 64 := by
    rw [sector_size_eq] at hcap
    omega
  induction segs with
  | nil =>
    intro pre _
    simp [xfer_segments, segment_start]
  | cons bvec rest ih =>
    intro pre hsegs
    have hseg := hsegs bvec (List.mem_cons_self _ _)
    have hs : segment_start (pre ++ bvec :: rest) start dev.capacity pre.length
        = start + min (requested_sectors pre) (dev.capacity - start) := by
      unfold segment_start
      rw [List.take_left' rfl]
    have hpos : segment_start (pre ++ bvec :: rest) start dev.capacity pre.length
        ≤ dev.capacity := by
      rw [hs]
      omega
    have hx := sbdd_xfer_read bvec _ dev data hdata hsize hcap hseg hpos
    have hn : clamped_sectors bvec
        (segment_start (pre ++ bvec :: rest) start dev.capacity pre.length) dev.capacity
        ≤ dev.capacity
          - segment_start (pre ++ bvec :: rest) start dev.capacity pre.length :=
      Nat.min_le_right _ _
    have hl : (pre ++ [bvec]).length = pre.length + 1 := by simp
    have he : pre ++ [bvec] ++ rest = pre ++ bvec :: rest := by simp
    have hnext : u64_add (segment_start (pre ++ bvec :: rest) start dev.capacity pre.length)
        (clamped_sectors bvec
          (segment_start (pre ++ bvec :: rest) start dev.capacity pre.length) dev.capacity)
        = segment_start (pre ++ bvec :: rest) start dev.capacity (pre.length + 1) := by
      have hs1 : segment_start (pre ++ bvec :: rest) start dev.capacity (pre.length + 1)
          = start + min (requested_sectors pre + bvec.bv_len / SBDD_SECTOR_SIZE)
              (dev.capacity - start) := by
        unfold segment_start
        rw [← he, ← hl, List.take_left' rfl, requested_sectors_append]
      rw [hs1]
      rw [hs] at hn ⊢
      unfold u64_add clamped_sectors
      generalize bvec.bv_len / SBDD_SECTOR_SIZE = r
      generalize requested_sectors pre = p
      omega
    have hr := ih (pre ++ [bvec]) (fun b hb => hsegs b (List.mem_cons_of_mem _ hb))
    rw [he, hl] at hr
    simp only [xfer_segments, hx, hnext, hr, List.enumFrom_cons, List.map_cons]
    rfl

/-- What a read leaves in front of a segment is the storage from the
position of the segment on. -/
theorem read_buffer_prefix (data dst : List u8) (pos n : Nat)
    (h : pos * SBDD_SECTOR_SIZE + n * SBDD_SECTOR_SIZE ≤ data.length) :
    (read_buffer data pos n dst).take (n * SBDD_SECTOR_SIZE)
      = (data.drop (pos * SBDD_SECTOR_SIZE)).take (n * SBDD_SECTOR_SIZE) := by
  unfold read_buffer
  rw [List.take_left']
  rw [List.length_take, List.length_drop]
  omega

/-- The segments of a transfer follow one another without a gap: a segment
starts where the clamped count of the segment before it ends. -/
theorem segment_start_succ (segs : List bio_vec) (start cap i : Nat) (bvec : bio_vec)
    (hstart : start ≤ cap) (hi : segs[i]? = some bvec) :
    segment_start segs start cap (i + 1)
      = segment_start segs start cap i
        + clamped_sectors bvec (segment_start segs start cap i) cap := by
  have ht : segs.take (i + 1) = segs.take i ++ [bvec] := by
    rw [List.take_succ, hi]
    rfl
  unfold segment_start clamped_sectors
  rw [ht, requested_sectors_append]
  generalize bvec.bv_len / SBDD_SECTOR_SIZE = r
  generalize requested_sectors (segs.take i) = p
  omega

theorem segment_start_zero (segs : List bio_vec) (start cap : Nat) :
    segment_start segs start cap 0 = start := by
  simp [segment_start, requested_sectors]

/-- C1: on every volume of the data model with storage `data`, for every list
of segments and every start sector not above the capacity, `sbdd_xfer_bio`
returns (no fault, no error value) and advances the position by exactly the
minimum of the requested sectors and `capacity - start_sector`, and exactly
that many sectors are moved: a write leaves the segments as they were and
the storage with that many sectors of the offered bytes at the start sector
and every other byte as before; a read leaves the volume as it was and in
every segment its clamped count of storage bytes, taken at the sector where
the segment starts. A transfer that would pass the capacity ends at the
capacity, and a write then replaces exactly the storage from the start
sector to the end. Every single `sbdd_xfer` call returns its own clamped
sector count and moves exactly that many sectors at its position. -/
theorem sbdd_xfer_bio_advances_clamped (dev : sbdd) (b : bio) (data : List u8)
    (hdev : volume_ok dev) (hdata : dev.data = some data)
    (hsegs : ∀ bvec ∈ b.segs, segment_ok bvec) (hpos : b.bi_sector ≤ dev.capacity) :
    (b.dir ≠ 0 → sbdd_xfer_bio b dev
        = some (b.bi_sector + min (requested_sectors b.segs) (dev.capacity - b.bi_sector),
            b.segs,
            { dev with data := some (written_storage data b.bi_sector
                (min (requested_sectors b.segs) (dev.capacity - b.bi_sector))
                (bio_payload b.segs)) })) ∧
      (b.dir = 0 → sbdd_xfer_bio b dev
        = some (b.bi_sector + min (requested_sectors b.segs) (dev.capacity - b.bi_sector),
            read_segments data b.segs b.bi_sector dev.capacity, dev)) ∧
      (b.bi_sector + requested_sectors b.segs > dev.capacity →
        (b.dir ≠ 0 → sbdd_xfer_bio b dev
          = some (dev.capacity, b.segs,
              { dev with data := some (data.take (b.bi_sector * SBDD_SECTOR_SIZE)
                  ++ (bio_payload b.segs).take
                    ((dev.capacity - b.bi_sector) * SBDD_SECTOR_SIZE)) })) ∧
        (b.dir = 0 → sbdd_xfer_bio b dev
          = some (dev.capacity, read_segments data b.segs b.bi_sector dev.capacity, dev))) ∧
      (∀ (bvec : bio_vec) (pos dir : Nat), segment_ok bvec → pos ≤ dev.capacity →
        sbdd_xfer bvec pos dir dev
          = some (min (bvec.bv_len / SBDD_SECTOR_SIZE) (dev.capacity - pos),
              (if dir = 0 then { bvec with buff := (read_buffer data pos
                  (min (bvec.bv_len / SBDD_SECTOR_SIZE) (dev.capacity - pos)) bvec.buff) }
                else bvec),
              (if dir = 0 then dev else { dev with data := some (written_storage data pos
                  (min (bvec.bv_len / SBDD_SECTOR_SIZE) (dev.capacity - pos)) bvec.buff) }))) := by
  obtain ⟨data0, hdata0, hsize, hcap⟩ := hdev
  have hd : data0 = data := Option.some.inj (hdata0.symm.trans hdata)
  subst hd
  have hw : b.dir ≠ 0 → sbdd_xfer_bio b dev
      = some (b.bi_sector + min (requested_sectors b.segs) (dev.capacity - b.bi_sector),
          b.segs,
          { dev with data := some (written_storage data0 b.bi_sector
              (min (requested_sectors b.segs) (dev.capacity - b.bi_sector))
              (bio_payload b.segs)) }) := fun hdir =>
    xfer_segments_write b.dir hdir b.segs b.bi_sector dev data0 hdata hsize hcap hsegs hpos
  have hr : b.dir = 0 → sbdd_xfer_bio b dev
      = some (b.bi_sector + min (requested_sectors b.segs) (dev.capacity - b.bi_sector),
          read_segments data0 b.segs b.bi_sector dev.capacity, dev) := by
    intro hdir
    have h := xfer_segments_read dev data0 b.bi_sector hdata hsize hcap hpos b.segs [] hsegs
    rw [List.nil_append, List.length_nil, segment_start_zero] at h
    rw [sbdd_xfer_bio, hdir, h]
    rfl
  refine ⟨hw, hr, ?_, ?_⟩
  · intro hover
    have hn : min (requested_sectors b.segs) (dev.capacity - b.bi_sector)
        = dev.capacity - b.bi_sector := by omega
    have hend : b.bi_sector + (dev.capacity - b.bi_sector) = dev.capacity := by omega
    refine ⟨?_, ?_⟩
    · intro hdir
      rw [hw hdir, hn, hend]
      unfold written_storage
      rw [← Nat.add_mul, hend, List.drop_eq_nil_of_le (Nat.le_of_eq hsize), List.append_nil]
    · intro hdir
      rw [hr hdir, hn, hend]
  · intro bvec pos dir hseg hp
    by_cases hdir : dir = 0
    · subst hdir
      rw [sbdd_xfer_read bvec pos dev data0 hdata hsize hcap hseg hp]
      rfl
    · rw [sbdd_xfer_write bvec pos dir dev data0 hdata hsize hcap hseg hp hdir]
      simp only [hdir, if_false]
      rfl

theorem read_back (data : List u8) (pos n : Nat) (src dst : List u8)
    (hp : pos * SBDD_SECTOR_SIZE ≤ data.length) (hs : n * SBDD_SECTOR_SIZE ≤ src.length) :
    (read_buffer (written_storage data pos n src) pos n dst).take (n * SBDD_SECTOR_SIZE)
        = src.take (n * SBDD_SECTOR_SIZE) ∧
      (read_buffer (written_storage data pos n src) pos n dst).drop (n * SBDD_SECTOR_SIZE)
        = dst.drop (n * SBDD_SECTOR_SIZE) := by
  have hA : (data.take (pos * SBDD_SECTOR_SIZE)).length = pos * SBDD_SECTOR_SIZE := by
    simp [List.length_take]
    omega
  have hB : (src.take (n * SBDD_SECTOR_SIZE)).length = n * SBDD_SECTOR_SIZE := by
    simp [List.length_take]
    omega
  have h1 : ((written_storage data pos n src).drop (pos * SBDD_SECTOR_SIZE)).take
      (n * SBDD_SECTOR_SIZE) = src.take (n * SBDD_SECTOR_SIZE) := by
    unfold written_storage
    rw [List.append_assoc, List.drop_left' hA, List.take_left' hB]
  unfold read_buffer
  rw [h1]
  exact ⟨List.take_left' hB, List.drop_left' hB⟩

/-- C3: on every volume of the data model, for every start sector not above
the capacity, a write (`dir != 0`) of a segment followed by a read
(`dir == 0`) of a segment of the same length at the same sector both return
the same clamped count `n`; afterwards the first `n * 512` bytes of the read
buffer are the first `n * 512` bytes of the written buffer, the rest of the
read buffer is untouched, and the read leaves the device (storage included)
as the write left it. -/
theorem sbdd_xfer_write_then_read (dev : sbdd) (pos dir : Nat) (wvec rvec : bio_vec)
    (hdev : volume_ok dev) (hw : segment_ok wvec) (hr : segment_ok rvec)
    (hlen : rvec.bv_len = wvec.bv_len) (hpos : pos ≤ dev.capacity) (hdir : dir ≠ 0) :
    ∃ dev1 rvec1,
      sbdd_xfer wvec pos dir dev = some (clamped_sectors wvec pos dev.capacity, wvec, dev1) ∧
      sbdd_xfer rvec pos 0 dev1 = some (clamped_sectors wvec pos dev.capacity, rvec1, dev1) ∧
      rvec1.buff.take (clamped_sectors wvec pos dev.capacity * SBDD_SECTOR_SIZE)
        = wvec.buff.take (clamped_sectors wvec pos dev.capacity * SBDD_SECTOR_SIZE) ∧
      rvec1.buff.drop (clamped_sectors wvec pos dev.capacity * SBDD_SECTOR_SIZE)
        = rvec.buff.drop (clamped_sectors wvec pos dev.capacity * SBDD_SECTOR_SIZE) := by
  obtain ⟨data, hdata, hsize, hcap⟩ := hdev
  have hwx := sbdd_xfer_write wvec pos dir dev data hdata hsize hcap hw hpos hdir
  obtain ⟨_, _, h3⟩ := xfer_offsets pos (clamped_sectors wvec pos dev.capacity)
    dev.capacity hcap hpos (Nat.min_le_right _ _)
  have h4 := clamped_bytes_le wvec pos dev.capacity hw.2
  have hsize1 : (written_storage data pos (clamped_sectors wvec pos dev.capacity)
      wvec.buff).length = dev.capacity * SBDD_SECTOR_SIZE := by
    simp only [written_storage, List.length_append, List.length_take, List.length_drop]
    omega
  have hcs : clamped_sectors rvec pos dev.capacity = clamped_sectors wvec pos dev.capacity := by
    unfold clamped_sectors
    rw [hlen]
  have hrx := sbdd_xfer_read rvec pos
    { dev with data := some (written_storage data pos
        (clamped_sectors wvec pos dev.capacity) wvec.buff) }
    _ rfl hsize1 hcap hr hpos
  simp only [hcs] at hrx
  obtain ⟨hb1, hb2⟩ := read_back data pos (clamped_sectors wvec pos dev.capacity) wvec.buff
    rvec.buff (by omega) h4
  exact ⟨_, _, hwx, hrx, hb1, hb2⟩

/-! ## Submit path -/

theorem submit_all_deleting (bios : List bio) (dev : sbdd) (hdel : dev.deleting ≠ 0) :
    submit_all bios dev = some (List.replicate bios.length BLK_STS_IOERR, dev) := by
  induction bios with
  | nil => rfl
  | cons b rest ih =>
    simp [submit_all, sbdd_make_request, hdel, ih, List.replicate_succ]

theorem sbdd_make_request_accepts (dev : sbdd) (b : bio) (hdel : dev.deleting = 0)
    (hdev : volume_ok dev) (hsegs : ∀ bvec ∈ b.segs, segment_ok bvec)
    (hpos : b.bi_sector ≤ dev.capacity) :
    ∃ b1 dev1, sbdd_make_request b dev = some (BLK_STS_OK, b1, dev1) ∧ dev1.deleting = 0 ∧
      dev1.refs_cnt = atomic_dec (atomic_inc dev.refs_cnt) ∧ volume_ok dev1 := by
  have hdev0 : volume_ok { dev with refs_cnt := atomic_inc dev.refs_cnt } := hdev
  obtain ⟨segs1, dev1, hx, hv, hc, hr, hd⟩ :=
    xfer_segments_ok b.dir b.segs b.bi_sector _ hdev0 hsegs hpos
  refine ⟨{ b with segs := segs1 }, { dev1 with refs_cnt := atomic_dec dev1.refs_cnt }, ?_,
    ?_, ?_, ?_⟩
  · unfold sbdd_make_request sbdd_xfer_bio
    rw [if_neg (not_not.mpr hdel)]
    simp only [hx]
  · exact hd.trans hdel
  · show atomic_dec dev1.refs_cnt = _
    rw [hr]
  · obtain ⟨data, h1, h2, h3⟩ := hv
    exact ⟨data, h1, h2, h3⟩

/-- C4: `sbdd_make_request` returns `BLK_STS_IOERR` exactly when `deleting`
is set and `BLK_STS_OK` otherwise (and it does return `BLK_STS_OK` for a bio
inside a volume of the data model that is not deleting, leaving `deleting`
clear); a rejected submit leaves the bio and the whole device record
(`refs_cnt`, storage, `deleting`) as they were; and once `deleting` is set,
every submit of every sequence of submits is rejected and the device never
changes. -/
theorem sbdd_make_request_unavailable_iff_deleting (dev : sbdd) (b : bio) (bios : List bio) :
    (dev.deleting ≠ 0 → sbdd_make_request b dev = some (BLK_STS_IOERR, b, dev)) ∧
      (∀ st b1 dev1, sbdd_make_request b dev = some (st, b1, dev1) →
        (st = BLK_STS_IOERR ↔ dev.deleting ≠ 0) ∧ (st = BLK_STS_OK ↔ dev.deleting = 0)) ∧
      (dev.deleting = 0 → volume_ok dev → (∀ bvec ∈ b.segs, segment_ok bvec) →
        b.bi_sector ≤ dev.capacity →
        ∃ b1 dev1, sbdd_make_request b dev = some (BLK_STS_OK, b1, dev1) ∧ dev1.deleting = 0) ∧
      (dev.deleting ≠ 0 →
        submit_all bios dev = some (List.replicate bios.length BLK_STS_IOERR, dev)) := by
  refine ⟨?_, ?_, ?_, submit_all_deleting bios dev⟩
  · intro hdel
    simp [sbdd_make_request, hdel]
  · intro st b1 dev1 h
    by_cases hdel : dev.deleting = 0
    · simp only [sbdd_make_request, hdel, ne_eq, not_true_eq_false, if_false] at h
      split at h
      · exact absurd h (by simp)
      · simp only [Option.some.injEq, Prod.mk.injEq] at h
        rw [← h.1]
        simp [hdel, BLK_STS_OK, BLK_STS_IOERR]
    · simp only [sbdd_make_request, hdel, ne_eq, not_false_eq_true, if_true,
        Option.some.injEq, Prod.mk.injEq] at h
      rw [← h.1]
      simp [hdel, BLK_STS_OK, BLK_STS_IOERR]
  · intro hdel hdev hsegs hpos
    obtain ⟨b1, dev1, h, hd, _⟩ := sbdd_make_request_accepts dev b hdel hdev hsegs hpos
    exact ⟨b1, dev1, h, hd⟩

theorem example_volume_ok : volume_ok example_volume :=
  ⟨List.replicate 1024 0, rfl, List.length_replicate _ _, by decide⟩

theorem example_segment_ok : segment_ok example_segment :=
  ⟨by decide, Nat.le_of_eq (List.length_replicate _ _).symm⟩

theorem example_sector_ok : segment_ok example_sector :=
  ⟨by decide, Nat.le_of_eq (List.length_replicate _ _).symm⟩

theorem example_bio_ok : ∀ bvec ∈ example_bio.segs, segment_ok bvec := by
  intro bvec h
  simp only [example_bio, List.mem_singleton] at h
  rw [h]
  exact example_segment_ok

set_option maxRecDepth 100000 in
/-- Witness of C1: three sectors written at sector 1 of a volume of two
sectors stop at sector 2, and exactly the second sector of the storage
holds the first sector of the written bytes; three sectors read at sector 1
stop at sector 2 as well, and the segment holds the second sector of the
storage in front of the last two sectors of its own bytes. -/
theorem sbdd_xfer_bio_advances_clamped_witness :
    volume_ok example_volume ∧ example_volume.data = some (List.replicate 1024 0) ∧
      (∀ bvec ∈ example_bio.segs, segment_ok bvec) ∧
      example_bio.bi_sector ≤ example_volume.capacity ∧
      sbdd_xfer_bio example_bio example_volume
        = some (2, [example_segment],
            { example_volume with
              data := some (List.replicate 512 0 ++ List.replicate 512 7) }) ∧
      sbdd_xfer_bio example_read_bio example_volume
        = some (2, [{ buff := List.replicate 512 0 ++ List.replicate 1024 7, bv_len := 1536 }],
            example_volume) :=
  ⟨example_volume_ok, rfl, example_bio_ok, by decide,
    ((sbdd_xfer_bio_advances_clamped example_volume example_bio (List.replicate 1024 0)
      example_volume_ok rfl example_bio_ok (by decide)).2.2.1 (by decide)).1 (by decide),
    (sbdd_xfer_bio_advances_clamped example_volume example_read_bio (List.replicate 1024 0)
      example_volume_ok rfl example_bio_ok (by decide)).2.1 rfl⟩

/-- At `pos = capacity` the clamp gives zero sectors: nothing is copied and
0 is returned. -/
theorem sbdd_xfer_at_capacity (bvec : bio_vec) (dir : Nat) (dev : sbdd) (hdev : volume_ok dev)
    (hlen : bvec.bv_len < 2 ^ 32) :
    sbdd_xfer bvec dev.capacity dir dev = some (0, bvec, dev) := by
  obtain ⟨data, hdata, _, hcap⟩ := hdev
  have h0 : sbdd_xfer_len bvec dev.capacity dev = 0 := by
    rw [sbdd_xfer_len_eq bvec dev.capacity dev hcap hlen (Nat.le_refl _)]
    simp [clamped_sectors]
  have hn : u64_shl 0 SBDD_SECTOR_SHIFT = 0 := by decide
  unfold sbdd_xfer
  simp only [h0, hn, hdata, memcpy, if_true, Option.map_some']
  split
  · congr 3
    cases dev
    simp only at hdata
    subst hdata
    rfl
  · rfl

set_option maxRecDepth 100000 in
/-- C2 (failing input): capacity 2 sectors, `pos = 3`, one segment of 512
bytes. The clamp `len = dev->capacity - pos` wraps around to `2 ^ 64 - 1`
sectors instead of zero, `nbytes` becomes `2 ^ 64 - 512`, and the copy of
that many bytes leaves both buffers in either direction. -/
theorem sbdd_xfer_past_capacity_wraps :
    sbdd_xfer_len example_sector 3 example_volume = 2 ^ 64 - 1 ∧
      u64_shl (sbdd_xfer_len example_sector 3 example_volume) SBDD_SECTOR_SHIFT
        = 2 ^ 64 - 512 ∧
      sbdd_xfer example_sector 3 1 example_volume = none ∧
      sbdd_xfer example_sector 3 0 example_volume = none := by
  refine ⟨by decide, by decide, by decide, by decide⟩

/-- Witness of C3: one sector written at sector 1 and read back into a
buffer of three sectors. -/
theorem sbdd_xfer_write_then_read_witness :
    ∃ dev1 rvec1,
      sbdd_xfer example_sector 1 1 example_volume
        = some (clamped_sectors example_sector 1 example_volume.capacity, example_sector, dev1) ∧
      sbdd_xfer { example_segment with bv_len := 512 } 1 0 dev1
        = some (clamped_sectors example_sector 1 example_volume.capacity, rvec1, dev1) ∧
      rvec1.buff.take (clamped_sectors example_sector 1 example_volume.capacity
          * SBDD_SECTOR_SIZE)
        = example_sector.buff.take (clamped_sectors example_sector 1 example_volume.capacity
          * SBDD_SECTOR_SIZE) ∧
      rvec1.buff.drop (clamped_sectors example_sector 1 example_volume.capacity
          * SBDD_SECTOR_SIZE)
        = ({ example_segment with bv_len := 512 } : bio_vec).buff.drop
          (clamped_sectors example_sector 1 example_volume.capacity * SBDD_SECTOR_SIZE) :=
  sbdd_xfer_write_then_read example_volume 1 1 example_sector
    { example_segment with bv_len := 512 } example_volume_ok example_sector_ok
    ⟨by decide, by
      show 512 ≤ (List.replicate 1536 (7 : u8)).length
      rw [List.length_replicate]
      decide⟩ rfl (by decide) (by decide)

/-- Witness of C4: two submits against a deleting volume are both rejected. -/
theorem sbdd_make_request_unavailable_iff_deleting_witness :
    ({ example_volume with deleting := 1 } : sbdd).deleting ≠ 0 ∧
      submit_all [example_bio, example_bio] { example_volume with deleting := 1 }
        = some ([BLK_STS_IOERR, BLK_STS_IOERR], { example_volume with deleting := 1 }) :=
  ⟨by decide,
    (sbdd_make_request_unavailable_iff_deleting { example_volume with deleting := 1 }
      example_bio [example_bio, example_bio]).2.2.2 (by decide)⟩



/-! ## Device table: lookup -/

theorem find_device_from_absent (name : List Char) (l : List sbdd) :
    ∀ i0 : Nat, (∀ d ∈ l, d ≠ __zero_sbdd → d.name ≠ none ∧ d.name ≠ some name) →
      find_device_from name l i0 = some none := by
  induction l with
  | nil => intro _ _; rfl
  | cons d rest ih =>
    intro i0 h
    by_cases hz : d = __zero_sbdd
    · simp [find_device_from, hz]
    · obtain ⟨h1, h2⟩ := h d (List.mem_cons_self _ _) hz
      cases hn : d.name with
      | none => exact absurd hn h1
      | some n =>
        have hne : ¬ name = n := by
          intro e
          exact h2 (by rw [hn, e])
        simp only [find_device_from, hz, if_false, hn, hne]
        exact ih (i0 + 1) (fun e he => h e (List.mem_cons_of_mem _ he))

theorem find_device_from_present (name : List Char) (l : List sbdd) :
    ∀ (i0 k : Nat) (d : sbdd), l[k]? = some d → d ≠ __zero_sbdd → d.name = some name →
      (∀ j < k, ∃ e, l[j]? = some e ∧ e ≠ __zero_sbdd ∧ e.name ≠ none) →
      ∃ m, m ≤ k ∧ find_device_from name l i0 = some (some (i0 + m)) := by
  induction l with
  | nil => intro i0 k d h; simp at h
  | cons e rest ih =>
    intro i0 k d hk hz hname hbefore
    cases k with
    | zero =>
      simp only [List.getElem?_cons_zero, Option.some.injEq] at hk
      subst hk
      exact ⟨0, le_refl _, by simp [find_device_from, hz, hname]⟩
    | succ k =>
      obtain ⟨e0, he0, hez, hen⟩ := hbefore 0 (Nat.succ_pos _)
      simp only [List.getElem?_cons_zero, Option.some.injEq] at he0
      subst he0
      cases hn : e.name with
      | none => exact absurd hn hen
      | some n =>
        by_cases hnn : name = n
        · exact ⟨0, Nat.zero_le _, by simp [find_device_from, hez, hn, hnn]⟩
        · simp only [List.getElem?_cons_succ] at hk
          obtain ⟨m, hm, hf⟩ := ih (i0 + 1) k d hk hz hname (fun j hj => by
            obtain ⟨x, hx, hxz, hxn⟩ := hbefore (j + 1) (Nat.succ_lt_succ hj)
            simp only [List.getElem?_cons_succ] at hx
            exact ⟨x, hx, hxz, hxn⟩)
          refine ⟨m + 1, Nat.succ_le_succ hm, ?_⟩
          simp only [find_device_from, hez, if_false, hn, hnn]
          rw [hf]
          congr 2
          omega

theorem take_max_getElem? (l : List sbdd) (j : Nat) (hj : j < MAX_DEVICES) :
    (l.take MAX_DEVICES)[j]? = l[j]? := by
  rw [List.getElem?_take]
  simp [hj]

/-- The scan of `find_device_by_name` finds a name held by an occupied slot
when no empty slot and no slot with a `NULL` name comes before it. -/
theorem find_device_by_name_present (devices : List sbdd) (name : List Char) (k : Nat)
    (d : sbdd) (hk : k < MAX_DEVICES) (hd : devices[k]? = some d) (hocc : d ≠ __zero_sbdd)
    (hname : d.name = some name)
    (hbefore : ∀ j < k, ∃ e, devices[j]? = some e ∧ e ≠ __zero_sbdd ∧ e.name ≠ none) :
    ∃ m, m ≤ k ∧ find_device_by_name devices name = some (some m) := by
  obtain ⟨m, hm, hf⟩ := find_device_from_present name (devices.take MAX_DEVICES) 0 k d
    (by rw [take_max_getElem? _ k hk]; exact hd) hocc hname (fun j hj => by
      rw [take_max_getElem? _ j (Nat.lt_trans hj hk)]
      exact hbefore j hj)
  exact ⟨m, hm, by rw [find_device_by_name, hf, Nat.zero_add]⟩

theorem add_new_sbdd_found (env : kenv) (g : globals) (capacity_mib : Nat)
    (name : List Char) (name_len m : Nat)
    (hf : find_device_by_name g.__devices name = some (some m)) :
    add_new_sbdd env g capacity_mib name name_len = some (-EINVAL, g) := by
  simp only [add_new_sbdd, hf]

/-- C5 (amended): when `name` is the name of an occupied slot that the scan
of `find_device_by_name` reaches (no empty slot and no slot with a `NULL`
name comes before it), `add_new_sbdd` returns `-EINVAL` and leaves the
globals, hence every slot of the table, as they were. -/
theorem add_new_sbdd_name_conflict (env : kenv) (g : globals) (capacity_mib : Nat)
    (name : List Char) (name_len k : Nat) (d : sbdd) (hk : k < MAX_DEVICES)
    (hd : g.__devices[k]? = some d) (hocc : d ≠ __zero_sbdd) (hname : d.name = some name)
    (hbefore : ∀ j < k, ∃ e, g.__devices[j]? = some e ∧ e ≠ __zero_sbdd ∧ e.name ≠ none) :
    add_new_sbdd env g capacity_mib name name_len = some (-EINVAL, g) := by
  obtain ⟨m, _, hf⟩ := find_device_by_name_present g.__devices name k d hk hd hocc hname hbefore
  exact add_new_sbdd_found env g capacity_mib name name_len m hf

/-- C5 (counterexample): slot 0 is empty and slot 1 holds the volume `a`.
The scan of `find_device_by_name` stops at slot 0, so `add_new_sbdd` for the
name `a` returns 0 instead of `-EINVAL` and sets up a second volume `a` in
slot 0. -/
theorem add_new_sbdd_conflict_missed_behind_hole :
    (∃ d ∈ hole_globals.__devices, d ≠ __zero_sbdd ∧ d.name = some ['a']) ∧
      (add_new_sbdd env_good hole_globals 1 ['a'] 2).map (fun r => r.1) = some 0 ∧
      (add_new_sbdd env_good hole_globals 1 ['a'] 2).map
          (fun r => (r.2.__devices.map fun d => d.name).take 2)
        = some [some ['a'], some ['a']] ∧
      add_new_sbdd env_good hole_globals 1 ['a'] 2 ≠ some (-EINVAL, hole_globals) := by
  refine ⟨⟨example_named ['a'] 1, by simp [hole_globals], by decide, rfl⟩, by decide, by decide,
    by decide⟩

/-- Witness of C5 (amended): the name `a` of slot 1, behind the occupied slot 0. -/
theorem add_new_sbdd_name_conflict_witness :
    add_new_sbdd env_good two_volume_globals 5 ['a'] 2 = some (-EINVAL, two_volume_globals) :=
  add_new_sbdd_name_conflict env_good two_volume_globals 5 ['a'] 2 1 (example_named ['a'] 1)
    (by decide) rfl (by decide) rfl
    (fun j hj => by
      have hj0 : j = 0 := by omega
      subst hj0
      exact ⟨example_named ['b'] 0, rfl, by decide, by decide⟩)


/-! ## Device table: set-up and exhaustion -/

theorem find_zero_from_none (l : List sbdd) :
    ∀ i0 : Nat, (∀ d ∈ l, d ≠ __zero_sbdd) → find_zero_from l i0 = none := by
  induction l with
  | nil => intro _ _; rfl
  | cons d rest ih =>
    intro i0 h
    simp only [find_zero_from, h d (List.mem_cons_self _ _), if_false]
    exact ih (i0 + 1) (fun e he => h e (List.mem_cons_of_mem _ he))

/-- The second loop of `add_new_sbdd` stops at slot `k` when that slot is
empty and every slot before it is occupied. -/
theorem find_zero_from_first (l : List sbdd) :
    ∀ (i0 k : Nat), l[k]? = some __zero_sbdd →
      (∀ j < k, ∃ e, l[j]? = some e ∧ e ≠ __zero_sbdd) →
      find_zero_from l i0 = some (i0 + k) := by
  induction l with
  | nil => intro i0 k h; simp at h
  | cons d rest ih =>
    intro i0 k hk hbefore
    cases k with
    | zero =>
      simp only [List.getElem?_cons_zero, Option.some.injEq] at hk
      simp [find_zero_from, hk]
    | succ k =>
      obtain ⟨e, he, hez⟩ := hbefore 0 (Nat.succ_pos _)
      simp only [List.getElem?_cons_zero, Option.some.injEq] at he
      subst he
      simp only [List.getElem?_cons_succ] at hk
      simp only [find_zero_from, hez, if_false]
      rw [ih (i0 + 1) k hk (fun j hj => by
        obtain ⟨x, hx, hxz⟩ := hbefore (j + 1) (Nat.succ_lt_succ hj)
        simp only [List.getElem?_cons_succ] at hx
        exact ⟨x, hx, hxz⟩)]
      congr 1
      omega

/-- When every kernel service succeeds, `sbdd_setup` returns 0 and leaves `setup_record`. -/
theorem sbdd_setup_ok (env : kenv) (major : Int) (idx capacity_mib : Nat) (name : List Char)
    (name_len : Nat) (henv : setup_succeeds env capacity_mib) (hlen : name_len ≠ 0)
    (hdisk : name.length < DISK_NAME_LEN) :
    sbdd_setup env major idx capacity_mib name name_len
      = some (0, setup_record env major idx capacity_mib name name_len) := by
  obtain ⟨h1, h2, h3, h4, h5, h6⟩ := henv
  have hfit : ¬ (scnprintf_s name_len name).length + 1 > DISK_NAME_LEN := by
    have : (scnprintf_s name_len name).length ≤ name.length := by
      unfold scnprintf_s
      rw [List.length_take]
      exact Nat.min_le_right _ _
    omega
  simp only [sbdd_setup, vmalloc, h1, h2, h3, h4, h5, h6, sbdd_device_register, hlen, hfit,
    if_true, Bool.not_true, Bool.false_eq_true, if_false, or_self]
  rfl

theorem setup_record_ne_zero (env : kenv) (major : Int) (idx capacity_mib : Nat)
    (name : List Char) (name_len : Nat) :
    setup_record env major idx capacity_mib name name_len ≠ __zero_sbdd := by
  intro h
  have := congrArg sbdd.exitwait h
  simp [setup_record, __zero_sbdd] at this

theorem destroy_slot_eq (g g1 : globals) (i : Nat) (h : destroy_slot g i = some g1) :
    i < g.__devices.length ∧ g1 = { g with __devices := g.__devices.set i __zero_sbdd } := by
  unfold destroy_slot at h
  cases hd : g.__devices[i]? with
  | none => simp [hd] at h
  | some d =>
    have hi : i < g.__devices.length := by
      by_contra hc
      rw [List.getElem?_eq_none (Nat.le_of_not_lt hc)] at hd
      exact absurd hd (by simp)
    simp only [hd, sbdd_destroy] at h
    split at h
    · exact absurd h (by simp)
    · rename_i z hz
      split at hz
      · exact absurd hz (by simp)
      · split at hz
        · exact absurd hz (by simp)
        · simp only [Option.some.injEq] at hz h
          subst hz
          exact ⟨hi, h.symm⟩

/-- C7: when all `MAX_DEVICES` slots are occupied (each with a name),
`add_new_sbdd` for a name that no slot holds returns 1 and leaves the globals
unchanged; 1 differs from `-EINVAL`, which is what the same table returns for
each name it holds; and after `sbdd_destroy` of any slot `i` has returned,
`add_new_sbdd` for a name that no remaining slot holds (a name that fits
`disk_name`), with every kernel service succeeding, returns 0 and slot `i`
holds the new volume (a record that differs from `__zero_sbdd`). -/
theorem add_new_sbdd_exhaustion_then_reuse (env : kenv) (g : globals) (capacity_mib : Nat)
    (name : List Char) (name_len : Nat) (hlen : g.__devices.length = MAX_DEVICES)
    (hfull : ∀ d ∈ g.__devices, d ≠ __zero_sbdd ∧ d.name ≠ none) :
    ((∀ d ∈ g.__devices, d.name ≠ some name) →
        add_new_sbdd env g capacity_mib name name_len = some (1, g)) ∧
      (1 : Int) ≠ -EINVAL ∧
      (∀ (n : List Char) (d : sbdd), d ∈ g.__devices → d.name = some n →
        add_new_sbdd env g capacity_mib n name_len = some (-EINVAL, g)) ∧
      (∀ (i : Nat) (g1 : globals), destroy_slot g i = some g1 →
        (∀ d ∈ g1.__devices, d.name ≠ some name) →
        setup_succeeds env capacity_mib → name_len ≠ 0 → name.length < DISK_NAME_LEN →
        add_new_sbdd env g1 capacity_mib name name_len
            = some (0, { g with __devices := (g.__devices.set i
                (setup_record env g.__sbdd_major i capacity_mib name name_len)) }) ∧
          setup_record env g.__sbdd_major i capacity_mib name name_len ≠ __zero_sbdd ∧
          (g.__devices.set i
            (setup_record env g.__sbdd_major i capacity_mib name name_len))[i]?
            = some (setup_record env g.__sbdd_major i capacity_mib name name_len)) := by
  have htake : g.__devices.take MAX_DEVICES = g.__devices :=
    List.take_of_length_le (Nat.le_of_eq hlen)
  refine ⟨?_, by decide, ?_, ?_⟩
  · intro habs
    have hf : find_device_by_name g.__devices name = some none := by
      rw [find_device_by_name, htake]
      exact find_device_from_absent name _ 0 (fun d hd _ => ⟨(hfull d hd).2, habs d hd⟩)
    have hz : find_zero_from (g.__devices.take MAX_DEVICES) 0 = none := by
      rw [htake]
      exact find_zero_from_none _ 0 (fun d hd => (hfull d hd).1)
    simp only [add_new_sbdd, hf, hz]
  · intro n d hd hn
    obtain ⟨k, hk, hkd⟩ := List.getElem_of_mem hd
    obtain ⟨m, _, hf⟩ := find_device_by_name_present g.__devices n k d (by omega)
      (by rw [List.getElem?_eq_getElem hk, hkd]) (hfull d hd).1 hn (fun j hj => by
        have hjl : j < g.__devices.length := by omega
        refine ⟨g.__devices[j], List.getElem?_eq_getElem hjl, ?_, ?_⟩
        · exact (hfull _ (List.getElem_mem hjl)).1
        · exact (hfull _ (List.getElem_mem hjl)).2)
    exact add_new_sbdd_found env g capacity_mib n name_len m hf
  · intro i g1 hdes habs henv hnl hdisk
    obtain ⟨hi, hg1⟩ := destroy_slot_eq g g1 i hdes
    subst hg1
    have hlen1 : (g.__devices.set i __zero_sbdd).length = MAX_DEVICES := by
      rw [List.length_set]
      exact hlen
    have htake1 : (g.__devices.set i __zero_sbdd).take MAX_DEVICES
        = g.__devices.set i __zero_sbdd := List.take_of_length_le (Nat.le_of_eq hlen1)
    have hf : find_device_by_name (g.__devices.set i __zero_sbdd) name = some none := by
      rw [find_device_by_name, htake1]
      refine find_device_from_absent name _ 0 (fun d hd hz => ⟨?_, habs d hd⟩)
      rcases List.mem_or_eq_of_mem_set hd with h | h
      · exact (hfull d h).2
      · exact absurd h hz
    have hz : find_zero_from ((g.__devices.set i __zero_sbdd).take MAX_DEVICES) 0 = some i := by
      rw [htake1]
      have := find_zero_from_first (g.__devices.set i __zero_sbdd) 0 i
        (by rw [List.getElem?_set_self hi]) (fun j hj => by
          have hjl : j < g.__devices.length := by omega
          refine ⟨g.__devices[j], ?_, (hfull _ (List.getElem_mem hjl)).1⟩
          rw [List.getElem?_set_ne (by omega), List.getElem?_eq_getElem hjl])
      rw [this, Nat.zero_add]
    refine ⟨?_, setup_record_ne_zero _ _ _ _ _ _, ?_⟩
    · simp only [add_new_sbdd, hf, hz, sbdd_setup_ok env g.__sbdd_major i capacity_mib name
        name_len henv hnl hdisk, List.set_set]
    · rw [List.getElem?_set_self hi]

theorem env_good_succeeds : setup_succeeds env_good 1 :=
  ⟨by decide, rfl, rfl, rfl, rfl, rfl⟩

/-- Witness of C7: the full table `sbd0` .. `sbdf` refuses `vol0` with 1, and
takes it into slot 3 once that slot has been destroyed. -/
theorem add_new_sbdd_exhaustion_then_reuse_witness :
    add_new_sbdd env_good full_globals 1 ['v', 'o', 'l', '0'] 5 = some (1, full_globals) ∧
      destroy_slot full_globals 3
        = some { full_globals with __devices := full_globals.__devices.set 3 __zero_sbdd } ∧
      add_new_sbdd env_good
          { full_globals with __devices := full_globals.__devices.set 3 __zero_sbdd } 1
          ['v', 'o', 'l', '0'] 5
        = some (0, { full_globals with __devices := (full_globals.__devices.set 3
            (setup_record env_good 252 3 1 ['v', 'o', 'l', '0'] 5)) }) :=
  have h := add_new_sbdd_exhaustion_then_reuse env_good full_globals 1 ['v', 'o', 'l', '0'] 5
    rfl (by decide)
  ⟨h.1 (by decide), rfl,
    (h.2.2.2 3 _ rfl (by decide) env_good_succeeds (by decide) (by decide)).1⟩

/-- C8 (failing input): the empty table, `add_new_sbdd(10, "vol0", 5)` with
`vmalloc` returning `NULL`. `sbdd_setup` has already stored the capacity in
the claimed slot when it returns `-ENOMEM`, and nothing clears the slot: slot
0 holds `capacity = 20480` and a `NULL` name, it does not compare equal to
`__zero_sbdd`, the table differs from the table before the call, and the next
`find_device_by_name` hands the `NULL` name to `strcmp`. -/
theorem add_new_sbdd_no_memory_keeps_slot :
    add_new_sbdd env_no_memory empty_globals 10 ['v', 'o', 'l', '0'] 5
        = some (-ENOMEM, { empty_globals with __devices := (empty_globals.__devices.set 0
            { __zero_sbdd with capacity := 20480 }) }) ∧
      ({ __zero_sbdd with capacity := 20480 } : sbdd) ≠ __zero_sbdd ∧
      add_new_sbdd env_no_memory empty_globals 10 ['v', 'o', 'l', '0'] 5
        ≠ some (-ENOMEM, empty_globals) ∧
      find_device_by_name (empty_globals.__devices.set 0 { __zero_sbdd with capacity := 20480 })
        ['v', 'o', 'l', '0'] = none := by
  refine ⟨by decide, by decide, by decide, by decide⟩

/-! ## Device table: the invariant -/

theorem find_device_from_scan (name : List Char) (occ : List sbdd) (tail : List sbdd) :
    ∀ i0 : Nat, (∀ d ∈ occ, d ≠ __zero_sbdd) →
      find_device_from name (occ ++ tail) i0 = some none →
      ∀ a ∈ occ, a.name ≠ none ∧ a.name ≠ some name := by
  induction occ with
  | nil => intro _ _ _ a ha; simp at ha
  | cons d rest ih =>
    intro i0 hocc hf a ha
    have hz : d ≠ __zero_sbdd := hocc d (List.mem_cons_self _ _)
    simp only [List.cons_append, find_device_from, hz, if_false] at hf
    cases hn : d.name with
    | none => simp [hn] at hf
    | some n =>
      simp only [hn] at hf
      by_cases hnn : name = n
      · simp [hnn] at hf
      · simp only [hnn, if_false] at hf
        rcases List.mem_cons.mp ha with h | h
        · subst h
          refine ⟨by simp [hn], ?_⟩
          rw [hn]
          intro e
          exact hnn (Option.some.inj e).symm
        · exact ih (i0 + 1) (fun e he => hocc e (List.mem_cons_of_mem _ he)) hf a h

theorem find_zero_from_scan (occ : List sbdd) (m : Nat) :
    ∀ i0 : Nat, (∀ d ∈ occ, d ≠ __zero_sbdd) →
      find_zero_from (occ ++ List.replicate m __zero_sbdd) i0
        = if m = 0 then none else some (i0 + occ.length) := by
  induction occ with
  | nil =>
    intro i0 _
    cases m with
    | zero => rfl
    | succ m => simp [List.replicate_succ, find_zero_from]
  | cons d rest ih =>
    intro i0 hocc
    have hz : d ≠ __zero_sbdd := hocc d (List.mem_cons_self _ _)
    have hr := ih (i0 + 1) (fun e he => hocc e (List.mem_cons_of_mem _ he))
    rw [List.cons_append, find_zero_from, if_neg hz, hr, List.length_cons]
    split
    · rfl
    · congr 1
      omega

theorem sbdd_setup_name (env : kenv) (major : Int) (idx capacity_mib : Nat) (name : List Char)
    (name_len : Nat) (ret : Int) (d : sbdd)
    (h : sbdd_setup env major idx capacity_mib name name_len = some (ret, d)) :
    d.name = none ∨ d.name = some (scnprintf_s name_len name) := by
  unfold sbdd_setup at h
  simp only at h
  split at h
  · simp only [Option.some.injEq, Prod.mk.injEq] at h
    rw [← h.2]
    exact Or.inl rfl
  · split at h
    · simp only [Option.some.injEq, Prod.mk.injEq] at h
      rw [← h.2]
      exact Or.inl rfl
    · split at h
      · exact absurd h (by simp)
      · split at h
        · exact absurd h (by simp)
        · split at h
          · simp only [Option.some.injEq, Prod.mk.injEq] at h
            rw [← h.2]
            by_cases hk : env.kzalloc_device_ok = true
            · simp [sbdd_device_register, hk, __zero_sbdd]
            · simp [sbdd_device_register, hk, __zero_sbdd]
          · split at h
            · exact absurd h (by simp)
            · simp only [Option.some.injEq, Prod.mk.injEq] at h
              rw [← h.2]
              exact Or.inr rfl

theorem scnprintf_s_fits (name : List Char) (name_len : Nat) (h : name.length < name_len) :
    scnprintf_s name_len name = name := by
  unfold scnprintf_s
  exact List.take_of_length_le (by omega)

theorem set_after_occupied (occ : List sbdd) (m : Nat) (d : sbdd) (hm : m ≠ 0) :
    (occ ++ List.replicate m __zero_sbdd).set occ.length d
      = (occ ++ [d]) ++ List.replicate (m - 1) __zero_sbdd := by
  obtain ⟨k, rfl⟩ := Nat.exists_eq_succ_of_ne_zero hm
  rw [List.set_append_right _ _ (Nat.le_refl _)]
  simp [List.replicate_succ]

/-- A call of `add_new_sbdd` that returns keeps the table invariant. -/
theorem table_inv_create (env : kenv) (g g1 : globals) (capacity_mib : Nat)
    (name : List Char) (name_len : Nat) (ret : Int) (hinv : table_inv g.__devices)
    (hname : name.length < name_len)
    (h : add_new_sbdd env g capacity_mib name name_len = some (ret, g1)) :
    table_inv g1.__devices := by
  obtain ⟨occ, m, hl, hlen, hocc, hpw⟩ := hinv
  have htake : g.__devices.take MAX_DEVICES = g.__devices := by
    apply List.take_of_length_le
    rw [hl, List.length_append, List.length_replicate]
    omega
  simp only [add_new_sbdd, find_device_by_name, htake] at h
  split at h
  · exact absurd h (by simp)
  · simp only [Option.some.injEq, Prod.mk.injEq] at h
    rw [← h.2]
    exact ⟨occ, m, hl, hlen, hocc, hpw⟩
  · rename_i hf
    rw [hl] at hf
    have hnames := find_device_from_scan name occ _ 0 hocc hf
    rw [hl, find_zero_from_scan occ m 0 hocc] at h
    by_cases hm : m = 0
    · simp only [hm, if_true, Option.some.injEq, Prod.mk.injEq] at h
      rw [← h.2]
      exact ⟨occ, m, hl, hlen, hocc, hpw⟩
    · simp only [hm, if_false, Nat.zero_add] at h
      split at h
      · exact absurd h (by simp)
      · rename_i r d hs
        simp only [Option.some.injEq, Prod.mk.injEq] at h
        rw [← h.2]
        show table_inv ((occ ++ List.replicate m __zero_sbdd).set occ.length d)
        by_cases hdz : d = __zero_sbdd
        · rw [hdz, set_after_occupied occ m __zero_sbdd hm]
          refine ⟨occ, m, ?_, hlen, hocc, hpw⟩
          obtain ⟨k, rfl⟩ := Nat.exists_eq_succ_of_ne_zero hm
          simp [List.replicate_succ]
        · rw [set_after_occupied occ m d hm]
          refine ⟨occ ++ [d], m - 1, rfl, ?_, ?_, ?_⟩
          · rw [List.length_append, List.length_singleton]
            omega
          · intro e he
            rcases List.mem_append.mp he with h1 | h1
            · exact hocc e h1
            · rw [List.mem_singleton.mp h1]
              exact hdz
          · rw [List.pairwise_append]
            refine ⟨hpw, List.pairwise_singleton _ _, ?_⟩
            intro a ha b hb
            rw [List.mem_singleton.mp hb]
            obtain ⟨h1, h2⟩ := hnames a ha
            refine ⟨h1, ?_⟩
            rcases sbdd_setup_name env _ _ _ _ _ _ _ hs with hd | hd
            · rw [hd]
              exact h1
            · rw [hd, scnprintf_s_fits name name_len hname]
              exact h2

theorem getElem?_occupied_part (occ : List sbdd) (m j : Nat) (d : sbdd)
    (h : (occ ++ List.replicate m __zero_sbdd)[j]? = some d) (hz : d ≠ __zero_sbdd) :
    j < occ.length ∧ occ[j]? = some d := by
  by_cases hj : j < occ.length
  · rw [List.getElem?_append_left hj] at h
    exact ⟨hj, h⟩
  · rw [List.getElem?_append_right (Nat.le_of_not_lt hj)] at h
    have hmem : d ∈ List.replicate m __zero_sbdd := List.getElem?_mem h
    exact absurd (List.eq_of_mem_replicate hmem) hz

/-- A call of `sbdd_destroy` on the last occupied slot that returns keeps the
table invariant. -/
theorem table_inv_destroy (g g1 : globals) (i : Nat) (hinv : table_inv g.__devices)
    (hlast : last_occupied g.__devices i) (h : destroy_slot g i = some g1) :
    table_inv g1.__devices := by
  obtain ⟨occ, m, hl, hlen, hocc, hpw⟩ := hinv
  obtain ⟨_, hg1⟩ := destroy_slot_eq g g1 i h
  subst hg1
  obtain ⟨⟨d, hd, hdz⟩, hafter⟩ := hlast
  rw [hl] at hd hafter
  obtain ⟨hi, _⟩ := getElem?_occupied_part occ m i d hd hdz
  have hi1 : i + 1 = occ.length := by
    by_contra hne
    have hlt : i + 1 < occ.length := by omega
    have hmem : occ[i + 1] ∈ occ := List.getElem_mem hlt
    have := hafter (i + 1) occ[i + 1] (Nat.lt_succ_self i)
      (by rw [List.getElem?_append_left hlt, List.getElem?_eq_getElem hlt])
    exact hocc _ hmem this
  have hne : occ ≠ [] := by
    intro e
    rw [e] at hi
    exact Nat.not_lt_zero _ hi
  have hsplit : occ = occ.dropLast ++ [occ.getLast hne] := (List.dropLast_append_getLast hne).symm
  have hdl : occ.dropLast.length = i := by
    rw [List.length_dropLast]
    omega
  show table_inv (g.__devices.set i __zero_sbdd)
  refine ⟨occ.dropLast, m + 1, ?_, ?_, ?_, ?_⟩
  · rw [hl]
    conv_lhs => rw [hsplit]
    rw [List.append_assoc, ← hdl, List.set_append_right _ _ (Nat.le_refl _)]
    simp [List.replicate_succ]
  · rw [hdl]
    omega
  · intro e he
    exact hocc e (List.dropLast_subset occ he)
  · exact hpw.sublist (List.dropLast_sublist occ)

theorem table_inv_unique (devices : List sbdd) (hinv : table_inv devices) :
    names_unique devices := by
  obtain ⟨occ, m, hl, _, _, hpw⟩ := hinv
  rw [List.pairwise_iff_getElem] at hpw
  have key : ∀ (i j : Nat) (a b : sbdd), i < j → devices[i]? = some a → devices[j]? = some b →
      a ≠ __zero_sbdd → b ≠ __zero_sbdd → a.name ≠ b.name := by
    intro i j a b hij ha hb haz hbz
    rw [hl] at ha hb
    obtain ⟨hi, ha1⟩ := getElem?_occupied_part occ m i a ha haz
    obtain ⟨hj, hb1⟩ := getElem?_occupied_part occ m j b hb hbz
    rw [List.getElem?_eq_getElem hi, Option.some.injEq] at ha1
    rw [List.getElem?_eq_getElem hj, Option.some.injEq] at hb1
    rw [← ha1, ← hb1]
    exact (hpw i j hi hj hij).2
  intro i j a b hij ha hb haz hbz
  rcases Nat.lt_or_gt_of_ne hij with h | h
  · exact key i j a b h ha hb haz hbz
  · exact fun e => key j i b a h hb ha hbz haz e.symm

theorem table_inv_initial : table_inv (List.replicate MAX_DEVICES __zero_sbdd) :=
  ⟨[], MAX_DEVICES, rfl, by simp, by simp, List.Pairwise.nil⟩

theorem table_inv_length (devices : List sbdd) (hinv : table_inv devices) :
    devices.length = MAX_DEVICES := by
  obtain ⟨occ, m, hl, hlen, _, _⟩ := hinv
  rw [hl, List.length_append, List.length_replicate]
  exact hlen

theorem run_ops_inv (ops : List table_op) :
    ∀ g g1 : globals, table_inv g.__devices → ops_in_order g ops → run_ops g ops = some g1 →
      table_inv g1.__devices := by
  induction ops with
  | nil =>
    intro g g1 hinv _ h
    simp only [run_ops, Option.some.injEq] at h
    rw [← h]
    exact hinv
  | cons op rest ih =>
    intro g g1 hinv hord h
    obtain ⟨hop, hrest⟩ := hord
    simp only [run_ops] at h
    cases ha : apply_op g op with
    | none => simp [ha] at h
    | some g2 =>
      simp only [ha] at h
      refine ih g2 g1 ?_ (hrest g2 ha) h
      cases op with
      | create env capacity_mib name name_len =>
        simp only [apply_op, Option.map_eq_some'] at ha
        obtain ⟨⟨ret, g3⟩, hadd, hg⟩ := ha
        simp only at hg
        subst hg
        exact table_inv_create env g g3 capacity_mib name name_len ret hinv hop hadd
      | destroy i => exact table_inv_destroy g g2 i hinv hop ha

/-- C6 (amended): in every state reached from the table of all-zero slots by
a sequence of `add_new_sbdd` calls (whatever the kernel answers, with
`name_len` above the length of the name) and of `sbdd_destroy` calls on the
slot that is then the last occupied one, no two occupied slots hold the same
name and at most `MAX_DEVICES` slots are occupied. -/
theorem reachable_names_unique (m : mode) (major : Int) (ops : List table_op) (g : globals)
    (hord : ops_in_order (initial_globals m major) ops)
    (hrun : run_ops (initial_globals m major) ops = some g) :
    names_unique g.__devices ∧ occupied_count g.__devices ≤ MAX_DEVICES := by
  have hinv := run_ops_inv ops (initial_globals m major) g table_inv_initial hord hrun
  refine ⟨table_inv_unique _ hinv, ?_⟩
  rw [← table_inv_length _ hinv]
  exact List.length_filter_le _ _

/-- C6 (counterexample): from the empty table, create `a`, create `b`,
destroy slot 0 and create `b` again. The last scan of `find_device_by_name`
stops at the emptied slot 0, so the second `b` is set up there: slots 0 and 1
are both occupied and both named `b`. -/
theorem reachable_names_clash :
    run_ops empty_globals clash_ops = some clash_globals ∧
      ¬ names_unique clash_globals.__devices := by
  refine ⟨rfl, fun h => ?_⟩
  exact h 0 1 (setup_record env_good 252 0 1 ['b'] 2) (setup_record env_good 252 1 1 ['b'] 2)
    (by decide) rfl rfl (setup_record_ne_zero _ _ _ _ _ _) (setup_record_ne_zero _ _ _ _ _ _) rfl

theorem ordered_ops_in_order : ops_in_order (initial_globals mode.USER 252) ordered_ops := by
  refine ⟨show ['a'].length < 2 by decide, fun g1 h1 => ?_⟩
  have e1 : apply_op (initial_globals mode.USER 252) (table_op.create env_good 1 ['a'] 2)
      = some { empty_globals with __devices :=
          (setup_record env_good 252 0 1 ['a'] 2 :: List.replicate 15 __zero_sbdd) } := rfl
  rw [e1, Option.some.injEq] at h1
  subst h1
  refine ⟨show ['b'].length < 2 by decide, fun g2 h2 => ?_⟩
  have e2 : apply_op { empty_globals with __devices :=
        (setup_record env_good 252 0 1 ['a'] 2 :: List.replicate 15 __zero_sbdd) }
      (table_op.create env_good 1 ['b'] 2) = some ordered_globals := rfl
  rw [e2, Option.some.injEq] at h2
  subst h2
  refine ⟨⟨⟨setup_record env_good 252 1 1 ['b'] 2, rfl, setup_record_ne_zero _ _ _ _ _ _⟩,
    fun j d hj hd => ?_⟩, fun g3 h3 => ?_⟩
  · obtain ⟨k, rfl⟩ : ∃ k, j = k + 2 := ⟨j - 2, by omega⟩
    have hd1 : (List.replicate 14 __zero_sbdd)[k]? = some d := by
      simpa [ordered_globals] using hd
    exact List.eq_of_mem_replicate (List.getElem?_mem hd1)
  · have e3 : apply_op ordered_globals (table_op.destroy 1)
        = some { empty_globals with __devices :=
            (setup_record env_good 252 0 1 ['a'] 2 :: List.replicate 15 __zero_sbdd) } := rfl
    rw [e3, Option.some.injEq] at h3
    subst h3
    exact ⟨show ['b'].length < 2 by decide, fun _ _ => trivial⟩

/-- Witness of C6 (amended): create `a`, create `b`, destroy slot 1 (the last
occupied one), create `b` again. -/
theorem reachable_names_unique_witness :
    ops_in_order (initial_globals mode.USER 252) ordered_ops ∧
      run_ops (initial_globals mode.USER 252) ordered_ops = some ordered_globals ∧
      names_unique ordered_globals.__devices ∧
      occupied_count ordered_globals.__devices ≤ MAX_DEVICES :=
  ⟨ordered_ops_in_order, rfl,
    reachable_names_unique mode.USER 252 ordered_ops ordered_globals ordered_ops_in_order rfl⟩

/-! ## Command console: strings -/

theorem cstr_eq_self (l : List Char) (h : ∀ c ∈ l, c ≠ NUL) : cstr l = l := by
  unfold cstr
  rw [List.takeWhile_eq_self_iff]
  intro c hc
  simpa using h c hc

theorem strstr_from_at_start (needle rest : List Char) (i : Nat) (hne : needle ≠ []) :
    strstr_from needle (needle ++ rest) i = some i := by
  cases needle with
  | nil => exact absurd rfl hne
  | cons a as =>
    have hp : (a :: as).isPrefixOf (a :: (as ++ rest)) = true := by
      rw [List.isPrefixOf_iff_prefix]
      exact List.prefix_append (a :: as) rest
    rw [List.cons_append, strstr_from, if_pos hp]

theorem isPrefixOf_before_sep (sep : Char) (tail : List Char) (needle : List Char) :
    ∀ front : List Char, sep ∉ needle →
      needle.isPrefixOf (front ++ sep :: tail) = needle.isPrefixOf front := by
  induction needle with
  | nil => intro front _; simp [List.isPrefixOf]
  | cons a as ih =>
    intro front hsep
    have ha : a ≠ sep := fun e => hsep (by rw [e]; exact List.mem_cons_self _ _)
    have has : sep ∉ as := fun e => hsep (List.mem_cons_of_mem _ e)
    cases front with
    | nil => simp [List.isPrefixOf, ha]
    | cons x xs =>
      rw [List.cons_append, List.isPrefixOf, List.isPrefixOf, ih xs has]

/-- A needle without the separator is searched first in the part before the
separator, then in the part behind it. -/
theorem strstr_from_sep (sep : Char) (tail needle : List Char) (hne : needle ≠ [])
    (hsep : sep ∉ needle) :
    ∀ (front : List Char) (i : Nat),
      strstr_from needle (front ++ sep :: tail) i
        = match strstr_from needle front i with
          | some k => some k
          | none => strstr_from needle tail (i + front.length + 1) := by
  intro front
  induction front with
  | nil =>
    intro i
    have h0 : needle.isPrefixOf (sep :: tail) = false := by
      cases needle with
      | nil => exact absurd rfl hne
      | cons a as =>
        have ha : a ≠ sep := fun e => hsep (by rw [e]; exact List.mem_cons_self _ _)
        simp [List.isPrefixOf, ha]
    simp [strstr_from, h0, hne]
  | cons x xs ih =>
    intro i
    have hp := isPrefixOf_before_sep sep tail needle (x :: xs) hsep
    rw [List.cons_append] at hp ⊢
    by_cases hx : needle.isPrefixOf (x :: xs) = true
    · simp only [strstr_from, hp, hx, if_true]
    · simp only [strstr_from, hp, hx, if_false, Bool.false_eq_true]
      rw [ih (i + 1)]
      simp only [List.length_cons]
      have : i + 1 + xs.length + 1 = i + (xs.length + 1) + 1 := by omega
      rw [this]

theorem strstr_from_absent_head (a : Char) (as : List Char) (l : List Char) :
    ∀ i : Nat, a ∉ l → strstr_from (a :: as) l i = none := by
  induction l with
  | nil => intro i _; simp [strstr_from]
  | cons x xs ih =>
    intro i h
    have hx : (a == x) = false := by
      simpa using fun e : a = x => h (by rw [e]; exact List.mem_cons_self _ _)
    have hxs : a ∉ xs := fun e => h (List.mem_cons_of_mem _ e)
    rw [strstr_from, List.isPrefixOf, hx, Bool.false_and, if_neg (by simp)]
    exact ih (i + 1) hxs

/-- The first space of `front ++ ' ' :: tail` when `front` has none. -/
theorem strstr_space (front tail : List Char) (h : ' ' ∉ front) :
    strstr_from [' '] (front ++ ' ' :: tail) 0 = some front.length := by
  have h1 : ∀ (l : List Char) (i : Nat), ' ' ∉ l →
      strstr_from [' '] (l ++ ' ' :: tail) i = some (i + l.length) := by
    intro l
    induction l with
    | nil => intro i _; simp [strstr_from, List.isPrefixOf]
    | cons x xs ih =>
      intro i hl
      have hx : (' ' == x) = false := by
        simpa using fun e : ' ' = x => hl (by rw [e]; exact List.mem_cons_self _ _)
      have hxs : ' ' ∉ xs := fun e => hl (List.mem_cons_of_mem _ e)
      rw [List.cons_append, strstr_from, List.isPrefixOf, hx, Bool.false_and,
        if_neg (by simp), ih (i + 1) hxs, List.length_cons]
      congr 1
      omega
  rw [h1 front 0 h, Nat.zero_add]

/-! ## Command console: scanning -/

theorem isspace_space : isspace ' ' = true := by decide

theorem digit_not_space (c : Char) (h : isdigit c = true) : isspace c = false := by
  unfold isdigit at h
  unfold isspace
  simp only [Bool.and_eq_true, decide_eq_true_eq] at h
  simp only [Bool.or_eq_false_iff, Bool.and_eq_false_iff, decide_eq_false_iff_not]
  omega

theorem token_char (name : List Char) (h : name_token name) (c : Char) (hc : c ∈ name) :
    isspace c = false ∧ c ≠ NUL ∧ c ≠ ' ' ∧ c ≠ '\n' := by
  obtain ⟨h1, h2⟩ := h.2 c hc
  refine ⟨h1, h2, ?_, ?_⟩
  · intro e
    rw [e] at h1
    exact absurd h1 (by decide)
  · intro e
    rw [e] at h1
    exact absurd h1 (by decide)

theorem digit_char (c : Char) (h : isdigit c = true) :
    isspace c = false ∧ c ≠ NUL ∧ c ≠ ' ' ∧ c ≠ '\n' ∧ c ≠ '-' ∧ c ≠ 'c' := by
  refine ⟨digit_not_space c h, ?_, ?_, ?_, ?_, ?_⟩ <;>
    (intro e
     rw [e] at h
     exact absurd h (by decide))

theorem line_end_char (tail : List Char) (h : line_end tail) (c : Char) (hc : c ∈ tail) :
    c = '\n' := by
  rcases h with h | h
  · rw [h] at hc
    simp at hc
  · rw [h] at hc
    simpa using hc

/-- The arguments `<name> <numeral>` hold no NUL. -/
theorem args_no_nul (name val tail : List Char) (hname : name_token name)
    (hval : ∀ c ∈ val, c ≠ NUL) (htail : line_end tail) :
    ∀ c ∈ name ++ ' ' :: (val ++ tail), c ≠ NUL := by
  intro c hc
  rcases List.mem_append.mp hc with h | h
  · exact (token_char name hname c h).2.1
  · rcases List.mem_cons.mp h with h | h
    · rw [h]
      decide
    · rcases List.mem_append.mp h with h | h
      · exact hval c h
      · rw [line_end_char tail htail c h]
        decide

theorem scan_token_name (name rest : List Char) (hname : name_token name)
    (hlen : name.length ≤ 32767) :
    scan_token (name ++ ' ' :: rest) = (name, ' ' :: rest) := by
  obtain ⟨a, as, rfl⟩ := List.exists_cons_of_ne_nil hname.1
  have ha : isspace a = false := (hname.2 a (List.mem_cons_self _ _)).1
  have hskip : skip_spaces ((a :: as) ++ ' ' :: rest) = (a :: as) ++ ' ' :: rest := by
    rw [List.cons_append, skip_spaces, List.dropWhile_cons_of_neg (by simp [ha])]
  have htw : (((a :: as) ++ ' ' :: rest).takeWhile fun c => !isspace c) = a :: as := by
    rw [List.takeWhile_append_of_pos (fun c hc => by simp [(hname.2 c hc).1]),
      List.takeWhile_cons_of_neg (by simp [isspace_space]), List.append_nil]
  unfold scan_token
  simp only [hskip, htw]
  rw [List.take_of_length_le hlen, List.drop_left]

theorem skip_spaces_numeral (ds tail : List Char) (hds : numeral ds) :
    skip_spaces (' ' :: (ds ++ tail)) = ds ++ tail := by
  obtain ⟨d, rest, rfl⟩ := List.exists_cons_of_ne_nil hds.1
  have hd : isspace d = false := digit_not_space d (hds.2 d (List.mem_cons_self _ _))
  rw [skip_spaces, List.dropWhile_cons_of_pos isspace_space, List.cons_append,
    List.dropWhile_cons_of_neg (by simp [hd])]

theorem takeWhile_numeral (ds tail : List Char) (hds : numeral ds) (htail : line_end tail) :
    (ds ++ tail).takeWhile isdigit = ds := by
  rw [List.takeWhile_append_of_pos (fun c hc => hds.2 c hc)]
  rcases htail with h | h
  · rw [h]
    simp
  · rw [h, List.takeWhile_cons_of_neg (by decide), List.append_nil]

/-- What `sscanf(args, "%s %lu", ...)` reads from `<name> <numeral>`. -/
theorem sscanf_s_lu_parse (name ds tail : List Char) (hname : name_token name)
    (hlen : name.length ≤ 32767) (hds : numeral ds) (htail : line_end tail) :
    sscanf_s_lu (name ++ ' ' :: (ds ++ tail)) = (2, name, digits_value ds 0 % 2 ^ 64) := by
  have hc := cstr_eq_self _ (args_no_nul name ds tail hname
    (fun c hc => (digit_char c (hds.2 c hc)).2.1) htail)
  have hne : name ++ ' ' :: (ds ++ tail) ≠ [] := by simp
  obtain ⟨d, rest, hd⟩ := List.exists_cons_of_ne_nil hds.1
  have hdd : isdigit d = true := hds.2 d (by rw [hd]; exact List.mem_cons_self _ _)
  unfold sscanf_s_lu
  simp only [hc, hne, if_false, scan_token_name name _ hname hlen,
    skip_spaces_numeral ds tail hds]
  rw [takeWhile_numeral ds tail hds htail]
  subst hd
  simp [hdd]

/-! ## Device table: the first empty slot -/

theorem find_zero_from_exists (l : List sbdd) :
    ∀ (i0 k : Nat), l[k]? = some __zero_sbdd →
      ∃ i, i ≤ k ∧ find_zero_from l i0 = some (i0 + i) ∧ l[i]? = some __zero_sbdd ∧
        ∀ j < i, ∃ e, l[j]? = some e ∧ e ≠ __zero_sbdd := by
  induction l with
  | nil => intro i0 k h; simp at h
  | cons d rest ih =>
    intro i0 k hk
    by_cases hz : d = __zero_sbdd
    · exact ⟨0, Nat.zero_le _, by simp [find_zero_from, hz], by simp [hz],
        fun j hj => absurd hj (Nat.not_lt_zero _)⟩
    · cases k with
      | zero =>
        simp only [List.getElem?_cons_zero, Option.some.injEq] at hk
        exact absurd hk hz
      | succ k =>
        simp only [List.getElem?_cons_succ] at hk
        obtain ⟨i, hi, hf, hzi, hbefore⟩ := ih (i0 + 1) k hk
        refine ⟨i + 1, Nat.succ_le_succ hi, ?_, by simpa using hzi, ?_⟩
        · rw [find_zero_from, if_neg hz, hf]
          congr 1
          omega
        · intro j hj
          cases j with
          | zero => exact ⟨d, by simp, hz⟩
          | succ j =>
            obtain ⟨e, he, hez⟩ := hbefore j (Nat.lt_of_succ_lt_succ hj)
            exact ⟨e, by simpa using he, hez⟩

/-- The scan of `find_device_by_name` stops at slot `k` when that slot holds
`name` and every slot before it is occupied under another name. -/
theorem find_device_from_at (name : List Char) (l : List sbdd) :
    ∀ (i0 k : Nat) (d : sbdd), l[k]? = some d → d ≠ __zero_sbdd → d.name = some name →
      (∀ j < k, ∃ e, l[j]? = some e ∧ e ≠ __zero_sbdd ∧ e.name ≠ none ∧ e.name ≠ some name) →
      find_device_from name l i0 = some (some (i0 + k)) := by
  induction l with
  | nil => intro i0 k d h; simp at h
  | cons e rest ih =>
    intro i0 k d hk hz hname hbefore
    cases k with
    | zero =>
      simp only [List.getElem?_cons_zero, Option.some.injEq] at hk
      subst hk
      simp [find_device_from, hz, hname]
    | succ k =>
      obtain ⟨e0, he0, hez, hen, hne⟩ := hbefore 0 (Nat.succ_pos _)
      simp only [List.getElem?_cons_zero, Option.some.injEq] at he0
      subst he0
      cases hn : e.name with
      | none => exact absurd hn hen
      | some n =>
        have hnn : ¬ name = n := fun h => hne (by rw [hn, h])
        simp only [List.getElem?_cons_succ] at hk
        rw [find_device_from, if_neg hez]
        simp only [hn, hnn, if_false]
        rw [ih (i0 + 1) k d hk hz hname (fun j hj => by
          obtain ⟨x, hx, hxz, hxn⟩ := hbefore (j + 1) (Nat.succ_lt_succ hj)
          simp only [List.getElem?_cons_succ] at hx
          exact ⟨x, hx, hxz, hxn⟩)]
        congr 2
        omega

/-- On a table where `name` is not held and some slot is empty, a set-up
whose kernel services succeed puts the record into the first empty slot, and
the lookup then finds it there. -/
theorem add_new_sbdd_ok (env : kenv) (g : globals) (capacity_mib : Nat) (name : List Char)
    (name_len k : Nat) (hk : k < MAX_DEVICES) (hzero : g.__devices[k]? = some __zero_sbdd)
    (habs : ∀ d ∈ g.__devices, d ≠ __zero_sbdd → d.name ≠ none ∧ d.name ≠ some name)
    (henv : setup_succeeds env capacity_mib) (hlen : name.length < name_len)
    (hdisk : name.length < DISK_NAME_LEN) :
    ∃ i, i ≤ k ∧ g.__devices[i]? = some __zero_sbdd ∧
      add_new_sbdd env g capacity_mib name name_len
        = some (0, { g with __devices := (g.__devices.set i
            (setup_record env g.__sbdd_major i capacity_mib name name_len)) }) ∧
      find_device_by_name
          (g.__devices.set i (setup_record env g.__sbdd_major i capacity_mib name name_len))
          name = some (some i) := by
  have hf : find_device_by_name g.__devices name = some none := by
    rw [find_device_by_name]
    exact find_device_from_absent name _ 0 (fun d hd hz => habs d (List.mem_of_mem_take hd) hz)
  obtain ⟨i, hik, hfz, hzi, hbefore⟩ := find_zero_from_exists (g.__devices.take MAX_DEVICES) 0 k
    (by rw [take_max_getElem? _ k hk]; exact hzero)
  rw [Nat.zero_add] at hfz
  have hi16 : i < MAX_DEVICES := by omega
  rw [take_max_getElem? _ i hi16] at hzi
  have hil : i < g.__devices.length := by
    by_contra hc
    rw [List.getElem?_eq_none (Nat.le_of_not_lt hc)] at hzi
    exact absurd hzi (by simp)
  refine ⟨i, hik, hzi, ?_, ?_⟩
  · simp only [add_new_sbdd, hf, hfz, sbdd_setup_ok env g.__sbdd_major i capacity_mib name
      name_len henv (by omega) hdisk]
  · rw [find_device_by_name]
    have := find_device_from_at name
      ((g.__devices.set i (setup_record env g.__sbdd_major i capacity_mib name name_len)).take
        MAX_DEVICES) 0 i (setup_record env g.__sbdd_major i capacity_mib name name_len)
      (by rw [take_max_getElem? _ i hi16, List.getElem?_set_self hil])
      (setup_record_ne_zero _ _ _ _ _ _)
      (by
        show some (scnprintf_s name_len name) = some name
        rw [scnprintf_s_fits name name_len hlen])
      (fun j hj => by
        obtain ⟨e, he, hez⟩ := hbefore j hj
        rw [take_max_getElem? _ j (by omega)] at he
        refine ⟨e, ?_, hez, habs e (List.getElem?_mem he) hez⟩
        rw [take_max_getElem? _ j (by omega), List.getElem?_set_ne (by omega)]
        exact he)
    rw [this, Nat.zero_add]

/-! ## Command console: dispatch -/

theorem char_at_sep (front tail : List Char) (c : Char) :
    char_at (front ++ c :: tail) front.length = c := by
  unfold char_at
  rw [List.getD_eq_getElem?_getD, List.append_assoc,
    List.getElem?_append_right (Nat.le_refl _), Nat.sub_self]
  simp

theorem drop_keyword (comm args : List Char) :
    (comm ++ ' ' :: args).drop (comm.length + 1) = args := by
  have h : comm ++ ' ' :: args = (comm ++ [' ']) ++ args := by simp
  rw [h]
  exact List.drop_left' (by simp)

/-- A buffer that starts with the keyword, a space and arguments without NUL. -/
theorem keyword_front (comm args : List Char) (hne : comm ≠ [])
    (hc : ∀ c ∈ comm, c ≠ NUL) (ha : ∀ c ∈ args, c ≠ NUL) :
    strstr (comm ++ ' ' :: args) comm = some 0 ∧
      command_args (comm ++ ' ' :: args) comm = some args ∧
      command_matches (comm ++ ' ' :: args) (comm ++ ' ' :: args).length comm = true := by
  have hbuf : cstr (comm ++ ' ' :: args) = comm ++ ' ' :: args := by
    apply cstr_eq_self
    intro c hcm
    rcases List.mem_append.mp hcm with h | h
    · exact hc c h
    · rcases List.mem_cons.mp h with h | h
      · rw [h]
        decide
      · exact ha c h
  have hs : strstr (comm ++ ' ' :: args) comm = some 0 := by
    rw [strstr, hbuf]
    exact strstr_from_at_start comm _ 0 hne
  have hl : (comm ++ ' ' :: args).length = comm.length + 1 + args.length := by
    simp
    omega
  refine ⟨hs, ?_, ?_⟩
  · unfold command_args
    simp only [hs, Nat.zero_add]
    rw [if_pos (by omega), drop_keyword]
  · unfold command_matches
    simp only [hs, Nat.zero_add, char_at_sep]
    simp

theorem execute_command_eq (env : kenv) (g : globals) (buf : List Char) (count : Nat) :
    execute_command env g buf count
      = if command_matches buf count "create".toList then
          command_result count (create_com env g buf count)
        else if command_matches buf count "change_mode".toList then
          command_result count (change_mode_com env g buf count)
        else some ((count : Int), g) := rfl

theorem create_text_eq (name ds tail : List Char) :
    create_text name ds tail = "create".toList ++ ' ' :: (name ++ ' ' :: (ds ++ tail)) := rfl

theorem change_mode_text_eq (name val tail : List Char) :
    change_mode_text name val tail
      = "change_mode".toList ++ ' ' :: (name ++ ' ' :: (val ++ tail)) := rfl

/-- The first space of the arguments `<name> <value>` is the one behind the name. -/
theorem strstr_args_space (name rest : List Char) (hname : name_token name)
    (hrest : ∀ c ∈ rest, c ≠ NUL) :
    strstr (name ++ ' ' :: rest) [' '] = some name.length := by
  have hc : cstr (name ++ ' ' :: rest) = name ++ ' ' :: rest := by
    apply cstr_eq_self
    intro c hcm
    rcases List.mem_append.mp hcm with h | h
    · exact (token_char name hname c h).2.1
    · rcases List.mem_cons.mp h with h | h
      · rw [h]
        decide
      · exact hrest c h
  rw [strstr, hc]
  exact strstr_space name rest (fun h => (token_char name hname ' ' h).2.2.1 rfl)

theorem numeral_tail_no_nul (val tail : List Char) (hval : ∀ c ∈ val, c ≠ NUL)
    (htail : line_end tail) : ∀ c ∈ val ++ tail, c ≠ NUL := by
  intro c hc
  rcases List.mem_append.mp hc with h | h
  · exact hval c h
  · rw [line_end_char tail htail c h]
    decide

/-- What `create_com` does with the text `create <name> <numeral>` in `USER` mode. -/
theorem create_com_parsed (env : kenv) (g : globals) (name ds tail : List Char) (count : Nat)
    (hmode : g.__mode = mode.USER) (hname : name_token name) (hds : numeral ds)
    (htail : line_end tail) (hsize : name.length + 1 < 2 ^ 64) :
    create_com env g (create_text name ds tail) count
      = if name.length > MAX_DEV_NAME_SIZE then some (-EINVAL, g)
        else if env.kzalloc_arg_ok = false then none
        else add_new_sbdd env g (digits_value ds 0 % 2 ^ 64) name (name.length + 1) := by
  have hdn : ∀ c ∈ ds, c ≠ NUL := fun c hc => (digit_char c (hds.2 c hc)).2.1
  have hargs := args_no_nul name ds tail hname hdn htail
  obtain ⟨_, hca, _⟩ := keyword_front "create".toList _ (by decide) (by decide) hargs
  rw [← create_text_eq] at hca
  have hsp := strstr_args_space name (ds ++ tail) hname (numeral_tail_no_nul ds tail hdn htail)
  have hadd : u64_add name.length 1 = name.length + 1 := by
    unfold u64_add
    exact Nat.mod_eq_of_lt hsize
  have hm : ¬ g.__mode = mode.AUTO := by
    rw [hmode]
    decide
  unfold create_com
  simp only [hca, hsp, hm, if_false, hadd, Nat.add_sub_cancel]
  rw [if_neg (Nat.succ_ne_zero _)]
  by_cases hlong : name.length > MAX_DEV_NAME_SIZE
  · simp only [hlong, if_true]
  · have h32 : name.length ≤ 32767 := by
      unfold MAX_DEV_NAME_SIZE at hlong
      omega
    simp only [hlong, if_false, sscanf_s_lu_parse name ds tail hname h32 hds htail]
    by_cases hk : env.kzalloc_arg_ok = true
    · simp [hk]
    · simp [hk]

theorem execute_command_create (env : kenv) (g : globals) (name ds tail : List Char)
    (hname : name_token name) (hds : numeral ds) (htail : line_end tail) :
    execute_command env g (create_text name ds tail) (create_text name ds tail).length
      = command_result (create_text name ds tail).length
          (create_com env g (create_text name ds tail) (create_text name ds tail).length) := by
  have hdn : ∀ c ∈ ds, c ≠ NUL := fun c hc => (digit_char c (hds.2 c hc)).2.1
  obtain ⟨_, _, hm⟩ := keyword_front "create".toList _ (by decide) (by decide)
    (args_no_nul name ds tail hname hdn htail)
  rw [← create_text_eq] at hm
  rw [execute_command_eq, if_pos hm]

/-- C9 (amended): in `USER` mode, for a name of non-white-space characters
and a decimal capacity `c`, the console write `create <name> <c>` (with or
without a final newline) does the following. If the name has at most
`MAX_DEV_NAME_SIZE` characters, `c * 2048` fits 64 bits, the table has an
empty slot, every occupied slot has a name other than `name`, and every
kernel service of the set-up succeeds, the write returns the full byte count
and afterwards `find_device_by_name(name)` returns a slot that holds a volume
with that name, `capacity = c * 2048` sectors, `deleting = 0`,
`refs_cnt = 0` and a read-write disk, every other slot being unchanged. If
the name is longer than `MAX_DEV_NAME_SIZE`, the write returns `-EINVAL` and
the globals are unchanged. -/
theorem create_command_adds_volume (env : kenv) (g : globals) (name ds tail : List Char)
    (hmode : g.__mode = mode.USER) (hname : name_token name) (hds : numeral ds)
    (htail : line_end tail) (hsize : (create_text name ds tail).length < 2 ^ 64) :
    (name.length ≤ MAX_DEV_NAME_SIZE →
      digits_value ds 0 * SBDD_MIB_SECTORS < 2 ^ 64 →
      (∃ k, k < MAX_DEVICES ∧ g.__devices[k]? = some __zero_sbdd) →
      (∀ d ∈ g.__devices, d ≠ __zero_sbdd → d.name ≠ none ∧ d.name ≠ some name) →
      setup_succeeds env (digits_value ds 0) → env.kzalloc_arg_ok = true →
      ∃ (g1 : globals) (i : Nat) (d : sbdd) (gd : gendisk),
        execute_command env g (create_text name ds tail) (create_text name ds tail).length
          = some (((create_text name ds tail).length : Int), g1) ∧
        find_device_by_name g1.__devices name = some (some i) ∧
        g1.__devices[i]? = some d ∧ d.name = some name ∧
        d.capacity = digits_value ds 0 * SBDD_MIB_SECTORS ∧ d.deleting = 0 ∧ d.refs_cnt = 0 ∧
        d.gd = some gd ∧ gd.policy = 0 ∧
        ∀ j, j ≠ i → g1.__devices[j]? = g.__devices[j]?) ∧
      (name.length > MAX_DEV_NAME_SIZE →
        execute_command env g (create_text name ds tail) (create_text name ds tail).length
          = some (-EINVAL, g)) := by
  have hnl : name.length + 1 < 2 ^ 64 := by
    have : (create_text name ds tail).length
        = 7 + (name.length + (1 + (ds.length + tail.length))) := by
      simp [create_text]
      omega
    omega
  have hexec := execute_command_create env g name ds tail hname hds htail
  have hcom := create_com_parsed env g name ds tail (create_text name ds tail).length hmode
    hname hds htail hnl
  constructor
  · intro hshort hcap ⟨k, hk, hzero⟩ habs henv harg
    have hc : digits_value ds 0 % 2 ^ 64 = digits_value ds 0 := by
      apply Nat.mod_eq_of_lt
      have : SBDD_MIB_SECTORS = 2048 := by decide
      rw [this] at hcap
      omega
    obtain ⟨i, hik, hzi, hadd, hfind⟩ := add_new_sbdd_ok env g (digits_value ds 0) name
      (name.length + 1) k hk hzero habs henv (Nat.lt_succ_self _)
      (by unfold MAX_DEV_NAME_SIZE at hshort; unfold DISK_NAME_LEN; omega)
    have hil : i < g.__devices.length := by
      by_contra hcon
      rw [List.getElem?_eq_none (Nat.le_of_not_lt hcon)] at hzi
      exact absurd hzi (by simp)
    refine ⟨{ g with __devices := (g.__devices.set i
        (setup_record env g.__sbdd_major i (digits_value ds 0) name (name.length + 1))) }, i,
      setup_record env g.__sbdd_major i (digits_value ds 0) name (name.length + 1),
      _, ?_, hfind, ?_, ?_, ?_, rfl, rfl, rfl, rfl, ?_⟩
    · rw [hexec, hcom, if_neg (by omega), hc, hadd]
      simp [harg, command_result]
    · exact List.getElem?_set_self hil
    · show some (scnprintf_s (name.length + 1) name) = some name
      rw [scnprintf_s_fits name _ (Nat.lt_succ_self _)]
    · show u64_mul (digits_value ds 0 % 2 ^ 64) SBDD_MIB_SECTORS = _
      rw [hc, u64_mul]
      exact Nat.mod_eq_of_lt hcap
    · intro j hj
      exact List.getElem?_set_ne (fun e => hj e.symm)
  · intro hlong
    rw [hexec, hcom, if_pos hlong]
    simp [command_result, EINVAL]

/-- C9 (counterexample): `create x 9007199254740993` in `USER` mode on the
empty table. The capacity `(2 ^ 53 + 1) * 2048` is computed in a 64-bit
`sector_t` and wraps to 2048 sectors; the buffer of `2048 << 9` bytes (1 MiB)
is allocated, the write returns its 25 bytes, and `find_device_by_name`
returns slot 0 with `capacity = 2048`, not `9007199254740993 * 2048`.
Besides, `create vol0 10` returns `-EINVAL` when the buffer is allocated but
`blk_alloc_queue` fails. -/
theorem create_command_capacity_wraps :
    huge_create_text = "create x 9007199254740993".toList ∧
      (execute_command env_good empty_globals huge_create_text huge_create_text.length).map
          (fun r => (r.1, find_device_by_name r.2.__devices ['x'],
            (r.2.__devices.map fun d => d.capacity).take 1))
        = some (25, some (some 0), [2048]) ∧
      env_good.vmalloc_ok (u64_shl 2048 SBDD_SECTOR_SHIFT) = true ∧
      (2048 : Nat) ≠ 9007199254740993 * 2048 ∧
      (execute_command env_no_queue empty_globals vol0_create_text vol0_create_text.length).map
          (fun r => r.1) = some (-EINVAL) := by
  refine ⟨by decide, by decide, by decide, by decide, by decide⟩

/-- Witness of C9 (amended): `create vol0 10` on the empty table gives the
volume `vol0` with 20480 sectors, and `create abcdefghi 10` is refused. -/
theorem create_command_adds_volume_witness :
    vol0_create_text = "create vol0 10".toList ∧
      digits_value ['1', '0'] 0 * SBDD_MIB_SECTORS = 20480 ∧
      (∃ (g1 : globals) (i : Nat) (d : sbdd) (gd : gendisk),
        execute_command env_good empty_globals vol0_create_text vol0_create_text.length
          = some ((vol0_create_text.length : Int), g1) ∧
        find_device_by_name g1.__devices ['v', 'o', 'l', '0'] = some (some i) ∧
        g1.__devices[i]? = some d ∧ d.name = some ['v', 'o', 'l', '0'] ∧
        d.capacity = digits_value ['1', '0'] 0 * SBDD_MIB_SECTORS ∧ d.deleting = 0 ∧
        d.refs_cnt = 0 ∧ d.gd = some gd ∧ gd.policy = 0 ∧
        ∀ j, j ≠ i → g1.__devices[j]? = empty_globals.__devices[j]?) ∧
      execute_command env_good empty_globals
          (create_text "abcdefghi".toList ['1', '0'] ['\n'])
          (create_text "abcdefghi".toList ['1', '0'] ['\n']).length
        = some (-EINVAL, empty_globals) :=
  ⟨by decide, by decide,
    (create_command_adds_volume env_good empty_globals ['v', 'o', 'l', '0'] ['1', '0'] [] rfl
      ⟨by decide, by decide⟩ ⟨by decide, by decide⟩ (Or.inl rfl) (by decide)).1
      (by decide) (by decide) ⟨0, by decide, rfl⟩
      (fun d hd hz => absurd (List.eq_of_mem_replicate hd) hz)
      ⟨by decide, rfl, rfl, rfl, rfl, rfl⟩ rfl,
    (create_command_adds_volume env_good empty_globals "abcdefghi".toList ['1', '0'] ['\n'] rfl
      ⟨by decide, by decide⟩ ⟨by decide, by decide⟩ (Or.inr rfl) (by decide)).2 (by decide)⟩

/-! ## Command console: `change_mode` -/

theorem int_text_char (neg : Bool) (ds : List Char) (hds : numeral ds) (c : Char)
    (hc : c ∈ int_text neg ds) : c ≠ NUL ∧ c ≠ 'c' := by
  unfold int_text at hc
  cases neg with
  | false =>
    simp only [Bool.false_eq_true, if_false] at hc
    exact ⟨(digit_char c (hds.2 c hc)).2.1, (digit_char c (hds.2 c hc)).2.2.2.2.2⟩
  | true =>
    simp only [if_true] at hc
    rcases List.mem_cons.mp hc with h | h
    · rw [h]
      exact ⟨by decide, by decide⟩
    · exact ⟨(digit_char c (hds.2 c h)).2.1, (digit_char c (hds.2 c h)).2.2.2.2.2⟩

/-- What `sscanf(args, "%s %d", ...)` reads from `<name> <integer>`. -/
theorem sscanf_s_d_parse (name ds tail : List Char) (neg : Bool) (hname : name_token name)
    (hlen : name.length ≤ 32767) (hds : numeral ds) (htail : line_end tail) :
    sscanf_s_d (name ++ ' ' :: (int_text neg ds ++ tail))
      = (2, name, to_int (int_value neg ds)) := by
  have hc := cstr_eq_self _ (args_no_nul name (int_text neg ds) tail hname
    (fun c hc => (int_text_char neg ds hds c hc).1) htail)
  have hne : name ++ ' ' :: (int_text neg ds ++ tail) ≠ [] := by simp
  obtain ⟨d, rest, hd⟩ := List.exists_cons_of_ne_nil hds.1
  have hdd : isdigit d = true := hds.2 d (by rw [hd]; exact List.mem_cons_self _ _)
  have hdm : d ≠ '-' := (digit_char d hdd).2.2.2.2.1
  have hds1 : isspace d = false := digit_not_space d hdd
  unfold sscanf_s_d
  simp only [hc, hne, if_false, scan_token_name name _ hname hlen]
  cases neg with
  | false =>
    have hi : int_text false ds = ds := rfl
    rw [hi, skip_spaces_numeral ds tail hds, takeWhile_numeral ds tail hds htail]
    subst hd
    simp [hdd, hdm, int_value]
  | true =>
    have hi : int_text true ds = '-' :: ds := rfl
    have hsk : skip_spaces (' ' :: ('-' :: ds ++ tail)) = '-' :: (ds ++ tail) := by
      rw [skip_spaces, List.dropWhile_cons_of_pos isspace_space, List.cons_append,
        List.dropWhile_cons_of_neg (by decide)]
    rw [hi, hsk]
    simp only [if_true]
    rw [takeWhile_numeral ds tail hds htail]
    subst hd
    simp [hdd, int_value]

theorem strstr_from_shift (needle : List Char) (l : List Char) :
    ∀ i : Nat, strstr_from needle l i = (strstr_from needle l 0).map fun k => k + i := by
  induction l with
  | nil =>
    intro i
    by_cases h : needle = [] <;> simp [strstr_from, h]
  | cons c cs ih =>
    intro i
    by_cases h : needle.isPrefixOf (c :: cs) = true
    · simp [strstr_from, h]
    · simp only [strstr_from, h, if_false, Bool.false_eq_true]
      rw [ih (i + 1), ih (0 + 1)]
      simp only [Option.map_map]
      congr 1
      funext k
      simp only [Function.comp]
      omega

theorem strstr_from_fits (needle : List Char) (l : List Char) :
    ∀ k : Nat, strstr_from needle l 0 = some k → k + needle.length ≤ l.length := by
  induction l with
  | nil =>
    intro k h
    by_cases hn : needle = []
    · simp [strstr_from, hn] at h
      simp [hn, ← h]
    · simp [strstr_from, hn] at h
  | cons c cs ih =>
    intro k h
    by_cases hp : needle.isPrefixOf (c :: cs) = true
    · simp only [strstr_from, hp, if_true, Option.some.injEq] at h
      rw [List.isPrefixOf_iff_prefix] at hp
      have := hp.length_le
      omega
    · simp only [strstr_from, hp, if_false, Bool.false_eq_true] at h
      rw [strstr_from_shift, Option.map_eq_some'] at h
      obtain ⟨k0, hk0, hk⟩ := h
      have := ih k0 hk0
      simp only [List.length_cons]
      omega

theorem char_at_inside (front name rest : List Char) (j : Nat) (hj : j < name.length) :
    ∃ c ∈ name, char_at (front ++ (name ++ rest)) (front.length + j) = c := by
  refine ⟨name[j], List.getElem_mem hj, ?_⟩
  unfold char_at
  rw [List.getD_eq_getElem?_getD, List.append_assoc,
    List.getElem?_append_right (Nat.le_add_right _ _), Nat.add_sub_cancel_left,
    List.append_assoc, List.getElem?_append_left hj, List.getElem?_eq_getElem hj]
  rfl

/-- The text `change_mode <name> <integer>` is not taken for a `create`
command unless the first occurrence of `create` in the name ends the name. -/
theorem change_mode_not_create (name ds tail : List Char) (neg : Bool) (count : Nat)
    (hname : name_token name) (hds : numeral ds) (htail : line_end tail)
    (hcreate : ∀ b, strstr name "create".toList = some b → b + 6 ≠ name.length) :
    command_matches (change_mode_text name (int_text neg ds) tail) count "create".toList
      = false := by
  have hvn : ∀ c ∈ int_text neg ds, c ≠ NUL := fun c hc => (int_text_char neg ds hds c hc).1
  have hargs := args_no_nul name (int_text neg ds) tail hname hvn htail
  have hbuf : cstr (change_mode_text name (int_text neg ds) tail)
      = "change_mode".toList ++ ' ' :: (name ++ ' ' :: (int_text neg ds ++ tail)) := by
    rw [change_mode_text_eq]
    apply cstr_eq_self
    intro c hc
    rcases List.mem_append.mp hc with h | h
    · have hk : ∀ x ∈ "change_mode".toList, x ≠ NUL := by decide
      exact hk c h
    · rcases List.mem_cons.mp h with h | h
      · rw [h]
        decide
      · exact hargs c h
  have hnc : cstr name = name := cstr_eq_self name (fun c hc => (token_char name hname c hc).2.1)
  have hsep : ' ' ∉ "create".toList := by decide
  have hne : "create".toList ≠ [] := by decide
  have htailc : strstr_from "create".toList (int_text neg ds ++ tail)
      (12 + name.length + 1) = none := by
    have hcl : "create".toList = 'c' :: "reate".toList := rfl
    rw [hcl]
    apply strstr_from_absent_head
    intro hmem
    rcases List.mem_append.mp hmem with h | h
    · exact (int_text_char neg ds hds 'c' h).2 rfl
    · exact absurd (line_end_char tail htail 'c' h) (by decide)
  have hfront : strstr_from "create".toList "change_mode".toList 0 = none := by decide
  have hs : strstr (change_mode_text name (int_text neg ds) tail) "create".toList
      = (strstr name "create".toList).map fun k => k + 12 := by
    rw [strstr, hbuf, strstr_from_sep ' ' _ _ hne hsep, hfront]
    simp only
    rw [strstr_from_sep ' ' _ _ hne hsep]
    have h12 : 0 + "change_mode".toList.length + 1 = 12 := rfl
    rw [h12, htailc, strstr, hnc, strstr_from_shift _ name 12]
    cases strstr_from "create".toList name 0 <;> rfl
  unfold command_matches
  rw [hs]
  cases hb : strstr name "create".toList with
  | none => rfl
  | some b =>
    have hfit : b + 6 ≤ name.length := by
      rw [strstr, hnc] at hb
      exact strstr_from_fits _ name b hb
    have hlt : b + 6 < name.length := Nat.lt_of_le_of_ne hfit (hcreate b hb)
    obtain ⟨c, hc, hch⟩ := char_at_inside "change_mode ".toList name
      (' ' :: (int_text neg ds ++ tail)) (b + 6) hlt
    have hidx : b + 12 + "create".toList.length = "change_mode ".toList.length + (b + 6) := by
      show b + 12 + 6 = 12 + (b + 6)
      omega
    have hbuf2 : change_mode_text name (int_text neg ds) tail
        = "change_mode ".toList ++ (name ++ ' ' :: (int_text neg ds ++ tail)) := rfl
    simp only [Option.map_some']
    rw [hidx, hbuf2, hch]
    obtain ⟨_, h1, h2, h3⟩ := token_char name hname c hc
    simp [h1, h2, h3]

theorem execute_command_change_mode (env : kenv) (g : globals) (name ds tail : List Char)
    (neg : Bool) (hname : name_token name) (hds : numeral ds) (htail : line_end tail)
    (hcreate : ∀ b, strstr name "create".toList = some b → b + 6 ≠ name.length) :
    execute_command env g (change_mode_text name (int_text neg ds) tail)
        (change_mode_text name (int_text neg ds) tail).length
      = command_result (change_mode_text name (int_text neg ds) tail).length
          (change_mode_com env g (change_mode_text name (int_text neg ds) tail)
            (change_mode_text name (int_text neg ds) tail).length) := by
  have hvn : ∀ c ∈ int_text neg ds, c ≠ NUL := fun c hc => (int_text_char neg ds hds c hc).1
  obtain ⟨_, _, hm⟩ := keyword_front "change_mode".toList _ (by decide) (by decide)
    (args_no_nul name (int_text neg ds) tail hname hvn htail)
  rw [← change_mode_text_eq] at hm
  rw [execute_command_eq, change_mode_not_create name ds tail neg _ hname hds htail hcreate,
    if_neg (by simp), if_pos hm]

/-- What `change_mode_com` does with the text `change_mode <name> <integer>`. -/
theorem change_mode_com_parsed (env : kenv) (g : globals) (name ds tail : List Char)
    (neg : Bool) (count : Nat) (hname : name_token name) (hlen : name.length ≤ 32767)
    (hds : numeral ds) (htail : line_end tail) (harg : env.kzalloc_arg_ok = true) :
    change_mode_com env g (change_mode_text name (int_text neg ds) tail) count
      = if to_int (int_value neg ds) ≠ 0 ∧ to_int (int_value neg ds) ≠ 1 then
          some ((2 : Int), g)
        else
          match find_device_by_name g.__devices name with
          | none => none
          | some none => some (0, g)
          | some (some i) =>
            match g.__devices[i]? with
            | none => none
            | some d =>
              if d.deleting ≠ 0 then some (1, g)
              else
                match set_disk_ro g i (to_int (int_value neg ds)) with
                | none => none
                | some g1 => some (0, g1) := by
  have hvn : ∀ c ∈ int_text neg ds, c ≠ NUL := fun c hc => (int_text_char neg ds hds c hc).1
  have hargs := args_no_nul name (int_text neg ds) tail hname hvn htail
  obtain ⟨_, hca, _⟩ := keyword_front "change_mode".toList _ (by decide) (by decide) hargs
  rw [← change_mode_text_eq] at hca
  have hsp := strstr_args_space name (int_text neg ds ++ tail) hname
    (numeral_tail_no_nul (int_text neg ds) tail hvn htail)
  have hadd : u64_add name.length 1 = name.length + 1 := by
    unfold u64_add
    apply Nat.mod_eq_of_lt
    omega
  unfold change_mode_com
  simp only [hca, hsp, hadd, sscanf_s_d_parse name ds tail neg hname hlen hds htail, harg]
  simp

theorem to_int_fits (v : Int) (h1 : -(2 ^ 31) ≤ v) (h2 : v < 2 ^ 31) : to_int v = v := by
  unfold to_int
  omega

/-- C10 (amended): for a name of non-white-space characters in which the
first occurrence of the text `create`, if any, does not end the name, and an
integer `v` in decimal, the console write `change_mode <name> <v>` (with or
without a final newline, the argument buffer being allocated) does the
following, `m` being the `int` that `sscanf` stores (`m = v` when `v` fits an
`int`). If `m` is neither 0 nor 1 the write returns 2 and nothing changes.
If `m` is 0 or 1: when `find_device_by_name(name)` returns a slot whose
volume is not deleting, the write returns the full byte count and afterwards
the disk of that slot has read-only flag `m`, nothing else being changed;
when the lookup returns `NULL`, the write returns the full byte count and
nothing changes; when the volume found is deleting, the write returns 1 and
nothing changes. -/
theorem change_mode_command_behaviour (env : kenv) (g : globals) (name ds tail : List Char)
    (neg : Bool) (hname : name_token name) (hlen : name.length ≤ 32767)
    (hcreate : ∀ b, strstr name "create".toList = some b → b + 6 ≠ name.length)
    (hds : numeral ds) (htail : line_end tail) (harg : env.kzalloc_arg_ok = true) :
    (to_int (int_value neg ds) ≠ 0 ∧ to_int (int_value neg ds) ≠ 1 →
        execute_command env g (change_mode_text name (int_text neg ds) tail)
          (change_mode_text name (int_text neg ds) tail).length = some (2, g)) ∧
      (to_int (int_value neg ds) = 0 ∨ to_int (int_value neg ds) = 1 →
        (∀ (i : Nat) (d : sbdd) (gd : gendisk),
          find_device_by_name g.__devices name = some (some i) → g.__devices[i]? = some d →
          d.deleting = 0 → d.gd = some gd →
          execute_command env g (change_mode_text name (int_text neg ds) tail)
              (change_mode_text name (int_text neg ds) tail).length
            = some (((change_mode_text name (int_text neg ds) tail).length : Int),
                { g with __devices := (g.__devices.set i
                  { d with gd := some { gd with policy := to_int (int_value neg ds) } }) })) ∧
        (find_device_by_name g.__devices name = some none →
          execute_command env g (change_mode_text name (int_text neg ds) tail)
              (change_mode_text name (int_text neg ds) tail).length
            = some (((change_mode_text name (int_text neg ds) tail).length : Int), g)) ∧
        (∀ (i : Nat) (d : sbdd),
          find_device_by_name g.__devices name = some (some i) → g.__devices[i]? = some d →
          d.deleting ≠ 0 →
          execute_command env g (change_mode_text name (int_text neg ds) tail)
              (change_mode_text name (int_text neg ds) tail).length = some (1, g))) ∧
      (-(2 ^ 31) ≤ int_value neg ds → int_value neg ds < 2 ^ 31 →
        to_int (int_value neg ds) = int_value neg ds) := by
  have hexec := execute_command_change_mode env g name ds tail neg hname hds htail hcreate
  have hcom := change_mode_com_parsed env g name ds tail neg
    (change_mode_text name (int_text neg ds) tail).length hname hlen hds htail harg
  have hpos : (change_mode_text name (int_text neg ds) tail).length ≠ 0 := by
    simp [change_mode_text]
  refine ⟨?_, ?_, to_int_fits _⟩
  · intro hm
    rw [hexec, hcom, if_pos hm]
    simp [command_result]
  · intro hm
    have hnot : ¬ (to_int (int_value neg ds) ≠ 0 ∧ to_int (int_value neg ds) ≠ 1) := by
      rcases hm with h | h <;> simp [h]
    refine ⟨?_, ?_, ?_⟩
    · intro i d gd hf hd hdel hgd
      rw [hexec, hcom, if_neg hnot]
      simp only [hf, hd, hdel, ne_eq, not_true_eq_false, if_false, set_disk_ro, hgd]
      simp [command_result]
    · intro hf
      rw [hexec, hcom, if_neg hnot]
      simp only [hf]
      simp [command_result]
    · intro i d hf hd hdel
      rw [hexec, hcom, if_neg hnot]
      simp only [hf, hd, hdel, ne_eq, not_false_eq_true, if_true]
      simp [command_result]

/-- C10 (counterexample): slot 0 holds the non-deleting volume `create`, and
the text `change_mode create 1` is written in `USER` mode. The loop of
`execute_command` looks for the keyword `create` first, finds it in the name
and runs `create_com`, which finds no second argument: the write returns
`-EINVAL` and the read-only flag of the volume stays 0. Besides,
`change_mode a 4294967296` on the read-only volume `a` returns the full byte
count and clears the flag, because the value is stored in an `int`; and
`change_mode a 1` returns the full byte count without touching the volume
`a` of slot 1 when slot 0 is empty, because the lookup stops there. -/
theorem change_mode_taken_for_create :
    change_mode_text "create".toList ['1'] [] = "change_mode create 1".toList ∧
      find_device_by_name create_named_globals.__devices "create".toList = some (some 0) ∧
      (create_named_globals.__devices.map fun d => (d.deleting, d.gd.map fun x => x.policy)).take 1
        = [(0, some 0)] ∧
      execute_command env_good create_named_globals
          (change_mode_text "create".toList ['1'] [])
          (change_mode_text "create".toList ['1'] []).length
        = some (-EINVAL, create_named_globals) ∧
      (read_only_globals.__devices.map fun d => d.gd.map fun x => x.policy).take 1 = [some 1] ∧
      (execute_command env_good read_only_globals
          (change_mode_text ['a'] "4294967296".toList [])
          (change_mode_text ['a'] "4294967296".toList []).length).map
          (fun r => (r.1, (r.2.__devices.map fun d => d.gd.map fun x => x.policy).take 1))
        = some (24, [some 0]) ∧
      (hole_globals.__devices.map fun d =>
          (d.name, d.deleting, d.gd.map fun x => x.policy)).take 2
        = [(none, 0, none), (some ['a'], 0, some 0)] ∧
      execute_command env_good hole_globals (change_mode_text ['a'] ['1'] [])
          (change_mode_text ['a'] ['1'] []).length
        = some (((change_mode_text ['a'] ['1'] []).length : Int), hole_globals) := by
  refine ⟨by decide, by decide, by decide, rfl, by decide, by decide, by decide, rfl⟩

/-- Witness of C10 (amended): `change_mode a 1` with a newline sets the
read-only flag of the volume `a` in slot 1. -/
theorem change_mode_command_behaviour_witness :
    execute_command env_good two_volume_globals (change_mode_text ['a'] ['1'] ['\n'])
        (change_mode_text ['a'] ['1'] ['\n']).length
      = some (((change_mode_text ['a'] ['1'] ['\n']).length : Int),
          { two_volume_globals with __devices := (two_volume_globals.__devices.set 1
            { example_named ['a'] 1 with gd := (some
              { major := 252, first_minor := 1, disk_name := ['a'], capacity := 1,
                policy := to_int (int_value false ['1']) }) }) }) ∧
      to_int (int_value false ['1']) = 1 :=
  ⟨((change_mode_command_behaviour env_good two_volume_globals ['a'] ['1'] ['\n'] false
      ⟨by decide, by decide⟩ (by decide)
      (fun b h => by
        have e : strstr ['a'] "create".toList = none := by decide
        rw [e] at h
        exact absurd h (by simp))
      ⟨by decide, by decide⟩ (Or.inr rfl) rfl).2.1 (Or.inr (by decide))).1 1
      (example_named ['a'] 1) _ (by decide) rfl rfl rfl,
    by decide⟩

/-! ## Every number has a decimal text -/

theorem digits_value_append (ds : List Char) (d : Char) :
    ∀ acc : Nat, digits_value (ds ++ [d]) acc = digits_value ds acc * 10 + (d.toNat - 48) := by
  induction ds with
  | nil => intro acc; rfl
  | cons c cs ih =>
    intro acc
    rw [List.cons_append, digits_value, digits_value, ih]

theorem digit_of_lt_ten (k : Nat) (hk : k < 10) :
    isdigit (Char.ofNat (48 + k)) = true ∧ (Char.ofNat (48 + k)).toNat - 48 = k := by
  interval_cases k <;> exact ⟨by decide, by decide⟩

/-- Every capacity has a numeral, so the statements about numerals cover
every natural number. -/
theorem numeral_exists (c : Nat) : ∃ ds, numeral ds ∧ digits_value ds 0 = c := by
  induction c using Nat.strong_induction_on with
  | _ c ih =>
    by_cases hc : c < 10
    · obtain ⟨h1, h2⟩ := digit_of_lt_ten c hc
      refine ⟨[Char.ofNat (48 + c)], ⟨by simp, ?_⟩, ?_⟩
      · intro x hx
        rw [List.mem_singleton.mp hx]
        exact h1
      · show 0 * 10 + ((Char.ofNat (48 + c)).toNat - 48) = c
        omega
    · obtain ⟨ds, hds, hv⟩ := ih (c / 10) (by omega)
      obtain ⟨h1, h2⟩ := digit_of_lt_ten (c % 10) (Nat.mod_lt _ (by decide))
      refine ⟨ds ++ [Char.ofNat (48 + c % 10)], ⟨by simp, ?_⟩, ?_⟩
      · intro x hx
        rcases List.mem_append.mp hx with h | h
        · exact hds.2 x h
        · rw [List.mem_singleton.mp h]
          exact h1
      · rw [digits_value_append, hv, h2]
        omega

/-- Every integer has a decimal text. -/
theorem int_text_exists (v : Int) : ∃ neg ds, numeral ds ∧ int_value neg ds = v := by
  obtain ⟨ds, hds, hv⟩ := numeral_exists v.natAbs
  by_cases hneg : v < 0
  · refine ⟨true, ds, hds, ?_⟩
    simp only [int_value, if_true, hv]
    omega
  · refine ⟨false, ds, hds, ?_⟩
    simp only [int_value, Bool.false_eq_true, if_false, hv]
    omega

/-! ## Command console: the values a write returns -/

theorem sbdd_setup_ret (env : kenv) (major : Int) (idx capacity_mib : Nat) (name : List Char)
    (name_len : Nat) (ret : Int) (d : sbdd)
    (h : sbdd_setup env major idx capacity_mib name name_len = some (ret, d)) :
    ret = -ENOMEM ∨ ret = -EINVAL ∨ ret = env.device_register_ret := by
  have hreg : ∀ x : sbdd, (sbdd_device_register env x name).1 = -ENOMEM ∨
      (sbdd_device_register env x name).1 = env.device_register_ret := by
    intro x
    unfold sbdd_device_register
    split
    · exact Or.inr rfl
    · exact Or.inl rfl
  unfold sbdd_setup at h
  simp only at h
  split at h
  · simp only [Option.some.injEq, Prod.mk.injEq] at h
    exact Or.inl h.1.symm
  · split at h
    · simp only [Option.some.injEq, Prod.mk.injEq] at h
      exact Or.inr (Or.inl h.1.symm)
    · split at h
      · exact absurd h (by simp)
      · split at h
        · exact absurd h (by simp)
        · split at h
          · simp only [Option.some.injEq, Prod.mk.injEq] at h
            rw [← h.1]
            rcases hreg _ with e | e
            · exact Or.inl e
            · exact Or.inr (Or.inr e)
          · split at h
            · exact absurd h (by simp)
            · simp only [Option.some.injEq, Prod.mk.injEq] at h
              rw [← h.1]
              rcases hreg _ with e | e
              · exact Or.inl e
              · exact Or.inr (Or.inr e)

theorem add_new_sbdd_ret (env : kenv) (g g1 : globals) (capacity_mib : Nat) (name : List Char)
    (name_len : Nat) (ret : Int)
    (h : add_new_sbdd env g capacity_mib name name_len = some (ret, g1)) :
    ret = -EINVAL ∨ ret = 1 ∨ ret = -ENOMEM ∨ ret = env.device_register_ret := by
  unfold add_new_sbdd at h
  split at h
  · exact absurd h (by simp)
  · simp only [Option.some.injEq, Prod.mk.injEq] at h
    exact Or.inl h.1.symm
  · split at h
    · split at h
      · exact absurd h (by simp)
      · rename_i r d hs
        simp only [Option.some.injEq, Prod.mk.injEq] at h
        rw [← h.1]
        rcases sbdd_setup_ret env _ _ _ _ _ _ _ hs with e | e | e
        · exact Or.inr (Or.inr (Or.inl e))
        · exact Or.inl e
        · exact Or.inr (Or.inr (Or.inr e))
    · simp only [Option.some.injEq, Prod.mk.injEq] at h
      exact Or.inr (Or.inl h.1.symm)

theorem create_com_ret (env : kenv) (g g1 : globals) (buf : List Char) (count : Nat)
    (ret : Int) (h : create_com env g buf count = some (ret, g1)) :
    ret = 0 ∨ ret = -EINVAL ∨ ret = 1 ∨ ret = -ENOMEM ∨ ret = env.device_register_ret := by
  unfold create_com at h
  split at h
  · exact absurd h (by simp)
  · simp only at h
    split at h
    · simp only [Option.some.injEq, Prod.mk.injEq] at h
      exact Or.inl h.1.symm
    · split at h
      · simp only [Option.some.injEq, Prod.mk.injEq] at h
        exact Or.inr (Or.inl h.1.symm)
      · split at h
        · simp only [Option.some.injEq, Prod.mk.injEq] at h
          exact Or.inr (Or.inl h.1.symm)
        · split at h
          · simp only [Option.some.injEq, Prod.mk.injEq] at h
            exact Or.inr (Or.inl h.1.symm)
          · split at h
            · exact absurd h (by simp)
            · split at h
              · exact absurd h (by simp)
              · split at h
                · simp only [Option.some.injEq, Prod.mk.injEq] at h
                  exact Or.inr (Or.inl h.1.symm)
                · exact Or.inr (add_new_sbdd_ret env g g1 _ _ _ ret h)

theorem sscanf_s_d_le (args : List Char) : (sscanf_s_d args).1 ≤ 2 := by
  unfold sscanf_s_d
  simp only
  repeat' split
  all_goals simp

theorem change_mode_com_ret (env : kenv) (g g1 : globals) (buf : List Char) (count : Nat)
    (ret : Int) (h : change_mode_com env g buf count = some (ret, g1)) :
    ret = 0 ∨ ret = -EINVAL ∨ ret = 1 ∨ ret = 2 := by
  unfold change_mode_com at h
  split at h
  · exact absurd h (by simp)
  · split at h
    · simp only [Option.some.injEq, Prod.mk.injEq] at h
      exact Or.inr (Or.inl h.1.symm)
    · simp only at h
      split at h
      · simp only [Option.some.injEq, Prod.mk.injEq] at h
        exact Or.inr (Or.inl h.1.symm)
      · split at h
        · exact absurd h (by simp)
        · split at h
          · exact absurd h (by simp)
          · split at h
            · simp only [Option.some.injEq, Prod.mk.injEq] at h
              exact Or.inr (Or.inl h.1.symm)
            · split at h
              · rename_i hlt hmode
                simp only [Option.some.injEq, Prod.mk.injEq] at h
                refine Or.inr (Or.inr (Or.inr ?_))
                rw [← h.1]
                have h2 := Nat.le_antisymm (sscanf_s_d_le _) (Nat.le_of_not_lt hlt)
                rw [h2]
                rfl
              · split at h
                · exact absurd h (by simp)
                · simp only [Option.some.injEq, Prod.mk.injEq] at h
                  exact Or.inl h.1.symm
                · split at h
                  · exact absurd h (by simp)
                  · split at h
                    · simp only [Option.some.injEq, Prod.mk.injEq] at h
                      exact Or.inr (Or.inr (Or.inl h.1.symm))
                    · split at h
                      · exact absurd h (by simp)
                      · simp only [Option.some.injEq, Prod.mk.injEq] at h
                        exact Or.inl h.1.symm

theorem command_result_some (count : Nat) (x : Option (Int × globals)) (r : Int) (g1 : globals)
    (h : command_result count x = some (r, g1)) :
    ∃ ret, x = some (ret, g1) ∧ r = if ret ≠ 0 then ret else (count : Int) := by
  unfold command_result at h
  cases x with
  | none => simp at h
  | some p =>
    obtain ⟨ret, g2⟩ := p
    simp only [Option.map_some', Option.some.injEq, Prod.mk.injEq] at h
    exact ⟨ret, by rw [h.2], h.1.symm⟩

/-- Every value a console write returns. -/
theorem execute_command_values (env : kenv) (g g1 : globals) (buf : List Char) (count : Nat)
    (r : Int) (h : execute_command env g buf count = some (r, g1)) :
    r = (count : Int) ∨ r = 1 ∨ r = 2 ∨ r = -EINVAL ∨ r = -ENOMEM ∨
      r = env.device_register_ret := by
  rw [execute_command_eq] at h
  split at h
  · obtain ⟨ret, hc, hr⟩ := command_result_some count _ r g1 h
    by_cases h0 : ret = 0
    · simp only [h0, ne_eq, not_true_eq_false, if_false] at hr
      exact Or.inl hr
    · simp only [h0, ne_eq, not_false_eq_true, if_true] at hr
      rw [hr]
      rcases create_com_ret env g g1 buf count ret hc with e | e | e | e | e
      · exact absurd e h0
      · exact Or.inr (Or.inr (Or.inr (Or.inl e)))
      · exact Or.inr (Or.inl e)
      · exact Or.inr (Or.inr (Or.inr (Or.inr (Or.inl e))))
      · exact Or.inr (Or.inr (Or.inr (Or.inr (Or.inr e))))
  · split at h
    · obtain ⟨ret, hc, hr⟩ := command_result_some count _ r g1 h
      by_cases h0 : ret = 0
      · simp only [h0, ne_eq, not_true_eq_false, if_false] at hr
        exact Or.inl hr
      · simp only [h0, ne_eq, not_false_eq_true, if_true] at hr
        rw [hr]
        rcases change_mode_com_ret env g g1 buf count ret hc with e | e | e | e
        · exact absurd e h0
        · exact Or.inr (Or.inr (Or.inr (Or.inl e)))
        · exact Or.inr (Or.inl e)
        · exact Or.inr (Or.inr (Or.inl e))
    · simp only [Option.some.injEq, Prod.mk.injEq] at h
      exact Or.inl h.1.symm

theorem cstr_length_le (l : List Char) : (cstr l).length ≤ l.length :=
  (List.takeWhile_sublist _).length_le

theorem strstr_fits (hay needle : List Char) (k : Nat) (h : strstr hay needle = some k) :
    k + needle.length ≤ hay.length :=
  Nat.le_trans (strstr_from_fits needle (cstr hay) k h) (cstr_length_le hay)

theorem command_args_length (buf comm args : List Char)
    (h : command_args buf comm = some args) : args.length ≤ buf.length := by
  unfold command_args at h
  split at h
  · exact absurd h (by simp)
  · split at h
    · simp only [Option.some.injEq] at h
      rw [← h, List.length_drop]
      omega
    · exact absurd h (by simp)

theorem name_len_eq (buf comm args : List Char) (sp : Nat) (hsize : buf.length < 2 ^ 64)
    (ha : command_args buf comm = some args) (hs : strstr args [' '] = some sp) :
    u64_add sp 1 = sp + 1 := by
  have h1 := strstr_fits args [' '] sp hs
  have h2 := command_args_length buf comm args ha
  simp only [List.length_singleton] at h1
  unfold u64_add
  apply Nat.mod_eq_of_lt
  omega

theorem add_new_sbdd_negative (env : kenv) (g g1 : globals) (capacity_mib : Nat)
    (name : List Char) (name_len : Nat) (ret : Int) (hlen : name_len ≠ 0)
    (hdisk : name.length < DISK_NAME_LEN)
    (h : add_new_sbdd env g capacity_mib name name_len = some (ret, g1)) (hneg : ret < 0) :
    (∃ i, find_device_by_name g.__devices name = some (some i)) ∨
      ¬ setup_succeeds env capacity_mib := by
  unfold add_new_sbdd at h
  split at h
  · exact absurd h (by simp)
  · rename_i i hf
    exact Or.inl ⟨i, hf⟩
  · split at h
    · split at h
      · exact absurd h (by simp)
      · rename_i r d hs
        simp only [Option.some.injEq, Prod.mk.injEq] at h
        refine Or.inr (fun henv => ?_)
        rw [sbdd_setup_ok env _ _ capacity_mib name name_len henv hlen hdisk] at hs
        simp only [Option.some.injEq, Prod.mk.injEq] at hs
        omega
    · simp only [Option.some.injEq, Prod.mk.injEq] at h
      omega

/-- A negative code of `create_com` comes from malformed arguments, from a
name the lookup finds, or from a kernel service of the set-up that fails. -/
theorem create_com_negative (env : kenv) (g g1 : globals) (buf : List Char) (count : Nat)
    (ret : Int) (hsize : buf.length < 2 ^ 64)
    (h : create_com env g buf count = some (ret, g1)) (hneg : ret < 0) :
    ∃ args, command_args buf "create".toList = some args ∧
      (create_args_malformed args ∨
        (∃ i, find_device_by_name g.__devices (sscanf_s_lu args).2.1 = some (some i)) ∨
        ¬ setup_succeeds env (sscanf_s_lu args).2.2) := by
  unfold create_com at h
  split at h
  · exact absurd h (by simp)
  · rename_i args ha
    refine ⟨args, ha, ?_⟩
    simp only at h
    split at h
    · simp only [Option.some.injEq, Prod.mk.injEq] at h
      omega
    · split at h
      · rename_i hs
        exact Or.inl (Or.inl hs)
      · rename_i sp hs
        have hnl := name_len_eq buf _ args sp hsize ha hs
        rw [hnl] at h
        simp only [Nat.add_sub_cancel] at h
        split at h
        · rename_i h0
          exact absurd h0 (Nat.succ_ne_zero _)
        · split at h
          · rename_i hlong
            exact Or.inl (Or.inr (Or.inl ⟨sp, hs, hlong⟩))
          · rename_i hshort
            split at h
            · exact absurd h (by simp)
            · split at h
              · exact absurd h (by simp)
              · rename_i hfit
                split at h
                · rename_i hlt
                  exact Or.inl (Or.inr (Or.inr hlt))
                · refine Or.inr (add_new_sbdd_negative env g g1 _ _ _ ret (Nat.succ_ne_zero _)
                    ?_ h hneg)
                  unfold MAX_DEV_NAME_SIZE at hshort
                  unfold DISK_NAME_LEN
                  omega

/-- A negative code of `change_mode_com` comes from malformed arguments. -/
theorem change_mode_com_negative (env : kenv) (g g1 : globals) (buf : List Char) (count : Nat)
    (ret : Int) (hsize : buf.length < 2 ^ 64)
    (h : change_mode_com env g buf count = some (ret, g1)) (hneg : ret < 0) :
    ∃ args, command_args buf "change_mode".toList = some args ∧
      change_mode_args_malformed args := by
  have hcases := change_mode_com_ret env g g1 buf count ret h
  have hinv : ret = -EINVAL := by
    rcases hcases with e | e | e | e
    · omega
    · exact e
    · omega
    · omega
  unfold change_mode_com at h
  split at h
  · exact absurd h (by simp)
  · rename_i args ha
    refine ⟨args, ha, ?_⟩
    split at h
    · rename_i hs
      exact Or.inl hs
    · rename_i sp hs
      have hnl := name_len_eq buf _ args sp hsize ha hs
      simp only [hnl] at h
      split at h
      · rename_i h0
        exact absurd h0 (Nat.succ_ne_zero _)
      · split at h
        · exact absurd h (by simp)
        · split at h
          · exact absurd h (by simp)
          · split at h
            · rename_i hlt
              exact Or.inr hlt
            · rename_i hge
              exfalso
              have h2 := Nat.le_antisymm (sscanf_s_d_le args) (Nat.le_of_not_lt hge)
              split at h
              · simp only [Option.some.injEq, Prod.mk.injEq] at h
                rw [h2] at h
                have := h.1
                rw [hinv] at this
                exact absurd this (by decide)
              · split at h
                · exact absurd h (by simp)
                · simp only [Option.some.injEq, Prod.mk.injEq] at h
                  omega
                · split at h
                  · exact absurd h (by simp)
                  · split at h
                    · simp only [Option.some.injEq, Prod.mk.injEq] at h
                      omega
                    · split at h
                      · exact absurd h (by simp)
                      · simp only [Option.some.injEq, Prod.mk.injEq] at h
                        omega

/-! ## Command console: when a write returns -/

theorem strstr_space_split (l : List Char) :
    ∀ i k : Nat, strstr_from [' '] l i = some k →
      ∃ front rest, l = front ++ ' ' :: rest ∧ k = i + front.length := by
  induction l with
  | nil => intro i k h; simp [strstr_from] at h
  | cons c cs ih =>
    intro i k h
    by_cases hc : c = ' '
    · subst hc
      simp only [strstr_from, List.isPrefixOf, beq_self_eq_true, Bool.and_self, if_true,
        Option.some.injEq] at h
      exact ⟨[], cs, rfl, by simp [h]⟩
    · have hb : (' ' == c) = false := by
        simpa using fun e : ' ' = c => hc e.symm
      rw [strstr_from, List.isPrefixOf, hb, Bool.false_and, if_neg (by simp)] at h
      obtain ⟨front, rest, hl, hk⟩ := ih (i + 1) k h
      refine ⟨c :: front, rest, by rw [hl]; rfl, ?_⟩
      rw [hk, List.length_cons]
      omega

theorem takeWhile_before_space (front rest : List Char) :
    ((front ++ ' ' :: rest).takeWhile fun c => !isspace c).length ≤ front.length := by
  induction front with
  | nil => simp [List.takeWhile, isspace_space]
  | cons c cs ih =>
    rw [List.cons_append, List.takeWhile]
    split
    · simp only [List.length_cons]
      omega
    · simp

/-- The token that `%s` stores fits the bytes before the first space when
the arguments do not start with white space. -/
theorem token_fits (args : List Char) (sp : Nat)
    (hhead : ∀ c rest, args = c :: rest → isspace c = false)
    (hs : strstr args [' '] = some sp) : (scan_token (cstr args)).1.length ≤ sp := by
  obtain ⟨front, rest, hl, hk⟩ := strstr_space_split (cstr args) 0 sp hs
  rw [Nat.zero_add] at hk
  have hskip : skip_spaces (cstr args) = cstr args := by
    cases hargs : args with
    | nil => simp [cstr, skip_spaces]
    | cons c cs =>
      have hc := hhead c cs hargs
      unfold cstr
      rw [List.takeWhile]
      split
      · rw [skip_spaces, List.dropWhile_cons_of_neg (by simp [hc])]
      · rfl
  unfold scan_token
  simp only [hskip, List.length_take]
  rw [hl] at *
  have := takeWhile_before_space front rest
  omega

theorem sscanf_s_lu_token (args : List Char) :
    (sscanf_s_lu args).2.1.length ≤ (scan_token (cstr args)).1.length := by
  unfold sscanf_s_lu
  simp only
  repeat' split
  all_goals simp

theorem sscanf_s_d_token (args : List Char) :
    (sscanf_s_d args).2.1.length ≤ (scan_token (cstr args)).1.length := by
  unfold sscanf_s_d
  simp only
  repeat' split
  all_goals simp

theorem find_device_from_total (name : List Char) (l : List sbdd) :
    ∀ i0 : Nat, (∀ d ∈ l, d ≠ __zero_sbdd → d.name ≠ none) →
      ∃ r, find_device_from name l i0 = some r := by
  induction l with
  | nil => intro i0 _; exact ⟨none, rfl⟩
  | cons d rest ih =>
    intro i0 h
    by_cases hz : d = __zero_sbdd
    · exact ⟨none, by simp [find_device_from, hz]⟩
    · cases hn : d.name with
      | none => exact absurd hn (h d (List.mem_cons_self _ _) hz)
      | some n =>
        by_cases hnn : name = n
        · exact ⟨some i0, by simp [find_device_from, hz, hn, hnn]⟩
        · obtain ⟨r, hr⟩ := ih (i0 + 1) (fun e he => h e (List.mem_cons_of_mem _ he))
          exact ⟨r, by simp only [find_device_from, hz, if_false, hn, hnn, hr]⟩

theorem find_device_from_index (name : List Char) (l : List sbdd) :
    ∀ i0 k : Nat, find_device_from name l i0 = some (some k) →
      ∃ d, i0 ≤ k ∧ l[k - i0]? = some d ∧ d ≠ __zero_sbdd ∧ d.name = some name := by
  induction l with
  | nil => intro i0 k h; simp [find_device_from] at h
  | cons e rest ih =>
    intro i0 k h
    by_cases hz : e = __zero_sbdd
    · simp [find_device_from, hz] at h
    · cases hn : e.name with
      | none => simp [find_device_from, hz, hn] at h
      | some n =>
        by_cases hnn : name = n
        · simp only [find_device_from, hz, if_false, hn, hnn, if_true, Option.some.injEq] at h
          subst h
          exact ⟨e, Nat.le_refl _, by simp, hz, by rw [hn, hnn]⟩
        · simp only [find_device_from, hz, if_false, hn, hnn] at h
          obtain ⟨d, hle, hd, hdz, hdn⟩ := ih (i0 + 1) k h
          refine ⟨d, by omega, ?_, hdz, hdn⟩
          have : k - i0 = (k - (i0 + 1)) + 1 := by omega
          rw [this, List.getElem?_cons_succ]
          exact hd

theorem find_device_by_name_total (devices : List sbdd) (name : List Char)
    (h : table_named devices) : ∃ r, find_device_by_name devices name = some r :=
  find_device_from_total name _ 0 (fun d hd hz => (h d (List.mem_of_mem_take hd) hz).1)

theorem find_device_by_name_index (devices : List sbdd) (name : List Char) (k : Nat)
    (h : find_device_by_name devices name = some (some k)) :
    ∃ d, devices[k]? = some d ∧ d ∈ devices ∧ d ≠ __zero_sbdd ∧ d.name = some name := by
  obtain ⟨d, _, hd, hz, hn⟩ := find_device_from_index name _ 0 k h
  rw [Nat.sub_zero] at hd
  have hmem : d ∈ devices := List.mem_of_mem_take (List.getElem?_mem hd)
  rw [List.getElem?_take] at hd
  split at hd
  · exact ⟨d, hd, hmem, hz, hn⟩
  · exact absurd hd (by simp)

theorem char_at_drop (buf : List Char) (j : Nat) (c : Char) (rest : List Char)
    (h : buf.drop j = c :: rest) : char_at buf j = c := by
  have hj : buf[j]? = some c := by
    have := congrArg List.head? h
    rw [List.head?_drop] at this
    simpa using this
  have hlt : j < buf.length := by
    by_contra hc
    rw [List.getElem?_eq_none (Nat.le_of_not_lt hc)] at hj
    exact absurd hj (by simp)
  unfold char_at
  rw [List.getD_eq_getElem?_getD, List.getElem?_append_left hlt, hj]
  rfl

/-- With the arguments in place, `args` exists and does not start with white space. -/
theorem args_of_in_place (buf comm : List Char) (b : Nat) (hb : strstr buf comm = some b)
    (h : args_in_place buf comm) :
    command_args buf comm = some (buf.drop (b + comm.length + 1)) ∧
      ∀ c rest, buf.drop (b + comm.length + 1) = c :: rest → isspace c = false := by
  obtain ⟨h1, h2⟩ := h b hb
  constructor
  · unfold command_args
    simp only [hb]
    rw [if_pos (by omega)]
  · intro c rest hd
    rw [char_at_drop buf _ c rest hd] at h2
    exact h2

theorem sbdd_setup_total (env : kenv) (major : Int) (idx capacity_mib : Nat) (name : List Char)
    (name_len : Nat) (henv : unchecked_services_ok env) (hdisk : name.length < DISK_NAME_LEN) :
    ∃ r, sbdd_setup env major idx capacity_mib name name_len = some r := by
  obtain ⟨_, h2, h3⟩ := henv
  have hfit : ¬ (scnprintf_s name_len name).length + 1 > DISK_NAME_LEN := by
    have : (scnprintf_s name_len name).length ≤ name.length := by
      unfold scnprintf_s
      rw [List.length_take]
      exact Nat.min_le_right _ _
    omega
  unfold sbdd_setup
  simp only [h2, h3, hfit, Bool.not_true, Bool.false_eq_true, if_false]
  repeat' split
  all_goals exact ⟨_, rfl⟩

theorem add_new_sbdd_total (env : kenv) (g : globals) (capacity_mib : Nat) (name : List Char)
    (name_len : Nat) (henv : unchecked_services_ok env) (htab : table_named g.__devices)
    (hdisk : name.length < DISK_NAME_LEN) :
    ∃ r, add_new_sbdd env g capacity_mib name name_len = some r := by
  obtain ⟨f, hf⟩ := find_device_by_name_total g.__devices name htab
  unfold add_new_sbdd
  rw [hf]
  cases f with
  | some i => exact ⟨_, rfl⟩
  | none =>
    simp only
    split
    · rename_i i _
      obtain ⟨r, hr⟩ := sbdd_setup_total env g.__sbdd_major i capacity_mib name name_len henv
        hdisk
      rw [hr]
      exact ⟨_, rfl⟩
    · exact ⟨_, rfl⟩

/-- The call `create_com` returns when the arguments are in place, the
unchecked kernel services succeed and every occupied slot has a name. -/
theorem create_com_total (env : kenv) (g : globals) (buf : List Char) (count b : Nat)
    (hb : strstr buf "create".toList = some b) (hplace : args_in_place buf "create".toList)
    (hsize : buf.length < 2 ^ 64) (henv : unchecked_services_ok env)
    (htab : table_named g.__devices) :
    ∃ r, create_com env g buf count = some r := by
  obtain ⟨ha, hhead⟩ := args_of_in_place buf _ b hb hplace
  unfold create_com
  rw [ha]
  simp only
  split
  · exact ⟨_, rfl⟩
  · split
    · exact ⟨_, rfl⟩
    · rename_i sp hs
      rw [name_len_eq buf _ _ sp hsize ha hs]
      simp only [Nat.add_sub_cancel]
      rw [if_neg (Nat.succ_ne_zero _)]
      split
      · exact ⟨_, rfl⟩
      · rename_i hshort
        have hfit := Nat.le_trans (sscanf_s_lu_token _) (token_fits _ sp hhead hs)
        rw [henv.1]
        simp only [Bool.not_true, Bool.false_eq_true, if_false]
        rw [if_neg (by omega)]
        split
        · exact ⟨_, rfl⟩
        · apply add_new_sbdd_total env g _ _ _ henv htab
          unfold MAX_DEV_NAME_SIZE at hshort
          unfold DISK_NAME_LEN
          omega

/-- The call `change_mode_com` returns when the arguments are in place, the
argument buffer is allocated and every occupied slot has a name and a disk. -/
theorem change_mode_com_total (env : kenv) (g : globals) (buf : List Char) (count b : Nat)
    (hb : strstr buf "change_mode".toList = some b)
    (hplace : args_in_place buf "change_mode".toList) (hsize : buf.length < 2 ^ 64)
    (henv : unchecked_services_ok env) (htab : table_named g.__devices) :
    ∃ r, change_mode_com env g buf count = some r := by
  obtain ⟨ha, hhead⟩ := args_of_in_place buf _ b hb hplace
  unfold change_mode_com
  rw [ha]
  simp only
  split
  · exact ⟨_, rfl⟩
  · rename_i sp hs
    rw [name_len_eq buf _ _ sp hsize ha hs]
    rw [if_neg (Nat.succ_ne_zero _)]
    have hfit := Nat.le_trans (sscanf_s_d_token _) (token_fits _ sp hhead hs)
    rw [henv.1]
    simp only [Bool.not_true, Bool.false_eq_true, if_false]
    rw [if_neg (by omega)]
    split
    · exact ⟨_, rfl⟩
    · split
      · exact ⟨_, rfl⟩
      · obtain ⟨f, hf⟩ := find_device_by_name_total g.__devices
          (sscanf_s_d (buf.drop (b + "change_mode".toList.length + 1))).2.1 htab
        rw [hf]
        cases f with
        | none => exact ⟨_, rfl⟩
        | some i =>
          obtain ⟨d, hd, hmem, hz, _⟩ := find_device_by_name_index _ _ i hf
          simp only [hd]
          split
          · exact ⟨_, rfl⟩
          · cases hgd : d.gd with
            | none => exact absurd hgd (htab d hmem hz).2
            | some gd =>
              simp only [set_disk_ro, hd, hgd]
              exact ⟨_, rfl⟩

theorem execute_command_negative (env : kenv) (g g1 : globals) (buf : List Char) (count : Nat)
    (r : Int) (hsize : buf.length < 2 ^ 64)
    (h : execute_command env g buf count = some (r, g1)) (hneg : r < 0) :
    (∃ args, command_args buf "create".toList = some args ∧
        (create_args_malformed args ∨
          (∃ i, find_device_by_name g.__devices (sscanf_s_lu args).2.1 = some (some i)) ∨
          ¬ setup_succeeds env (sscanf_s_lu args).2.2)) ∨
      (∃ args, command_args buf "change_mode".toList = some args ∧
        change_mode_args_malformed args) := by
  have hret : ∀ ret : Int, (r = if ret ≠ 0 then ret else (count : Int)) → ret < 0 := by
    intro ret hr
    by_cases h0 : ret = 0
    · simp only [h0, ne_eq, not_true_eq_false, if_false] at hr
      omega
    · simp only [h0, ne_eq, not_false_eq_true, if_true] at hr
      omega
  rw [execute_command_eq] at h
  split at h
  · obtain ⟨ret, hc, hr⟩ := command_result_some count _ r g1 h
    exact Or.inl (create_com_negative env g g1 buf count ret hsize hc (hret ret hr))
  · split at h
    · obtain ⟨ret, hc, hr⟩ := command_result_some count _ r g1 h
      exact Or.inr (change_mode_com_negative env g g1 buf count ret hsize hc (hret ret hr))
    · simp only [Option.some.injEq, Prod.mk.injEq] at h
      omega

theorem execute_command_total (env : kenv) (g : globals) (buf : List Char) (count : Nat)
    (hsize : buf.length < 2 ^ 64) (hcreate : args_in_place buf "create".toList)
    (hchange : args_in_place buf "change_mode".toList) (henv : unchecked_services_ok env)
    (htab : table_named g.__devices) :
    ∃ r g1, execute_command env g buf count = some (r, g1) := by
  have hfound : ∀ comm, command_matches buf count comm = true → ∃ b, strstr buf comm = some b := by
    intro comm hm
    unfold command_matches at hm
    cases hs : strstr buf comm with
    | none => simp [hs] at hm
    | some b => exact ⟨b, rfl⟩
  rw [execute_command_eq]
  split
  · rename_i hm
    obtain ⟨b, hb⟩ := hfound _ hm
    obtain ⟨⟨ret, g1⟩, hr⟩ := create_com_total env g buf count b hb hcreate hsize henv htab
    rw [hr]
    exact ⟨_, _, rfl⟩
  · split
    · rename_i hm
      obtain ⟨b, hb⟩ := hfound _ hm
      obtain ⟨⟨ret, g1⟩, hr⟩ := change_mode_com_total env g buf count b hb hchange hsize henv
        htab
      rw [hr]
      exact ⟨_, _, rfl⟩
    · exact ⟨_, _, rfl⟩

theorem execute_command_create_auto (env : kenv) (g : globals) (buf : List Char) (count : Nat)
    (hm : command_matches buf count "create".toList = true) (hmode : g.__mode = mode.AUTO)
    (hplace : ∀ b, strstr buf "create".toList = some b → b + 6 < buf.length) :
    execute_command env g buf count = some ((count : Int), g) := by
  have hargs : ∃ args, command_args buf "create".toList = some args := by
    cases hs : strstr buf "create".toList with
    | none =>
      unfold command_matches at hm
      rw [hs] at hm
      exact absurd hm Bool.false_ne_true
    | some b =>
      have := hplace b hs
      have hl : "create".toList.length = 6 := rfl
      unfold command_args
      rw [hs]
      simp only
      rw [if_pos (by omega)]
      exact ⟨_, rfl⟩
  obtain ⟨args, ha⟩ := hargs
  rw [execute_command_eq, if_pos hm]
  unfold create_com
  rw [ha]
  simp only
  rw [if_pos hmode]
  rfl

/-- C11 (amended): for every buffer, byte count, operating mode, table and
kernel, a console write that returns gives back the full byte count, 1, 2,
`-EINVAL`, `-ENOMEM` or the code that `device_register` returned. It returns
the byte count with the globals unchanged for input in which neither keyword
is recognised, and for a recognised `create` in `AUTO` mode when the buffer
goes on behind the keyword. A negative code comes only from malformed
arguments (no space, name too long, no number), from a name the lookup
already finds, or from a kernel service of the set-up that fails. And the
write does return when the arguments start right behind the keyword, the
services the driver does not check succeed, and every occupied slot has a
name and a disk. -/
theorem execute_command_outcomes (env : kenv) (g : globals) (buf : List Char) (count : Nat) :
    (∀ (r : Int) (g1 : globals), execute_command env g buf count = some (r, g1) →
        r = (count : Int) ∨ r = 1 ∨ r = 2 ∨ r = -EINVAL ∨ r = -ENOMEM ∨
          r = env.device_register_ret) ∧
      (command_matches buf count "create".toList = false →
        command_matches buf count "change_mode".toList = false →
        execute_command env g buf count = some ((count : Int), g)) ∧
      (command_matches buf count "create".toList = true → g.__mode = mode.AUTO →
        (∀ b, strstr buf "create".toList = some b → b + 6 < buf.length) →
        execute_command env g buf count = some ((count : Int), g)) ∧
      (buf.length < 2 ^ 64 →
        ∀ (r : Int) (g1 : globals), execute_command env g buf count = some (r, g1) → r < 0 →
          (∃ args, command_args buf "create".toList = some args ∧
            (create_args_malformed args ∨
              (∃ i, find_device_by_name g.__devices (sscanf_s_lu args).2.1 = some (some i)) ∨
              ¬ setup_succeeds env (sscanf_s_lu args).2.2)) ∨
          (∃ args, command_args buf "change_mode".toList = some args ∧
            change_mode_args_malformed args)) ∧
      (buf.length < 2 ^ 64 → args_in_place buf "create".toList →
        args_in_place buf "change_mode".toList → unchecked_services_ok env →
        table_named g.__devices →
        ∃ (r : Int) (g1 : globals), execute_command env g buf count = some (r, g1)) := by
  refine ⟨fun r g1 h => execute_command_values env g g1 buf count r h, ?_,
    execute_command_create_auto env g buf count,
    fun hsize r g1 h hneg => execute_command_negative env g g1 buf count r hsize h hneg,
    execute_command_total env g buf count⟩
  intro h1 h2
  rw [execute_command_eq, h1, h2]
  simp

/-- C11 (counterexample): in `USER` mode with every allocation succeeding,
`change_mode a 5` returns 2, `change_mode a 1` on a volume that is being
deleted returns 1, and `create vol0 10` on a full table returns 1: values
that are neither the byte count nor negative. And `create a 5`, well formed,
returns `-EINVAL` because the name `a` is already held. Besides, for the six
bytes `create` in `AUTO` mode the pointer `args` lies behind the terminating
NUL of the buffer, and `strstr(args, " ")` reads outside the buffer before
the mode is looked at. -/
theorem execute_command_positive_codes :
    execute_command env_good two_volume_globals (change_mode_text ['a'] ['5'] [])
          (change_mode_text ['a'] ['5'] []).length = some (2, two_volume_globals) ∧
      (2 : Int) ≠ ((change_mode_text ['a'] ['5'] []).length : Int) ∧ ¬ ((2 : Int) < 0) ∧
      execute_command env_good deleting_globals (change_mode_text ['a'] ['1'] [])
          (change_mode_text ['a'] ['1'] []).length = some (1, deleting_globals) ∧
      execute_command env_good full_globals vol0_create_text vol0_create_text.length
        = some (1, full_globals) ∧
      (1 : Int) ≠ (vol0_create_text.length : Int) ∧
      execute_command env_good two_volume_globals (create_text ['a'] ['5'] [])
          (create_text ['a'] ['5'] []).length = some (-EINVAL, two_volume_globals) ∧
      create_text ['a'] ['5'] [] = "create a 5".toList ∧ setup_succeeds env_good 5 ∧
      command_matches "create".toList 6 "create".toList = true ∧
      command_args "create".toList "create".toList = none ∧
      execute_command env_good (initial_globals mode.AUTO 252) "create".toList 6 = none := by
  refine ⟨rfl, by decide, by decide, rfl, rfl, by decide, rfl, by decide,
    ⟨by decide, rfl, rfl, rfl, rfl, rfl⟩, by decide, by decide, by decide⟩

theorem vol0_create_in_place :
    args_in_place vol0_create_text "create".toList ∧
      args_in_place vol0_create_text "change_mode".toList := by
  constructor
  · intro b hb
    have e : strstr vol0_create_text "create".toList = some 0 := by decide
    rw [e, Option.some.injEq] at hb
    subst hb
    exact ⟨by decide, by decide⟩
  · intro b hb
    have e : strstr vol0_create_text "change_mode".toList = none := by decide
    rw [e] at hb
    exact absurd hb (by simp)

/-- Witness of C11 (amended): `hello` is returned with its byte count and
nothing changes; `create vol0 10` in `AUTO` mode likewise; and
`create vol0 10` on the table that holds `b` and `a` returns. -/
theorem execute_command_outcomes_witness :
    execute_command env_good empty_globals "hello".toList 5 = some (5, empty_globals) ∧
      execute_command env_good (initial_globals mode.AUTO 252) vol0_create_text
          vol0_create_text.length
        = some ((vol0_create_text.length : Int), initial_globals mode.AUTO 252) ∧
      ∃ (r : Int) (g1 : globals),
        execute_command env_good two_volume_globals vol0_create_text vol0_create_text.length
          = some (r, g1) :=
  ⟨(execute_command_outcomes env_good empty_globals "hello".toList 5).2.1 (by decide)
      (by decide),
    (execute_command_outcomes env_good (initial_globals mode.AUTO 252) vol0_create_text
      vol0_create_text.length).2.2.1 (by decide) rfl
      (fun b hb => (vol0_create_in_place.1 b hb).1),
    (execute_command_outcomes env_good two_volume_globals vol0_create_text
      vol0_create_text.length).2.2.2.2 (by decide) vol0_create_in_place.1
      vol0_create_in_place.2 ⟨rfl, rfl, rfl⟩
      (show ∀ d ∈ two_volume_globals.__devices, d ≠ __zero_sbdd → d.name ≠ none ∧ d.gd ≠ none
        from by decide)⟩

/-! ## Interleaved execution of submit and destroy -/

/-- A submit thread that runs alone, statement by statement, ends where
`sbdd_make_request` ends. -/
theorem run_submit_alone (dev dev1 : sbdd) (b b1 : bio) (st : Nat) (pc : destroy_at)
    (h : sbdd_make_request b dev = some (st, b1, dev1)) :
    ∃ n, run_schedule
        { dev := dev, transferring := false, submits := [(submit_at.lock, b)], destroy := pc }
        (List.replicate n (thread.submitter 0))
      = some { dev := dev1, transferring := false, submits := [(submit_at.returned st, b1)],
               destroy := pc } := by
  unfold sbdd_make_request at h
  split at h
  · rename_i hdel
    simp only [Option.some.injEq, Prod.mk.injEq] at h
    obtain ⟨h1, h2, h3⟩ := h
    subst h1 h2 h3
    refine ⟨3, ?_⟩
    simp [List.replicate, run_schedule, race_step, submit_step, hdel]
  · rename_i hdel
    split at h
    · exact absurd h (by simp)
    · rename_i p segs1 dev2 hx
      simp only [Option.some.injEq, Prod.mk.injEq] at h
      obtain ⟨h1, h2, h3⟩ := h
      subst h1 h2 h3
      refine ⟨6, ?_⟩
      simp [List.replicate, run_schedule, race_step, submit_step, hdel, hx]

set_option maxRecDepth 100000 in
/-- C12 (failing interleaving): a submit takes the lock `transferring` and
reads `deleting = 0`; `sbdd_destroy`, which does not take that lock, sets
`deleting = 1` and passes `wait_event` because `refs_cnt` is still 0; the
submit then increments `refs_cnt`, copies into the storage and returns
`BLK_STS_OK`. The check and the increment are not one step with respect to
destroy, and a submit is admitted and copies after destroy has set `deleting`
and seen `refs_cnt == 0`. -/
theorem submit_admitted_after_drain :
    (run_schedule (race_start example_volume [example_bio]) (late_admission.take 2)).map
        (fun s => (s.destroy, s.dev.deleting, s.submits.map Prod.fst))
      = some (destroy_at.set, 0, [submit_at.inc]) ∧
    (run_schedule (race_start example_volume [example_bio]) (late_admission.take 4)).map
        (fun s => (s.destroy, s.dev.deleting, s.dev.refs_cnt, s.submits.map Prod.fst))
      = some (destroy_at.drained, 1, 0, [submit_at.inc]) ∧
    (run_schedule (race_start example_volume [example_bio]) (late_admission.take 5)).map
        (fun s => (s.destroy, s.dev.deleting, s.dev.refs_cnt, s.submits.map Prod.fst))
      = some (destroy_at.drained, 1, 1, [submit_at.xfer]) ∧
    example_volume.data.map (fun d => (d.drop 512).take 1) = some [0] ∧
    (run_schedule (race_start example_volume [example_bio]) (late_admission.take 6)).map
        (fun s => (s.destroy, s.dev.data.map fun d => (d.drop 512).take 1,
          s.submits.map Prod.fst))
      = some (destroy_at.drained, some [7], [submit_at.dec]) ∧
    (run_schedule (race_start example_volume [example_bio]) late_admission).map
        (fun s => (s.destroy, s.dev.deleting, s.dev.refs_cnt, s.submits.map Prod.fst))
      = some (destroy_at.drained, 1, 0, [submit_at.returned BLK_STS_OK]) := by
  refine ⟨by decide, by decide, by decide, by decide, by decide, by decide⟩


end Sbdd
